import Mathlib

/-!
# Dynamic slicer (`dynslice.cpp`): use/def extraction, trace alignment, backward slicing

A shallow embedding of `qemu/panda_tools/dynslice/dynslice.cpp`.

* Pointers into the immutable IR module are modelled by the pointee together with its
  address (`addr`); pointer comparisons compare the addresses.
* `std::set<std::string>` is a `Finset String`; `std::map<std::string,std::string>` is an
  association list with unique keys; `std::stack` is a list whose head is the top.
* A failed `assert`, a null dereference and an out-of-range access abort the program:
  the functions that can reach one return `Option`, and `none` is the abort.
* 64-bit fields are natural numbers; arithmetic that can wrap is reduced `% 2^64` where
  the source performs it.
* The log is a function from record offsets to records; the recursion of the aligner is
  bounded by fuel.
-/

namespace Dynslice

/-! ## Constants of `panda_memlog.h` (not part of the sources at hand) -/

/-- The enumerators of `panda_memlog.h` that `handleLoad` and `handleStore` use. The header
is not available, so the values are a parameter; the three address kinds are labels of one
`switch`, hence pairwise distinct. -/
structure MemlogEnums where
  GREG : Int
  MADDR : Int
  GSPEC : Int
  IRRELEVANT : Int
  greg_ne_maddr : GREG ≠ MADDR
  greg_ne_gspec : GREG ≠ GSPEC
  maddr_ne_gspec : MADDR ≠ GSPEC

/-- The bound `MAX_BITSET` on the instructions of one block. -/
def MAX_BITSET : Nat := 2048

/-! ## Log records -/

/-- One packed record of the dynamic log (`struct TUBTEntry`); each field is a `uint64_t`. -/
structure TUBTEntry where
  asid : Nat
  pc : Nat
  type : Nat
  arg1 : Nat
  arg2 : Nat
  arg3 : Nat
  arg4 : Nat
deriving DecidableEq, Repr

/-- A `TUBTEntry*` held by a trace entry: a record of the memory-mapped log (its offset in
records from the first record, and the record stored there; the log is never written), or a
record allocated by the aligner for a PHI. -/
inductive DynPtr where
  | log (offset : Nat) (row : TUBTEntry)
  | synth (row : TUBTEntry)
deriving DecidableEq, Repr

/-- Dereference of a `TUBTEntry*`. -/
def DynPtr.row : DynPtr → TUBTEntry
  | .log _ r => r
  | .synth r => r

/-! ## The IR handle graph -/

/-- An `llvm::Value*` as the slicer sees it: identity, optional name, and the two class
tests `isa<Constant>` and `isa<BasicBlock>`. -/
structure Value where
  addr : Nat
  name : Option String
  isConstant : Bool
  isBasicBlock : Bool
deriving DecidableEq, Repr

/-- The part of an `llvm::Function` that does not depend on its body. -/
structure FunctionDecl where
  addr : Nat
  name : String
  args : List Value
  isDeclaration : Bool
  isIntrinsic : Bool
deriving DecidableEq, Repr

/-- Instruction kinds, one per opcode the program dispatches on. Basic blocks are referred to
by address. `operands` is the operand list that `op_begin()..op_end()` enumerates. For a
switch, `cases` pairs each case value with the index of its successor, and successor 0 is
the default destination. -/
inductive InstKind where
  | store (value pointer : Value) (isVolatile : Bool)
  | load (pointer : Value)
  | call (callee : Option FunctionDecl) (args : List Value) (isVoidTy : Bool)
  | ret (retval : Option Value)
  | phi (incoming : List (Value × Nat))
  | select (cond trueValue falseValue : Value)
  | unreachable
  | br (operands : List Value) (successors : List Nat)
  | switch (operands : List Value) (width : Nat) (cases : List (Nat × Nat))
      (successors : List Nat)
  | other (opcode : Nat) (operands : List Value) (isTerminator : Bool)
deriving DecidableEq, Repr

/-- An `llvm::Instruction`: identity, optional name, parent block (by address), kind. -/
structure Instruction where
  addr : Nat
  name : Option String
  parent : Nat
  kind : InstKind
deriving DecidableEq, Repr

/-- An `llvm::BasicBlock`. -/
structure BasicBlock where
  addr : Nat
  insns : List Instruction
deriving DecidableEq, Repr

/-- An `llvm::Function` with its block list. -/
structure Function extends FunctionDecl where
  blocks : List BasicBlock
deriving DecidableEq, Repr

/-- An instruction used as a value; an instruction is never a `Constant` or a block. -/
def Instruction.toValue (i : Instruction) : Value :=
  { addr := i.addr, name := i.name, isConstant := false, isBasicBlock := false }

/-- The test `Instruction::isTerminator`. -/
def Instruction.isTerminator (i : Instruction) : Bool :=
  match i.kind with
  | .ret _ => true
  | .br _ _ => true
  | .switch _ _ _ _ => true
  | .unreachable => true
  | .other _ _ t => t
  | _ => false

/-- The test `isa<ReturnInst>`. -/
def Instruction.isReturn (i : Instruction) : Bool :=
  match i.kind with
  | .ret _ => true
  | _ => false

/-- One element of the aligned sequence (`struct trace_entry`). -/
structure trace_entry where
  index : Nat
  func : Function
  insn : Instruction
  dyn : Option DynPtr
  dyn2 : Option DynPtr
deriving DecidableEq, Repr

/-! ## Name model -/

/-- Rendering of `%llx`: lower-case hexadecimal without leading zeros. -/
def hex (n : Nat) : String := String.mk (Nat.toDigits 16 n)

/-- Rendering of `std::to_string` on a `uint64_t`: decimal. -/
def to_string (n : Nat) : String := String.mk (Nat.toDigits 10 n)

/-- The test `StringRef::startswith`. -/
def startswith (s p : String) : Bool := p.data.isPrefixOf s.data

/-- Addr-entry decoding; the three outputs are `int`, so the offset is the low 32 bits of
`entry >> 16` read as a signed number. -/
def extract_addrentry (entry : Nat) : Int × Int × Int :=
  let typ : Int := ((entry % 2 ^ 64) % 256 : Nat)
  let flag : Int := (((entry % 2 ^ 64) / 256) % 256 : Nat)
  let o : Nat := ((entry % 2 ^ 64) / 65536) % 2 ^ 32
  let off : Int := if o < 2 ^ 31 then (o : Int) else (o : Int) - 2 ^ 32
  (typ, flag, off)

/-- Name of a value: its own name, or `LV_` followed by its address in hexadecimal. -/
def get_value_name (v : Value) : String :=
  match v.name with
  | some n => n
  | none => "LV_" ++ hex v.addr

/-- Insertion of a value name unless the value is a constant. -/
def insertValue (s : Finset String) (v : Value) : Finset String :=
  if v.isConstant then s else insert (get_value_name v) s

/-! ## Use/Def extractor -/

/-- The `switch (typ)` shared by `handleStore` and `handleLoad`: the location named by an
address kind and the dynamic `arg2`, or nothing for an unhandled kind (a warning is printed). -/
def addr_location (K : MemlogEnums) (typ : Int) (arg2 : Nat) : Option String :=
  if typ = K.GREG then some ("REG_" ++ to_string arg2)
  else if typ = K.MADDR then some ("HOST_" ++ to_string arg2)
  else if typ = K.GSPEC then some ("SPEC_" ++ to_string arg2)
  else none

/-- Insertion of an optional location name. -/
def insertLoc (s : Finset String) (l : Option String) : Finset String :=
  match l with
  | some n => insert n s
  | none => s

/-- Use/def of a store. -/
def handleStore (K : MemlogEnums) (t : trace_entry) (uses defs : Finset String) :
    Option (Finset String × Finset String) :=
  match t.insn.kind with
  | .store v p isVolatile =>
    match t.dyn with
    | none => none
    | some d =>
      let (typ, flag, _) := extract_addrentry d.row.arg1
      if !isVolatile ∧ flag ≠ K.IRRELEVANT then
        let defs := insertLoc defs (addr_location K typ d.row.arg2)
        let uses := insertValue uses v
        let uses := insertValue uses p
        some (uses, defs)
      else some (uses, defs)
  | _ => none

/-- Use/def of a load. -/
def handleLoad (K : MemlogEnums) (t : trace_entry) (uses defs : Finset String) :
    Option (Finset String × Finset String) :=
  match t.insn.kind with
  | .load p =>
    match t.dyn with
    | none => none
    | some d =>
      let (typ, flag, _) := extract_addrentry d.row.arg1
      let uses := if flag ≠ K.IRRELEVANT then insertLoc uses (addr_location K typ d.row.arg2)
                  else uses
      let uses := insertValue uses p
      let defs := insertValue defs t.insn.toValue
      some (uses, defs)
  | _ => none

/-- Default use/def: every operand that is not a block reference is used, the result is
defined. -/
def handleDefault (operands : List Value) (t : trace_entry) (uses defs : Finset String) :
    Finset String × Finset String :=
  let uses := operands.foldl (fun u v => if v.isBasicBlock then u else insertValue u v) uses
  (uses, insertValue defs t.insn.toValue)

/-- The size switch of the memory helpers on the fifth character of the callee name. -/
def helper_size (func_name : String) : Option Nat :=
  match func_name.data.get? 4 with
  | some 'q' => some 8
  | some 'l' => some 4
  | some 'w' => some 2
  | some 'b' => some 1
  | _ => none

/-- The names `MEM_<hex(arg2 + off)>` for `off = 0 .. size-1`, inserted into `s`; the sum is
a `uint64_t`. -/
def insertMem (s : Finset String) (arg2 size : Nat) : Finset String :=
  (List.range size).foldl (fun acc off => insert ("MEM_" ++ hex ((arg2 + off) % 2 ^ 64)) acc) s

/-- Use/def of a call. -/
def handleCall (t : trace_entry) (uses defs : Finset String) :
    Option (Finset String × Finset String) :=
  match t.insn.kind with
  | .call callee args isVoidTy =>
    match callee with
    | none => none
    | some subf =>
      let func_name := subf.name
      if startswith func_name "__ld" then
        match helper_size func_name, t.dyn, args.get? 0 with
        | some size, some d, some load_addr =>
          let uses := insertMem uses d.row.arg2 size
          let uses := insertValue uses load_addr
          some (uses, insertValue defs t.insn.toValue)
        | _, _, _ => none
      else if startswith func_name "__st" then
        match helper_size func_name, t.dyn, args.get? 0, args.get? 1 with
        | some size, some d, some store_addr, some store_val =>
          let defs := insertMem defs d.row.arg2 size
          let uses := insertValue uses store_addr
          let uses := insertValue uses store_val
          some (uses, defs)
        | _, _, _, _ => none
      else if startswith func_name "llvm.memcpy" then some (uses, defs)
      else if startswith func_name "llvm.memset" then some (uses, defs)
      else if startswith func_name "helper_in" then some (uses, defs)
      else if startswith func_name "helper_out" then some (uses, defs)
      else if startswith func_name "log_dynval" then some (uses, defs)
      else
        let defs := if !isVoidTy then insertValue defs t.insn.toValue else defs
        some (insert (func_name ++ ".retval") uses, defs)
  | _ => none

/-- Use/def of a return. -/
def handleRet (t : trace_entry) (uses defs : Finset String) :
    Option (Finset String × Finset String) :=
  match t.insn.kind with
  | .ret rv =>
    let uses := match rv with
      | some v => insertValue uses v
      | none => uses
    some (uses, insert (t.func.name ++ ".retval") defs)
  | _ => none

/-- Use/def of a PHI; `getIncomingValue` takes an `unsigned` and asserts it in range. -/
def handlePHI (t : trace_entry) (uses defs : Finset String) :
    Option (Finset String × Finset String) :=
  match t.insn.kind with
  | .phi incoming =>
    match t.dyn with
    | none => none
    | some d =>
      match incoming.get? (d.row.arg1 % 2 ^ 32) with
      | none => none
      | some (v, _) => some (insertValue uses v, insertValue defs t.insn.toValue)
  | _ => none

/-- Use/def of a select; the dynamic value is negated in the log. -/
def handleSelect (t : trace_entry) (uses defs : Finset String) :
    Option (Finset String × Finset String) :=
  match t.insn.kind with
  | .select cond trueValue falseValue =>
    match t.dyn with
    | none => none
    | some d =>
      let v := if d.row.arg1 = 1 then falseValue else trueValue
      let uses := insertValue uses v
      let uses := insertValue uses cond
      some (uses, insertValue defs t.insn.toValue)
  | _ => none

/-- Dispatch on the opcode of the entry. -/
def get_uses_and_defs (K : MemlogEnums) (t : trace_entry) (uses defs : Finset String) :
    Option (Finset String × Finset String) :=
  match t.insn.kind with
  | .store _ _ _ => handleStore K t uses defs
  | .load _ => handleLoad K t uses defs
  | .call _ _ _ => handleCall t uses defs
  | .ret _ => handleRet t uses defs
  | .phi _ => handlePHI t uses defs
  | .select _ _ _ => handleSelect t uses defs
  | .unreachable => some (uses, defs)
  | .br operands _ => some (handleDefault operands t uses defs)
  | .switch operands _ _ _ => some (handleDefault operands t uses defs)
  | .other _ operands _ => some (handleDefault operands t uses defs)

/-! ## Marked map -/

/-- The global `marked`: keys are (function, block ordinal), values the set bits of the
bitset. Keys are unique. -/
abbrev MarkedMap := List ((Nat × Nat) × Finset Nat)

/-- The bitset stored under a key (all zero when the key is absent). -/
def marked_get (m : MarkedMap) (k : Nat × Nat) : Finset Nat :=
  match m with
  | [] => ∅
  | (k0, b) :: rest => if k0 = k then b else marked_get rest k

/-- The assignment `marked[k][j] = true`; `operator[]` creates the key when absent. -/
def marked_set (m : MarkedMap) (k : Nat × Nat) (j : Nat) : MarkedMap :=
  match m with
  | [] => [(k, {j})]
  | (k0, b) :: rest =>
    if k0 = k then (k0, insert j b) :: rest else (k0, b) :: marked_set rest k j

/-- Marking of an entry; `index` is a `uint32_t`. The `assert` aborts on a large ordinal. -/
def mark (marked : MarkedMap) (t : trace_entry) : Option MarkedMap :=
  let bb_num := (t.index % 2 ^ 32) / 65536
  let insn_index := (t.index % 2 ^ 32) % 65536
  if insn_index < MAX_BITSET then some (marked_set marked (t.func.addr, bb_num) insn_index)
  else none

/-! ## Slicer -/

/-- The test `is_ignored` on the callee name. -/
def is_ignored (func_name : String) : Bool :=
  startswith func_name "__ld" || startswith func_name "__st" ||
  startswith func_name "llvm.memcpy" || startswith func_name "llvm.memset" ||
  startswith func_name "helper_in" || startswith func_name "helper_out" ||
  func_name == "log_dynval"

/-- A `std::map<std::string,std::string>` binding formal names to actual names. -/
abbrev ArgMap := List (String × String)

/-- Lookup `argmap.find(u)`. -/
def argmap_find (m : ArgMap) (u : String) : Option String :=
  match m with
  | [] => none
  | (k, v) :: rest => if k = u then some v else argmap_find rest u

/-- Assignment `argmap[k] = v`. -/
def argmap_set (m : ArgMap) (k v : String) : ArgMap :=
  match m with
  | [] => [(k, v)]
  | (k0, v0) :: rest => if k0 = k then (k0, v) :: rest else (k0, v0) :: argmap_set rest k v

/-- The map built at a call site: formals and actuals are paired up to the shorter list. -/
def bind_args (formals actuals : List Value) : ArgMap :=
  (formals.zip actuals).foldl
    (fun m fa => argmap_set m (get_value_name fa.1) (get_value_name fa.2)) []

/-- State of the reverse walk: the global marked map, the working set, and the local
argument-binding stack (head is the top). -/
structure SliceState where
  marked : MarkedMap
  work : Finset String
  argmap_stack : List ArgMap

/-- The remapping loop over `uses` for an entry outside the entry function. The loop erases
from the set it iterates over; the model visits the elements the set had when the loop
started, in ascending order, and performs each erase and insert on the current set. `top()`
is only evaluated inside the loop, so an empty stack aborts only when `uses` is non-empty. -/
def remap_uses (entry_func : Function) (stack : List ArgMap) (t : trace_entry)
    (uses : Finset String) : Option (Finset String) :=
  if t.func.addr ≠ entry_func.addr then
    if uses = ∅ then some uses
    else
      match stack with
      | [] => none
      | argmap :: _ =>
        some ((uses.sort (· ≤ ·)).foldl
          (fun acc u =>
            match argmap_find argmap u with
            | some a => insert a (acc.erase u)
            | none => acc) uses)
  else some uses

/-- The overlap test, marking and working-set update of one step. -/
def update_work (include_branches : Bool) (marked : MarkedMap) (work : Finset String)
    (t : trace_entry) (uses defs : Finset String) : Option (MarkedMap × Finset String) :=
  if (defs ∩ work).Nonempty then
    (mark marked t).map (fun m => (m, (work \ defs) ∪ uses))
  else if t.insn.isTerminator && !t.insn.isReturn && include_branches then
    (mark marked t).map (fun m => (m, work ∪ uses))
  else some (marked, work)

/-- Whether `insn` is the first instruction of the entry block of `f`. -/
def is_entry_insn (f : Function) (insn : Instruction) : Bool :=
  match f.blocks with
  | [] => false
  | b :: _ =>
    match b.insns with
    | [] => false
    | i0 :: _ => i0.addr == insn.addr

/-- Maintenance of the argument-binding stack after an entry has been processed. -/
def update_argmap_stack (stack : List ArgMap) (t : trace_entry) : Option (List ArgMap) :=
  match t.insn.kind with
  | .call callee args _ =>
    match callee with
    | none => none
    | some subf =>
      if !is_ignored subf.name then some (bind_args subf.args args :: stack) else some stack
  | _ => if is_entry_insn t.func t.insn then some stack.tail else some stack

/-- One iteration of the loop of `slice_trace`. -/
def slice_step (K : MemlogEnums) (include_branches : Bool) (entry_func : Function)
    (s : SliceState) (t : trace_entry) : Option SliceState :=
  match get_uses_and_defs K t ∅ ∅ with
  | none => none
  | some (uses0, defs) =>
    match remap_uses entry_func s.argmap_stack t uses0 with
    | none => none
    | some uses =>
      match update_work include_branches s.marked s.work t uses defs with
      | none => none
      | some (marked, work) =>
        match update_argmap_stack s.argmap_stack t with
        | none => none
        | some stack => some { marked := marked, work := work, argmap_stack := stack }

/-- The loop of `slice_trace` over entries given in the order they are visited. -/
def slice_loop (K : MemlogEnums) (include_branches : Bool) (entry_func : Function)
    (s : SliceState) (visited : List trace_entry) : Option SliceState :=
  match visited with
  | [] => some s
  | t :: rest =>
    match slice_step K include_branches entry_func s t with
    | none => none
    | some s1 => slice_loop K include_branches entry_func s1 rest

/-- The reverse walk of `slice_trace`: the state when the loop finishes. `trace[0]` of an
empty vector is out of range. -/
def slice_walk (K : MemlogEnums) (include_branches : Bool) (trace : List trace_entry)
    (marked : MarkedMap) (work : Finset String) : Option SliceState :=
  match trace with
  | [] => none
  | t0 :: _ =>
    slice_loop K include_branches t0.func
      { marked := marked, work := work, argmap_stack := [] } trace.reverse

/-- The whole of `slice_trace`: the walk, then the first formal argument of the entry
function is erased from the working set. Result: the marked map and the working set. -/
def slice_trace (K : MemlogEnums) (include_branches : Bool) (trace : List trace_entry)
    (marked : MarkedMap) (work : Finset String) : Option (MarkedMap × Finset String) :=
  match trace with
  | [] => none
  | t0 :: _ =>
    match slice_walk K include_branches trace marked work with
    | none => none
    | some s =>
      match t0.func.args with
      | [] => none
      | a :: _ => some (s.marked, s.work.erase (get_value_name a))

/-- The bit of the entry is set in a marked map: bit `index & 0xffff` of the bitset stored
under the key `(func, index >> 16)`, the bit `mark` assigns. -/
def IsMarked (m : MarkedMap) (t : trace_entry) : Prop :=
  (t.index % 2 ^ 32) % 65536 ∈ marked_get m (t.func.addr, (t.index % 2 ^ 32) / 65536)

/-- The walk started in state `s0` marks the entry `t` that it visits right after the entries
`pre`, `defs` are the defs extracted from `t`, and `final` is the marked map the walk ends
with: at the state `s` reached after `pre` either the defs overlap the working set or the
entry is a terminator other than a return and `include_branches` is on; the step on `t`
calls `mark`, which succeeds and yields the marked map of the next state; and the bit of `t`
is set in `final`. -/
def MarksEntry (K : MemlogEnums) (include_branches : Bool) (entry_func : Function)
    (s0 : SliceState) (pre : List trace_entry) (t : trace_entry) (defs : Finset String)
    (final : MarkedMap) : Prop :=
  ∃ s s1 uses, slice_loop K include_branches entry_func s0 pre = some s ∧
    get_uses_and_defs K t ∅ ∅ = some (uses, defs) ∧
    ((defs ∩ s.work).Nonempty ∨
      (t.insn.isTerminator && !t.insn.isReturn && include_branches) = true) ∧
    slice_step K include_branches entry_func s t = some s1 ∧
    mark s.marked t = some s1.marked ∧ IsMarked final t

/-! ## Aligner -/

/-- Record types of the log; `tubtf.h` is not at hand, the values are the positions of the
names in the table `TubtfEITypeStr`. -/
def TUBTFE_LLVM_FN : Nat := 30
/-- Record type of a dynamic load. -/
def TUBTFE_LLVM_DV_LOAD : Nat := 31
/-- Record type of a dynamic store. -/
def TUBTFE_LLVM_DV_STORE : Nat := 32
/-- Record type of a dynamic branch. -/
def TUBTFE_LLVM_DV_BRANCH : Nat := 33
/-- Record type of a dynamic select. -/
def TUBTFE_LLVM_DV_SELECT : Nat := 34
/-- Record type of a dynamic switch. -/
def TUBTFE_LLVM_DV_SWITCH : Nat := 35
/-- Record type of an exception. -/
def TUBTFE_LLVM_EXCEPTION : Nat := 36

/-- Position of the first element satisfying `p`, counted from `i`. -/
def findIndexFrom {α : Type} (p : α → Bool) (l : List α) (i : Nat) : Option Nat :=
  match l with
  | [] => none
  | a :: rest => if p a then some i else findIndexFrom p rest (i + 1)

/-- Index of a block (given by address) in the block list of a function, `-1` if absent. -/
def getBlockIndex (f : Function) (b : Nat) : Int :=
  match findIndexFrom (fun blk => blk.addr == b) f.blocks 0 with
  | some i => (i : Int)
  | none => -1

/-- The packing `insn_index | (bb_index << 16)` stored into the `uint32_t` index. -/
def pack_index (insn_index : Nat) (bb_index : Int) : Nat :=
  (insn_index ||| ((bb_index * 65536) % 2 ^ 32).toNat) % 2 ^ 32

/-- State threaded through alignment: the cursor (offset in records), the aligned sequence
built so far, and the global flag `in_exception`. -/
structure AlignState where
  cursor : Nat
  serialized : List trace_entry
  in_exception : Bool
deriving DecidableEq

/-- The test on the opcode for PHI. -/
def Instruction.isPHI (i : Instruction) : Bool :=
  match i.kind with
  | .phi _ => true
  | _ => false

/-- The value `PHINode::getBasicBlockIndex` as a `uint64_t`: index of the first incoming
edge from the block, or `-1` converted. -/
def phi_block_index (incoming : List (Value × Nat)) (b : Nat) : Nat :=
  match findIndexFrom (fun vb => vb.2 == b) incoming 0 with
  | some i => i
  | none => 2 ^ 64 - 1

/-- The synthesized `arg1` of a PHI record: the sentinel `-1` unless the sequence holds a
non-PHI entry, in which case the incoming index for the parent block of the last one. -/
def phi_arg1 (incoming : List (Value × Nat)) (serialized : List trace_entry) : Nat :=
  match serialized.reverse.find? (fun e => !e.insn.isPHI) with
  | some e => phi_block_index incoming e.insn.parent
  | none => 2 ^ 64 - 1

/-- Appending an entry for instruction `i` of `f` and, when a record is attached, moving the
cursor past it. -/
def push_entry (st : AlignState) (index : Nat) (f : Function) (i : Instruction)
    (dyn : Option DynPtr) (consumed : Nat) : AlignState :=
  { cursor := st.cursor + consumed,
    serialized := st.serialized ++
      [{ index := index, func := f, insn := i, dyn := dyn, dyn2 := none }],
    in_exception := st.in_exception }

/-- The loops of `process_func`, from a position inside a block: `insns` are the instructions
of the current block still to visit, `insn_index` the ordinal of the first of them, `next`
the successor chosen by a `Br` or `Switch` of this block (`have_successor` when present).
`M` lists the functions of the module (bodies of callees are found by address), `log` gives
the record at each offset. Every instruction visited, every block entered and every callee
descended costs one unit of `fuel`; `none` is a failed `assert` or exhausted fuel. -/
def process_insns (M : List Function) (log : Nat → TUBTEntry) :
    Nat → Function → Int → Nat → List Instruction → Option Nat → AlignState →
    Option AlignState
  | 0, _, _, _, _, _, _ => none
  | fuel + 1, f, _, _, [], next, st =>
    match next with
    | none => some st
    | some b =>
      match f.blocks.find? (fun blk => blk.addr == b) with
      | none => none
      | some blk => process_insns M log fuel f (getBlockIndex f b) 0 blk.insns none st
  | fuel + 1, f, bb_index, insn_index, i :: rest, next, st =>
    let index := pack_index insn_index bb_index
    let cur := log st.cursor
    let here : Option DynPtr := some (.log st.cursor cur)
    if st.in_exception then some st
    else if cur.type = TUBTFE_LLVM_EXCEPTION then
      some { st with in_exception := true, cursor := st.cursor + 1 }
    else
      match i.kind with
      | .load _ =>
        if cur.type = TUBTFE_LLVM_DV_LOAD then
          process_insns M log fuel f bb_index (insn_index + 1) rest next
            (push_entry st index f i here 1)
        else none
      | .store _ _ isVolatile =>
        if !isVolatile then
          if cur.type = TUBTFE_LLVM_DV_STORE then
            process_insns M log fuel f bb_index (insn_index + 1) rest next
              (push_entry st index f i here 1)
          else none
        else process_insns M log fuel f bb_index (insn_index + 1) rest next st
      | .br _ successors =>
        if cur.type = TUBTFE_LLVM_DV_BRANCH then
          match successors.get? (cur.arg1 % 2 ^ 32) with
          | none => none
          | some b =>
            process_insns M log fuel f bb_index (insn_index + 1) rest (some b)
              (push_entry st index f i here 1)
        else none
      | .switch _ width cases successors =>
        if cur.type = TUBTFE_LLVM_DV_SWITCH then
          let k := match cases.find? (fun c => c.1 == cur.arg1 % 2 ^ width) with
            | some c => c.2
            | none => 0
          match successors.get? k with
          | none => none
          | some b =>
            process_insns M log fuel f bb_index (insn_index + 1) rest (some b)
              (push_entry st index f i here 1)
        else none
      | .phi incoming =>
        let arg1 := phi_arg1 incoming st.serialized
        if arg1 ≠ 2 ^ 64 - 1 then
          process_insns M log fuel f bb_index (insn_index + 1) rest next
            (push_entry st index f i
              (some (.synth { asid := 0, pc := 0, type := 0, arg1 := arg1, arg2 := 0,
                              arg3 := 0, arg4 := 0 })) 0)
        else none
      | .select _ _ _ =>
        if cur.type = TUBTFE_LLVM_DV_SELECT then
          process_insns M log fuel f bb_index (insn_index + 1) rest next
            (push_entry st index f i here 1)
        else none
      | .call callee _ _ =>
        match callee with
        | none => none
        | some subf =>
          let func_name := subf.name
          if startswith func_name "__ld" then
            if cur.type = TUBTFE_LLVM_DV_LOAD then
              process_insns M log fuel f bb_index (insn_index + 1) rest next
                (push_entry st index f i here 1)
            else none
          else if startswith func_name "__st" then
            if cur.type = TUBTFE_LLVM_DV_STORE then
              process_insns M log fuel f bb_index (insn_index + 1) rest next
                (push_entry st index f i here 1)
            else none
          else if startswith func_name "llvm.memcpy" then
            if cur.type = TUBTFE_LLVM_DV_LOAD ∧
                (log (st.cursor + 1)).type = TUBTFE_LLVM_DV_STORE then
              process_insns M log fuel f bb_index (insn_index + 1) rest next
                (push_entry st index f i here 2)
            else none
          else if startswith func_name "llvm.memset" then
            if cur.type = TUBTFE_LLVM_DV_STORE then
              process_insns M log fuel f bb_index (insn_index + 1) rest next
                (push_entry st index f i here 1)
            else none
          else if startswith func_name "helper_in" then
            if cur.type = TUBTFE_LLVM_DV_LOAD then
              process_insns M log fuel f bb_index (insn_index + 1) rest next
                (push_entry st index f i here 1)
            else none
          else if startswith func_name "helper_out" then
            if cur.type = TUBTFE_LLVM_DV_STORE then
              process_insns M log fuel f bb_index (insn_index + 1) rest next
                (push_entry st index f i here 1)
            else none
          else if func_name == "log_dynval" || subf.isDeclaration || subf.isIntrinsic then
            process_insns M log fuel f bb_index (insn_index + 1) rest next st
          else
            match M.find? (fun g => g.addr == subf.addr) with
            | none => none
            | some g =>
              match g.blocks with
              | [] => none
              | entry :: _ =>
                match process_insns M log fuel g (getBlockIndex g entry.addr) 0 entry.insns
                    none st with
                | none => none
                | some st1 =>
                  process_insns M log fuel f bb_index (insn_index + 1) rest next
                    (push_entry st1 index f i none 0)
      | _ =>
        process_insns M log fuel f bb_index (insn_index + 1) rest next
          (push_entry st index f i none 0)

/-- Alignment of one function from a cursor: `process_func(f, dynvals, serialized)` with the
flag `in_exception` as found. The result holds the returned cursor. -/
def process_func (M : List Function) (log : Nat → TUBTEntry) (fuel : Nat) (f : Function)
    (st : AlignState) : Option AlignState :=
  match f.blocks with
  | [] => none
  | entry :: _ => process_insns M log fuel f (getBlockIndex f entry.addr) 0 entry.insns none st

/-- Whether the instruction is a call of a function whose name starts with `llvm.memcpy`. -/
def Instruction.isMemcpy (i : Instruction) : Bool :=
  match i.kind with
  | .call (some subf) _ _ => startswith subf.name "llvm.memcpy"
  | _ => false

/-- The primitive transitions of alignment on the state: an `EXCEPTION` record is met and
skipped; an entry is appended with the record at the cursor (one record consumed, or two
for a call of `llvm.memcpy`); an entry is appended with an allocated record; an entry is
appended without record. -/
inductive AlignStep (log : Nat → TUBTEntry) : AlignState → AlignState → Prop where
  | exception (st : AlignState) :
      st.in_exception = false → (log st.cursor).type = TUBTFE_LLVM_EXCEPTION →
      AlignStep log st { st with in_exception := true, cursor := st.cursor + 1 }
  | record (st : AlignState) (index : Nat) (f : Function) (i : Instruction) :
      st.in_exception = false → (log st.cursor).type ≠ TUBTFE_LLVM_EXCEPTION →
      i.isMemcpy = false →
      AlignStep log st (push_entry st index f i (some (.log st.cursor (log st.cursor))) 1)
  | record2 (st : AlignState) (index : Nat) (f : Function) (i : Instruction) :
      st.in_exception = false → (log st.cursor).type = TUBTFE_LLVM_DV_LOAD →
      (log (st.cursor + 1)).type = TUBTFE_LLVM_DV_STORE → i.isMemcpy = true →
      AlignStep log st (push_entry st index f i (some (.log st.cursor (log st.cursor))) 2)
  | synth (st : AlignState) (index : Nat) (f : Function) (i : Instruction) (row : TUBTEntry) :
      st.in_exception = false → i.isMemcpy = false →
      AlignStep log st (push_entry st index f i (some (.synth row)) 0)
  | plain (st : AlignState) (index : Nat) (f : Function) (i : Instruction) :
      i.isMemcpy = false →
      AlignStep log st (push_entry st index f i none 0)

/-- The offset up to which records have been consumed as dynamic values: the cursor, or the
offset of the exception record just skipped when `in_exception` is set. -/
def AlignState.frontier (st : AlignState) : Nat :=
  if st.in_exception then st.cursor - 1 else st.cursor

/-- Invariant of an alignment started at cursor `c`: the frontier is at or after `c`; when
`in_exception` is set the record before the cursor is the `EXCEPTION` record; no record from
`c` up to the frontier is an `EXCEPTION` record; every record attached to an entry lies
from `c` up to the frontier. -/
def AlignInv (log : Nat → TUBTEntry) (c : Nat) (st : AlignState) : Prop :=
  c ≤ st.frontier ∧
  (st.in_exception = true →
    st.cursor = st.frontier + 1 ∧ (log st.frontier).type = TUBTFE_LLVM_EXCEPTION) ∧
  (∀ o, c ≤ o → o < st.frontier → (log o).type ≠ TUBTFE_LLVM_EXCEPTION) ∧
  (∀ e ∈ st.serialized, ∀ o row,
    (e.dyn = some (.log o row) ∨ e.dyn2 = some (.log o row)) → c ≤ o ∧ o < st.frontier)

/-! ## Concrete IR fragments and records used in evaluations -/

/-- A sample assignment of the enumerators. -/
def sampleEnums : MemlogEnums :=
  { GREG := 5, MADDR := 1, GSPEC := 6, IRRELEVANT := 5,
    greg_ne_maddr := by decide, greg_ne_gspec := by decide, maddr_ne_gspec := by decide }

/-- A log record with the given type and first two arguments. -/
def mkRow (type arg1 arg2 : Nat) : TUBTEntry :=
  { asid := 0, pc := 4194304, type := type, arg1 := arg1, arg2 := arg2, arg3 := 0, arg4 := 0 }

/-- A named, non-constant value. -/
def namedValue (addr : Nat) (name : String) : Value :=
  { addr := addr, name := some name, isConstant := false, isBasicBlock := false }

/-- The context pointer every translated block takes as its first argument. -/
def envArg : Value := namedValue 16 "env"

/-- A translation-block function without body, enough for the use/def extractor. -/
def tbFunc : Function :=
  { addr := 256, name := "tcg-llvm-tb-1-400000", args := [envArg],
    isDeclaration := false, isIntrinsic := false, blocks := [] }

/-- A load `x = load p` aligned with a relevant guest-register record for slot 3. -/
def loadEntry : trace_entry :=
  { index := 0, func := tbFunc,
    insn := { addr := 4096, name := some "x", parent := 512, kind := .load (namedValue 32 "p") },
    dyn := some (.log 0 (mkRow 31 (5 + 256 * 0) 3)), dyn2 := none }

/-- A non-volatile store `store v, p` aligned with a guest-register record for slot 3 whose
flag byte is the sample `IRRELEVANT`. -/
def irrelevantStoreEntry : trace_entry :=
  { index := 1, func := tbFunc,
    insn := { addr := 4104, name := none, parent := 512,
              kind := .store (namedValue 40 "v") (namedValue 32 "p") false },
    dyn := some (.log 1 (mkRow 32 (5 + 256 * 5) 3)), dyn2 := none }

/-- A non-volatile store `store v, p` aligned with a relevant guest-register record for
slot 3. -/
def storeEntry : trace_entry :=
  { index := 1, func := tbFunc,
    insn := { addr := 4104, name := none, parent := 512,
              kind := .store (namedValue 40 "v") (namedValue 32 "p") false },
    dyn := some (.log 1 (mkRow 32 (5 + 256 * 0) 3)), dyn2 := none }

/-- Declaration of a memory helper or of another callee. -/
def declOf (addr : Nat) (name : String) (args : List Value) : FunctionDecl :=
  { addr := addr, name := name, args := args, isDeclaration := true, isIntrinsic := false }

/-- A call `r = __ldl_mmu(a)` aligned with a load record at guest address `0x1000`. -/
def ldEntry : trace_entry :=
  { index := 2, func := tbFunc,
    insn := { addr := 4112, name := some "r", parent := 512,
              kind := .call (some (declOf 768 "__ldl_mmu" [namedValue 48 "addr"]))
                [namedValue 56 "a"] false },
    dyn := some (.log 2 (mkRow 31 0 4096)), dyn2 := none }

/-- A call `__stw_mmu(a, v)` aligned with a store record at guest address `0x2000`. -/
def stEntry : trace_entry :=
  { index := 5, func := tbFunc,
    insn := { addr := 4144, name := none, parent := 512,
              kind := .call (some (declOf 776 "__stw_mmu"
                [namedValue 48 "addr", namedValue 50 "val"]))
                [namedValue 56 "a", namedValue 40 "v"] true },
    dyn := some (.log 3 (mkRow 32 0 8192)), dyn2 := none }

/-- A call `x = helper_foo(a, b)` to a callee with two formals. -/
def helperCallEntry : trace_entry :=
  { index := 3, func := tbFunc,
    insn := { addr := 4120, name := some "x", parent := 512,
              kind := .call (some (declOf 1024 "helper_foo"
                [namedValue 64 "arg0", namedValue 72 "arg1"]))
                [namedValue 56 "a", namedValue 80 "b"] false },
    dyn := none, dyn2 := none }

/-- A `ret void`. -/
def retVoidEntry : trace_entry :=
  { index := 4, func := tbFunc,
    insn := { addr := 4128, name := none, parent := 512, kind := .ret none },
    dyn := none, dyn2 := none }

/-- A cast `x = zext y`. -/
def zextEntry : trace_entry :=
  { index := 0, func := tbFunc,
    insn := { addr := 4136, name := some "x", parent := 512,
              kind := .other 34 [namedValue 88 "y"] false },
    dyn := none, dyn2 := none }

/-- An instruction without operands that returns nothing (`ret void`). -/
def retVoidAt (addr parent : Nat) : Instruction :=
  { addr := addr, name := none, parent := parent, kind := .ret none }

/-- A void call of `callee` passing the single actual `a`. -/
def callAt (addr parent : Nat) (callee : FunctionDecl) (a : Value) : Instruction :=
  { addr := addr, name := none, parent := parent, kind := .call (some callee) [a] true }

/-- Leaf helper `leaf_k(env)`: `ret void`. -/
def fnK : Function :=
  { addr := 8192, name := "leaf_k", args := [namedValue 8200 "env_k"],
    isDeclaration := false, isIntrinsic := false,
    blocks := [{ addr := 8208, insns := [retVoidAt 8216 8208] }] }

/-- Helper `mid_h(env)`: `call leaf_k(env_h); ret void`. -/
def fnH : Function :=
  { addr := 12288, name := "mid_h", args := [namedValue 12296 "env_h"],
    isDeclaration := false, isIntrinsic := false,
    blocks := [{ addr := 12304, insns :=
      [callAt 12312 12304 fnK.toFunctionDecl (namedValue 12296 "env_h"), retVoidAt 12320 12304] }] }

/-- Helper `helper_g(env)`: `call mid_h(env_g); ret void`. -/
def fnG : Function :=
  { addr := 16384, name := "helper_g", args := [namedValue 16392 "env_g"],
    isDeclaration := false, isIntrinsic := false,
    blocks := [{ addr := 16400, insns :=
      [callAt 16408 16400 fnH.toFunctionDecl (namedValue 16392 "env_g"), retVoidAt 16416 16400] }] }

/-- The instruction `t0 = add c, c` on constants that opens `fnF`. -/
def addInsn : Instruction :=
  { addr := 20504, name := some "t0", parent := 20496,
    kind := .other 8 [{ addr := 1, name := none, isConstant := true, isBasicBlock := false }]
      false }

/-- Translation block `tcg-llvm-tb-7-1000(env)`: `t0 = add ..; call helper_g(env); ret void`. -/
def fnF : Function :=
  { addr := 20480, name := "tcg-llvm-tb-7-1000", args := [envArg],
    isDeclaration := false, isIntrinsic := false,
    blocks := [{ addr := 20496, insns :=
      [addInsn, callAt 20512 20496 fnG.toFunctionDecl envArg, retVoidAt 20520 20496] }] }

/-- Entry of the aligned sequence for the instruction at ordinal `j` of block 0 of `f`,
without dynamic record. -/
def entryAt (f : Function) (j : Nat) (insn : Instruction) : trace_entry :=
  { index := j, func := f, insn := insn, dyn := none, dyn2 := none }

/-- The aligned sequence of `fnF`: callee bodies first, each call site after its callee. -/
def nestedCallTrace : List trace_entry :=
  [ entryAt fnF 0 addInsn,
    entryAt fnK 0 (retVoidAt 8216 8208),
    entryAt fnH 0 (callAt 12312 12304 fnK.toFunctionDecl (namedValue 12296 "env_h")),
    entryAt fnH 1 (retVoidAt 12320 12304),
    entryAt fnG 0 (callAt 16408 16400 fnH.toFunctionDecl (namedValue 16392 "env_g")),
    entryAt fnG 1 (retVoidAt 16416 16400),
    entryAt fnF 1 (callAt 20512 20496 fnG.toFunctionDecl envArg),
    entryAt fnF 2 (retVoidAt 20520 20496) ]

/-- A translation block `tcg-llvm-tb-2-400010(env)` whose body is `ret void`. -/
def retOnlyFunc : Function :=
  { addr := 24576, name := "tcg-llvm-tb-2-400010", args := [envArg],
    isDeclaration := false, isIntrinsic := false,
    blocks := [{ addr := 24592, insns := [retVoidAt 24600 24592] }] }

/-- The single entry of the aligned sequence of `retOnlyFunc`. -/
def retOnlyEntry : trace_entry := entryAt retOnlyFunc 0 (retVoidAt 24600 24592)

/-- The module of the nested-call example. -/
def nestedModule : List Function := [fnF, fnG, fnH, fnK]

/-- A log holding only function-entry records. -/
def fnOnlyLog : Nat → TUBTEntry := fun _ => mkRow TUBTFE_LLVM_FN 7 0

/-- A select `s = select c, tv, fv` aligned with a select record whose `arg1` is 1. -/
def selectEntry : trace_entry :=
  { index := 6, func := tbFunc,
    insn := { addr := 4152, name := some "s", parent := 512,
              kind := .select (namedValue 96 "c") (namedValue 104 "tv") (namedValue 112 "fv") },
    dyn := some (.log 4 (mkRow 34 1 0)), dyn2 := none }

/-- A call `llvm.memcpy.p0i8.p0i8.i64(dst, src, n)` aligned with the load record of the
copy (source `0x2000`). -/
def memcpyEntry : trace_entry :=
  { index := 7, func := tbFunc,
    insn := { addr := 4160, name := none, parent := 512,
              kind := .call (some (declOf 1280 "llvm.memcpy.p0i8.p0i8.i64"
                [namedValue 120 "d", namedValue 128 "s", namedValue 136 "n"]))
                [namedValue 144 "dst", namedValue 152 "src", namedValue 160 "len"] true },
    dyn := some (.log 5 (mkRow 31 0 8192)), dyn2 := none }

/-- The member `std::bitset<MAX_BITSET>::size()`: the number of bits the bitset holds,
whatever their values. -/
def bitset_size (_bits : Finset Nat) : Nat := MAX_BITSET

/-- The two numbers of the final summary line of `main`: `marked.size()` and the sum of
`kvp.second.size()` over the marked map. -/
def summary_counts (marked : MarkedMap) : Nat × Nat :=
  (marked.length, marked.foldl (fun insns_marked kvp => insns_marked + bitset_size kvp.2) 0)

/-- The instruction `r1 = add r0, 1`. -/
def addR1 : Instruction :=
  { addr := 28696, name := some "r1", parent := 28688,
    kind := .other 8 [namedValue 28800 "r0",
      { addr := 28808, name := none, isConstant := true, isBasicBlock := false }] false }

/-- The instruction `store r1, p0`, not volatile. -/
def storeR1 : Instruction :=
  { addr := 28704, name := none, parent := 28688,
    kind := .store (namedValue 28696 "r1") (namedValue 28816 "p0") false }

/-- Translation block `tcg-llvm-tb-3-400020(env)`: `r1 = add r0, 1; store r1, p0; ret void`. -/
def addStoreFunc : Function :=
  { addr := 28672, name := "tcg-llvm-tb-3-400020", args := [envArg],
    isDeclaration := false, isIntrinsic := false,
    blocks := [{ addr := 28688, insns := [addR1, storeR1, retVoidAt 28712 28688] }] }

/-- A log whose record 0 is the store of `addStoreFunc` (kind `GREG`, relevant, slot 0) and
whose other records are function entries. -/
def addStoreLog : Nat → TUBTEntry := fun n =>
  match n with
  | 0 => mkRow TUBTFE_LLVM_DV_STORE 5 0
  | _ => mkRow TUBTFE_LLVM_FN 3 0

/-- The aligned sequence of `addStoreFunc` on `addStoreLog`. -/
def addStoreTrace : List trace_entry :=
  [ entryAt addStoreFunc 0 addR1,
    { index := 1, func := addStoreFunc, insn := storeR1,
      dyn := some (.log 0 (mkRow TUBTFE_LLVM_DV_STORE 5 0)), dyn2 := none },
    entryAt addStoreFunc 2 (retVoidAt 28712 28688) ]

/-- Function `exc_g(env)`: two loads and a return. -/
def fnExcG : Function :=
  { addr := 32768, name := "exc_g", args := [namedValue 32776 "env_g"],
    isDeclaration := false, isIntrinsic := false,
    blocks := [{ addr := 32784, insns :=
      [{ addr := 32792, name := some "l1", parent := 32784,
         kind := .load (namedValue 32776 "env_g") },
       { addr := 32800, name := some "l2", parent := 32784,
         kind := .load (namedValue 32792 "l1") },
       retVoidAt 32808 32784] }] }

/-- Translation block `tcg-llvm-tb-4-400030(env)`: `call exc_g(env); ret void`. -/
def fnExcF : Function :=
  { addr := 36864, name := "tcg-llvm-tb-4-400030", args := [envArg],
    isDeclaration := false, isIntrinsic := false,
    blocks := [{ addr := 36880, insns :=
      [callAt 36888 36880 fnExcG.toFunctionDecl envArg, retVoidAt 36896 36880] }] }

/-- A log `FN | DV_LOAD | EXCEPTION | FN | ...`: the second load of `exc_g` raises. -/
def excLog : Nat → TUBTEntry := fun n =>
  match n with
  | 1 => mkRow TUBTFE_LLVM_DV_LOAD 5 3
  | 2 => mkRow TUBTFE_LLVM_EXCEPTION 0 0
  | _ => mkRow TUBTFE_LLVM_FN 4 0

/-- The instruction `store volatile r1, p0`. -/
def volStoreR1 : Instruction :=
  { addr := 28720, name := none, parent := 28688,
    kind := .store (namedValue 28696 "r1") (namedValue 28816 "p0") true }

/-- The call `llvm.memcpy.p0i8.p0i8.i64(dst, src, len)` of `copyFunc`. -/
def memcpyCall : Instruction :=
  { addr := 40984, name := none, parent := 40976,
    kind := .call (some { addr := 1280, name := "llvm.memcpy.p0i8.p0i8.i64",
                          args := [namedValue 120 "d", namedValue 128 "s", namedValue 136 "n"],
                          isDeclaration := true, isIntrinsic := true })
      [namedValue 144 "dst", namedValue 152 "src", namedValue 160 "len"] true }

/-- Translation block `tcg-llvm-tb-5-400040(env)`: `call llvm.memcpy(dst, src, len); ret void`. -/
def copyFunc : Function :=
  { addr := 40960, name := "tcg-llvm-tb-5-400040", args := [envArg],
    isDeclaration := false, isIntrinsic := false,
    blocks := [{ addr := 40976, insns := [memcpyCall, retVoidAt 40992 40976] }] }

/-- A log `DV_LOAD | DV_STORE | FN | ...`: the two records of the copy of `copyFunc`, read
from `0x2000` and written to `0x3000`. -/
def copyLog : Nat → TUBTEntry := fun n =>
  match n with
  | 0 => mkRow TUBTFE_LLVM_DV_LOAD 0 8192
  | 1 => mkRow TUBTFE_LLVM_DV_STORE 0 12288
  | _ => mkRow TUBTFE_LLVM_FN 5 0

/-- The call `x = helper_foo(a, b)` of `declCallFunc`; `helper_foo` is only declared. -/
def declCall : Instruction :=
  { addr := 45080, name := some "x", parent := 45072,
    kind := .call (some (declOf 1024 "helper_foo"
      [namedValue 64 "arg0", namedValue 72 "arg1"]))
      [namedValue 56 "a", namedValue 80 "b"] false }

/-- Translation block `tcg-llvm-tb-6-400050(env)`: `x = call helper_foo(a, b); ret void`. -/
def declCallFunc : Function :=
  { addr := 45056, name := "tcg-llvm-tb-6-400050", args := [envArg],
    isDeclaration := false, isIntrinsic := false,
    blocks := [{ addr := 45072, insns := [declCall, retVoidAt 45088 45072] }] }

/-- The branch `br label %join` that ends block `49168` of `phiFunc`. -/
def brJoin : Instruction :=
  { addr := 49176, name := none, parent := 49168,
    kind := .br [{ addr := 49200, name := some "join", isConstant := false,
                   isBasicBlock := true }] [49200] }

/-- The PHI `m = phi [a, %other], [b, %entry]` of block `49200`. -/
def phiM : Instruction :=
  { addr := 49208, name := some "m", parent := 49200,
    kind := .phi [(namedValue 49300 "a", 49184), (namedValue 49308 "b", 49168)] }

/-- The PHI `n = phi [c, %entry], [d, %other]` of block `49200`. -/
def phiN : Instruction :=
  { addr := 49216, name := some "n", parent := 49200,
    kind := .phi [(namedValue 49316 "c", 49168), (namedValue 49324 "d", 49184)] }

/-- Translation block `tcg-llvm-tb-8-400060(env)`: block `entry` (`49168`) branches to block
`join` (`49200`), which starts with the two PHIs `phiM` and `phiN`; block `other` (`49184`)
is the second predecessor of `join`. -/
def phiFunc : Function :=
  { addr := 49152, name := "tcg-llvm-tb-8-400060", args := [envArg],
    isDeclaration := false, isIntrinsic := false,
    blocks := [{ addr := 49168, insns := [brJoin] },
               { addr := 49184, insns := [brJoin] },
               { addr := 49200, insns := [phiM, phiN, retVoidAt 49224 49200] }] }

/-- A log whose record 0 is the branch of `phiFunc` taking successor 0. -/
def phiLog : Nat → TUBTEntry := fun n =>
  match n with
  | 0 => mkRow TUBTFE_LLVM_DV_BRANCH 0 0
  | _ => mkRow TUBTFE_LLVM_FN 8 0

/-- The record the aligner allocates for a PHI, with the given `arg1`, the only field the
program assigns and reads; the other fields are zero here. -/
def phiRow (arg1 : Nat) : TUBTEntry :=
  { asid := 0, pc := 0, type := 0, arg1 := arg1, arg2 := 0, arg3 := 0, arg4 := 0 }

/-- The entry of the branch of `phiFunc` with its record. -/
def brJoinEntry : trace_entry :=
  { index := 0, func := phiFunc, insn := brJoin,
    dyn := some (.log 0 (mkRow TUBTFE_LLVM_DV_BRANCH 0 0)), dyn2 := none }

/-- The image the inter-procedural remap is described by: every use that is a key of the map
is replaced by the actual bound to it, every other use is kept. -/
def remap_image (argmap : ArgMap) (uses : Finset String) : Finset String :=
  uses.image (fun u => (argmap_find argmap u).getD u)

/-- The instruction `x = add a, b` of `sumFunc`, on its two formals. -/
def sumAdd : Instruction :=
  { addr := 53288, name := some "x", parent := 53280,
    kind := .other 8 [namedValue 53256 "a", namedValue 53264 "b"] false }

/-- The instruction `ret x` of `sumFunc`. -/
def sumRet : Instruction :=
  { addr := 53296, name := none, parent := 53280, kind := .ret (some sumAdd.toValue) }

/-- Helper `sum2(a, b)`: `x = add a, b; ret x`. -/
def sumFunc : Function :=
  { addr := 53248, name := "sum2", args := [namedValue 53256 "a", namedValue 53264 "b"],
    isDeclaration := false, isIntrinsic := false,
    blocks := [{ addr := 53280, insns := [sumAdd, sumRet] }] }

/-- The instruction `t1 = add 1, 1` that opens `sumCaller`. -/
def callerAdd : Instruction :=
  { addr := 57368, name := some "t1", parent := 57360,
    kind := .other 8 [{ addr := 2, name := none, isConstant := true, isBasicBlock := false }]
      false }

/-- The call `r = sum2(b, c)` of `sumCaller`; `b` and `c` are values of the caller. -/
def sumCall : Instruction :=
  { addr := 57376, name := some "r", parent := 57360,
    kind := .call (some sumFunc.toFunctionDecl)
      [namedValue 57400 "b", namedValue 57408 "c"] false }

/-- Translation block `tcg-llvm-tb-9-400070(env)`: `t1 = add 1, 1; r = call sum2(b, c);
ret void`. -/
def sumCaller : Function :=
  { addr := 57344, name := "tcg-llvm-tb-9-400070", args := [envArg],
    isDeclaration := false, isIntrinsic := false,
    blocks := [{ addr := 57360, insns := [callerAdd, sumCall, retVoidAt 57384 57360] }] }

/-- The aligned sequence of `sumCaller`. -/
def sumTrace : List trace_entry :=
  [ entryAt sumCaller 0 callerAdd,
    entryAt sumFunc 0 sumAdd,
    entryAt sumFunc 1 sumRet,
    entryAt sumCaller 1 sumCall,
    entryAt sumCaller 2 (retVoidAt 57384 57360) ]

/-- A log `FN | DV_LOAD | DV_LOAD | FN | ...`: the two loads of `exc_g` both succeed. -/
def twoLoadLog : Nat → TUBTEntry := fun n =>
  match n with
  | 1 => mkRow TUBTFE_LLVM_DV_LOAD 5 3
  | 2 => mkRow TUBTFE_LLVM_DV_LOAD 1 4096
  | _ => mkRow TUBTFE_LLVM_FN 4 0

/-- The aligned sequence of `fnExcF` on `twoLoadLog` from cursor 1: the three entries of the
callee `exc_g`, then the call site and the return of `fnExcF`. -/
def calleeFirstTrace : List trace_entry :=
  [ { index := 0, func := fnExcG,
      insn := { addr := 32792, name := some "l1", parent := 32784,
                kind := .load (namedValue 32776 "env_g") },
      dyn := some (.log 1 (mkRow TUBTFE_LLVM_DV_LOAD 5 3)), dyn2 := none },
    { index := 1, func := fnExcG,
      insn := { addr := 32800, name := some "l2", parent := 32784,
                kind := .load (namedValue 32792 "l1") },
      dyn := some (.log 2 (mkRow TUBTFE_LLVM_DV_LOAD 1 4096)), dyn2 := none },
    entryAt fnExcG 2 (retVoidAt 32808 32784),
    entryAt fnExcF 0 (callAt 36888 36880 fnExcG.toFunctionDecl envArg),
    entryAt fnExcF 1 (retVoidAt 36896 36880) ]

/-- The log offsets of the records attached as dyn to the entries of a sequence, in the order
of the sequence; records allocated for a PHI have no offset. -/
def log_offsets (s : List trace_entry) : List Nat :=
  s.filterMap (fun e =>
    match e.dyn with
    | some (.log o _) => some o
    | _ => none)

/-- The number of entries of a sequence that are calls of `llvm.memcpy`. -/
def memcpy_entries (s : List trace_entry) : Nat :=
  (s.filter (fun e => e.insn.isMemcpy)).length

/-- Accounting invariant of an alignment started at cursor `c` with an empty sequence: the
cursor has moved by one per attached log record, one more per `llvm.memcpy` entry, and one
for the `EXCEPTION` record when `in_exception` is set; the attached offsets increase
strictly along the sequence and lie from `c` up to the frontier; each attached record is the
record the log holds at its offset. -/
def ConsumeInv (log : Nat → TUBTEntry) (c : Nat) (st : AlignState) : Prop :=
  st.cursor = c + (log_offsets st.serialized).length + memcpy_entries st.serialized +
    (if st.in_exception then 1 else 0) ∧
  (log_offsets st.serialized).Pairwise (· < ·) ∧
  (∀ o ∈ log_offsets st.serialized, c ≤ o ∧ o < st.frontier) ∧
  (∀ e ∈ st.serialized, ∀ o row, e.dyn = some (.log o row) → row = log o)

/-- Value of a hexadecimal digit string read most significant digit first, through a digit
valuation `val`. -/
def readDigits (val : Char → Nat) (cs : List Char) : Nat :=
  cs.foldl (fun acc c => 16 * acc + val c) 0

/-- Valuation of the sixteen characters `Nat.digitChar` produces in base 16. -/
def hexDigitVal (c : Char) : Nat :=
  ((List.range 16).find? (fun k => Nat.digitChar k == c)).getD 0

/-! ## Lemmas on names -/

theorem insertValue_empty (v : Value) :
    insertValue ∅ v = if v.isConstant then ∅ else {get_value_name v} := by
  unfold insertValue; split <;> simp

theorem hexDigitVal_digitChar (k : Nat) (hk : k < 16) : hexDigitVal (Nat.digitChar k) = k := by
  interval_cases k <;> rfl

theorem readDigits_append (val : Char → Nat) (l : List Char) (c : Char) :
    readDigits val (l ++ [c]) = 16 * readDigits val l + val c := by
  simp [readDigits, List.foldl_append]

theorem toDigitsCore_spec (fuel : Nat) : ∀ (n : Nat) (ds : List Char), n < fuel →
    ∃ l, Nat.toDigitsCore 16 fuel n ds = l ++ ds ∧ readDigits hexDigitVal l = n := by
  induction fuel with
  | zero => intro n ds h; omega
  | succ fuel ih =>
    intro n ds h
    simp only [Nat.toDigitsCore]
    by_cases h0 : n / 16 = 0
    · refine ⟨[Nat.digitChar (n % 16)], by simp [h0], ?_⟩
      have hlt : n % 16 < 16 := Nat.mod_lt _ (by norm_num)
      simp [readDigits, hexDigitVal_digitChar _ hlt]
      omega
    · have hlt : n / 16 < fuel := by omega
      obtain ⟨l, hl, hv⟩ := ih (n / 16) (Nat.digitChar (n % 16) :: ds) hlt
      refine ⟨l ++ [Nat.digitChar (n % 16)], by simp [h0, hl], ?_⟩
      have hm : n % 16 < 16 := Nat.mod_lt _ (by norm_num)
      rw [readDigits_append, hv, hexDigitVal_digitChar _ hm]
      omega

theorem readDigits_hex (n : Nat) : readDigits hexDigitVal (hex n).data = n := by
  obtain ⟨l, hl, hv⟩ := toDigitsCore_spec (n + 1) n [] (Nat.lt_succ_self n)
  simp only [hex, Nat.toDigits, hl, List.append_nil]
  exact hv

theorem hex_injective : Function.Injective hex := by
  intro a b h
  have := congrArg (fun s => readDigits hexDigitVal s.data) h
  simpa [readDigits_hex] using this

theorem mem_name_injective : Function.Injective (fun n : Nat => "MEM_" ++ hex n) := by
  intro a b h
  apply hex_injective
  have h2 := congrArg String.data h
  simp only [String.data_append] at h2
  exact String.ext (List.append_cancel_left h2)

theorem insertMem_eq (s : Finset String) (arg2 size : Nat) :
    insertMem s arg2 size =
      (Finset.range size).image (fun k => "MEM_" ++ hex ((arg2 + k) % 2 ^ 64)) ∪ s := by
  unfold insertMem
  induction size with
  | zero => simp
  | succ n ih =>
    rw [List.range_succ, List.foldl_append, ih]
    ext x
    simp only [List.foldl_cons, List.foldl_nil, Finset.mem_insert, Finset.mem_union,
      Finset.mem_image, Finset.mem_range]
    constructor
    · rintro (h | ⟨k, hk, rfl⟩ | h)
      · exact Or.inl ⟨n, Nat.lt_succ_self n, h.symm⟩
      · exact Or.inl ⟨k, Nat.lt_succ_of_lt hk, rfl⟩
      · exact Or.inr h
    · rintro (⟨k, hk, rfl⟩ | h)
      · rcases Nat.lt_succ_iff_lt_or_eq.mp hk with h1 | h1
        · exact Or.inr (Or.inl ⟨k, h1, rfl⟩)
        · subst h1; exact Or.inl rfl
      · exact Or.inr (Or.inr h)

theorem startswith_st_not_ld (n : String) (h : startswith n "__st" = true) :
    startswith n "__ld" = false := by
  unfold startswith at *
  rw [List.isPrefixOf_iff_prefix] at h
  obtain ⟨r, hr⟩ := h
  rw [← hr]
  rfl

/-! ## Use/Def extractor: per-opcode contracts -/

/-- C5 (Load use/def): for a Load entry with its record, extraction succeeds; defs is exactly
the name of the result whatever the flag; uses is the name of the pointer operand when it is
not a constant, together with `REG_<arg2>`, `HOST_<arg2>` or `SPEC_<arg2>` (kind `GREG`,
`MADDR`, `GSPEC`, `arg2` in decimal) exactly when the decoded flag is not `IRRELEVANT`; for
any other kind, and for an `IRRELEVANT` flag, uses holds the pointer name only. -/
theorem load_use_def (K : MemlogEnums) (t : trace_entry) (p : Value) (d : DynPtr)
    (hk : t.insn.kind = .load p) (hd : t.dyn = some d) :
    ∃ uses defs, get_uses_and_defs K t ∅ ∅ = some (uses, defs) ∧
      defs = {get_value_name t.insn.toValue} ∧
      ((extract_addrentry d.row.arg1).2.1 = K.IRRELEVANT →
        uses = if p.isConstant then ∅ else {get_value_name p}) ∧
      ((extract_addrentry d.row.arg1).2.1 ≠ K.IRRELEVANT →
        ((extract_addrentry d.row.arg1).1 = K.GREG →
          uses = insert ("REG_" ++ to_string d.row.arg2)
            (if p.isConstant then ∅ else {get_value_name p})) ∧
        ((extract_addrentry d.row.arg1).1 = K.MADDR →
          uses = insert ("HOST_" ++ to_string d.row.arg2)
            (if p.isConstant then ∅ else {get_value_name p})) ∧
        ((extract_addrentry d.row.arg1).1 = K.GSPEC →
          uses = insert ("SPEC_" ++ to_string d.row.arg2)
            (if p.isConstant then ∅ else {get_value_name p})) ∧
        ((extract_addrentry d.row.arg1).1 ≠ K.GREG →
          (extract_addrentry d.row.arg1).1 ≠ K.MADDR →
          (extract_addrentry d.row.arg1).1 ≠ K.GSPEC →
          uses = if p.isConstant then ∅ else {get_value_name p})) := by
  have h1 := K.greg_ne_maddr
  have h2 := K.greg_ne_gspec
  have h3 := K.maddr_ne_gspec
  simp only [get_uses_and_defs, hk, handleLoad, hd]
  refine ⟨_, _, rfl, ?_, ?_, ?_⟩
  · simp [insertValue, Instruction.toValue]
  · intro hf
    simp [hf, insertValue]
  · intro hf
    refine ⟨?_, ?_, ?_, ?_⟩
    · intro hg
      simp only [hf, hg, addr_location, insertLoc, insertValue]
      split <;> simp [Finset.pair_comm]
    · intro hg
      simp only [hf, hg, addr_location, insertLoc, insertValue, h1.symm]
      split <;> simp [Finset.pair_comm]
    · intro hg
      simp only [hf, hg, addr_location, insertLoc, insertValue, h2.symm, h3.symm]
      split <;> simp [Finset.pair_comm]
    · intro a b c
      simp only [hf, a, b, c, addr_location, insertLoc, insertValue]
      split <;> simp

/-- Instance of `load_use_def` at `loadEntry`: a relevant `GREG` load of slot 3 uses the
register location and the pointer, and defines its result. -/
theorem load_use_def_witness :
    loadEntry.insn.kind = .load (namedValue 32 "p") ∧
    loadEntry.dyn = some (.log 0 (mkRow 31 5 3)) ∧
    get_uses_and_defs sampleEnums loadEntry ∅ ∅ = some ({"REG_3", "p"}, {"x"}) := by
  obtain ⟨uses, defs, h, hdefs, _, hrel⟩ :=
    load_use_def sampleEnums loadEntry (namedValue 32 "p") (.log 0 (mkRow 31 5 3)) rfl rfl
  have hu := (hrel (by decide)).1 (by decide)
  refine ⟨rfl, rfl, ?_⟩
  rw [h, hu, hdefs]
  rfl

/-- C6 (Store defs): for a Store entry with its record, extraction succeeds; when the store
is not volatile and the decoded flag is not `IRRELEVANT`, defs is `{REG_<arg2>}`,
`{HOST_<arg2>}` or `{SPEC_<arg2>}` for kind `GREG`, `MADDR`, `GSPEC`, and empty for any other
kind; defs is empty when the store is volatile or the flag is `IRRELEVANT`. -/
theorem store_defs (K : MemlogEnums) (t : trace_entry) (v p : Value) (isVolatile : Bool)
    (d : DynPtr) (hk : t.insn.kind = .store v p isVolatile) (hd : t.dyn = some d) :
    ∃ uses defs, get_uses_and_defs K t ∅ ∅ = some (uses, defs) ∧
      (isVolatile = false → (extract_addrentry d.row.arg1).2.1 ≠ K.IRRELEVANT →
        ((extract_addrentry d.row.arg1).1 = K.GREG →
          defs = {"REG_" ++ to_string d.row.arg2}) ∧
        ((extract_addrentry d.row.arg1).1 = K.MADDR →
          defs = {"HOST_" ++ to_string d.row.arg2}) ∧
        ((extract_addrentry d.row.arg1).1 = K.GSPEC →
          defs = {"SPEC_" ++ to_string d.row.arg2}) ∧
        ((extract_addrentry d.row.arg1).1 ≠ K.GREG →
          (extract_addrentry d.row.arg1).1 ≠ K.MADDR →
          (extract_addrentry d.row.arg1).1 ≠ K.GSPEC → defs = ∅)) ∧
      (isVolatile = true → defs = ∅) ∧
      ((extract_addrentry d.row.arg1).2.1 = K.IRRELEVANT → defs = ∅) := by
  have h1 := K.greg_ne_maddr
  have h2 := K.greg_ne_gspec
  have h3 := K.maddr_ne_gspec
  simp only [get_uses_and_defs, hk, handleStore, hd]
  by_cases hc : (!isVolatile) = true ∧ (extract_addrentry d.row.arg1).2.1 ≠ K.IRRELEVANT
  · rw [if_pos hc]
    obtain ⟨hv, hf⟩ := hc
    simp only [Bool.not_eq_true_eq_eq_false] at hv
    refine ⟨_, _, rfl, ?_, ?_, ?_⟩
    · intro _ _
      refine ⟨?_, ?_, ?_, ?_⟩
      · intro hg; simp [hg, addr_location, insertLoc]
      · intro hg; simp [hg, addr_location, insertLoc, h1.symm]
      · intro hg; simp [hg, addr_location, insertLoc, h2.symm, h3.symm]
      · intro a b c; simp [a, b, c, addr_location, insertLoc]
    · intro hv2; rw [hv] at hv2; exact absurd hv2 (by decide)
    · intro hf2; exact absurd hf2 hf
  · rw [if_neg hc]
    refine ⟨_, _, rfl, ?_, ?_, ?_⟩
    · intro hv hf
      exact absurd ⟨by simp [hv], hf⟩ hc
    · intro _; rfl
    · intro _; rfl

/-- Instance of `store_defs` at `storeEntry`: a relevant, non-volatile `GREG` store to slot 3
defines `REG_3`. -/
theorem store_defs_witness :
    storeEntry.insn.kind = .store (namedValue 40 "v") (namedValue 32 "p") false ∧
    storeEntry.dyn = some (.log 1 (mkRow 32 5 3)) ∧
    ∃ uses, get_uses_and_defs sampleEnums storeEntry ∅ ∅ = some (uses, {"REG_3"}) := by
  obtain ⟨uses, defs, h, hrel, _, _⟩ :=
    store_defs sampleEnums storeEntry (namedValue 40 "v") (namedValue 32 "p") false
      (.log 1 (mkRow 32 5 3)) rfl rfl
  have hd := (hrel rfl (by decide)).1 (by decide)
  refine ⟨rfl, rfl, uses, ?_⟩
  rw [h, hd]
  rfl

/-- C7 as stated fails: the non-volatile store `irrelevantStoreEntry`, whose flag is
`IRRELEVANT` and whose two operands `v` and `p` are not constants, has no uses at all. -/
theorem store_uses_irrelevant_counterexample :
    get_uses_and_defs sampleEnums irrelevantStoreEntry ∅ ∅ = some (∅, ∅) ∧
    ¬ (∀ (K : MemlogEnums) (t : trace_entry) (v p : Value) (isVolatile : Bool) (d : DynPtr),
        t.insn.kind = .store v p isVolatile → t.dyn = some d →
        ∃ uses defs, get_uses_and_defs K t ∅ ∅ = some (uses, defs) ∧
          uses = (if v.isConstant then ∅ else {get_value_name v}) ∪
                 (if p.isConstant then ∅ else {get_value_name p})) := by
  have h3 : get_uses_and_defs sampleEnums irrelevantStoreEntry ∅ ∅ = some (∅, ∅) := rfl
  refine ⟨h3, ?_⟩
  intro h
  obtain ⟨uses, defs, h1, h2⟩ :=
    h sampleEnums irrelevantStoreEntry (namedValue 40 "v") (namedValue 32 "p") false
      (.log 1 (mkRow 32 (5 + 256 * 5) 3)) rfl rfl
  rw [h3] at h1
  have h4 : uses = ∅ := by injection h1 with h1; injection h1 with h1 _; exact h1.symm
  rw [h4] at h2
  revert h2
  decide

/-- C7 amended (Store uses): for a Store entry with its record, uses is exactly the names of
the non-constant ones among the value operand and the pointer operand when the store is not
volatile and the decoded flag is not `IRRELEVANT`, and uses is empty otherwise. -/
theorem store_uses (K : MemlogEnums) (t : trace_entry) (v p : Value) (isVolatile : Bool)
    (d : DynPtr) (hk : t.insn.kind = .store v p isVolatile) (hd : t.dyn = some d) :
    ∃ uses defs, get_uses_and_defs K t ∅ ∅ = some (uses, defs) ∧
      (isVolatile = false → (extract_addrentry d.row.arg1).2.1 ≠ K.IRRELEVANT →
        uses = (if v.isConstant then ∅ else {get_value_name v}) ∪
               (if p.isConstant then ∅ else {get_value_name p})) ∧
      (isVolatile = true ∨ (extract_addrentry d.row.arg1).2.1 = K.IRRELEVANT → uses = ∅) := by
  simp only [get_uses_and_defs, hk, handleStore, hd]
  by_cases hc : (!isVolatile) = true ∧ (extract_addrentry d.row.arg1).2.1 ≠ K.IRRELEVANT
  · rw [if_pos hc]
    obtain ⟨hv, hf⟩ := hc
    simp only [Bool.not_eq_true_eq_eq_false] at hv
    refine ⟨_, _, rfl, ?_, ?_⟩
    · intro _ _
      simp only [insertValue]
      ext x
      by_cases h1 : v.isConstant = true <;> by_cases h2 : p.isConstant = true <;>
        simp [h1, h2, or_comm]
    · rintro (hv2 | hf2)
      · rw [hv] at hv2; exact absurd hv2 (by decide)
      · exact absurd hf2 hf
  · rw [if_neg hc]
    refine ⟨_, _, rfl, ?_, ?_⟩
    · intro hv hf
      exact absurd ⟨by simp [hv], hf⟩ hc
    · intro _; rfl

/-- Instance of `store_uses` at `storeEntry`: a relevant, non-volatile store uses its value
and pointer operands. -/
theorem store_uses_witness :
    storeEntry.insn.kind = .store (namedValue 40 "v") (namedValue 32 "p") false ∧
    storeEntry.dyn = some (.log 1 (mkRow 32 5 3)) ∧
    ∃ defs, get_uses_and_defs sampleEnums storeEntry ∅ ∅ = some ({"v", "p"}, defs) := by
  obtain ⟨uses, defs, h, hrel, _⟩ :=
    store_uses sampleEnums storeEntry (namedValue 40 "v") (namedValue 32 "p") false
      (.log 1 (mkRow 32 5 3)) rfl rfl
  have hu := hrel rfl (by decide)
  refine ⟨rfl, rfl, defs, ?_⟩
  rw [h, hu]
  rfl

/-- C10 (Return use/def): for a Return entry in function `f`, extraction succeeds, defs is
exactly `{"<f>.retval"}`, and uses is the name of the returned value when one is present and
is not a constant, and empty otherwise; a `ret void` still defines `<f>.retval`. -/
theorem ret_use_def (K : MemlogEnums) (t : trace_entry) (rv : Option Value)
    (hk : t.insn.kind = .ret rv) :
    get_uses_and_defs K t ∅ ∅ = some
      (match rv with
        | some v => if v.isConstant then ∅ else {get_value_name v}
        | none => ∅,
       {t.func.name ++ ".retval"}) := by
  simp only [get_uses_and_defs, hk, handleRet]
  cases rv with
  | none => simp
  | some v => simp [insertValue_empty]

/-- Instance of `ret_use_def` at `retVoidEntry`: a `ret void` uses nothing and defines the
return slot of its function. -/
theorem ret_use_def_witness :
    retVoidEntry.insn.kind = .ret none ∧
    get_uses_and_defs sampleEnums retVoidEntry ∅ ∅ =
      some (∅, {"tcg-llvm-tb-1-400000.retval"}) := by
  have h := ret_use_def sampleEnums retVoidEntry none rfl
  refine ⟨rfl, ?_⟩
  rw [h]
  rfl

/-- C8 (memory helpers): for a call entry with its record whose callee name has `q`, `l`, `w`
or `b` (size 8, 4, 2, 1) after a four-character stem: if the name starts with `__ld`, uses is
exactly the names `MEM_<hex(arg2 + k)>` for `k < size` (the sum is a 64-bit one) plus the name
of the non-constant address argument, and defs is exactly the name of the result; if it
starts with `__st`, defs is exactly those `MEM_` names and uses is exactly the names of the
non-constant address and value arguments; when `arg2 + size` does not pass `2^64` the sums
do not wrap and the `MEM_` names are `size` distinct ones. -/
theorem mem_helper_use_def (K : MemlogEnums) (t : trace_entry) (subf : FunctionDecl)
    (args : List Value) (isVoidTy : Bool) (d : DynPtr) (size : Nat)
    (hk : t.insn.kind = .call (some subf) args isVoidTy) (hd : t.dyn = some d)
    (hsz : (subf.name.data.get? 4 = some 'q' ∧ size = 8) ∨
           (subf.name.data.get? 4 = some 'l' ∧ size = 4) ∨
           (subf.name.data.get? 4 = some 'w' ∧ size = 2) ∨
           (subf.name.data.get? 4 = some 'b' ∧ size = 1)) :
    (startswith subf.name "__ld" = true → ∀ a, args.get? 0 = some a →
      get_uses_and_defs K t ∅ ∅ = some
        ((Finset.range size).image (fun k => "MEM_" ++ hex ((d.row.arg2 + k) % 2 ^ 64)) ∪
           (if a.isConstant then ∅ else {get_value_name a}),
         {get_value_name t.insn.toValue})) ∧
    (startswith subf.name "__st" = true → ∀ a v, args.get? 0 = some a → args.get? 1 = some v →
      get_uses_and_defs K t ∅ ∅ = some
        ((if a.isConstant then ∅ else {get_value_name a}) ∪
           (if v.isConstant then ∅ else {get_value_name v}),
         (Finset.range size).image (fun k => "MEM_" ++ hex ((d.row.arg2 + k) % 2 ^ 64)))) ∧
    (d.row.arg2 + size ≤ 2 ^ 64 →
      (Finset.range size).image (fun k => "MEM_" ++ hex ((d.row.arg2 + k) % 2 ^ 64)) =
        (Finset.range size).image (fun k => "MEM_" ++ hex (d.row.arg2 + k)) ∧
      ((Finset.range size).image
        (fun k => "MEM_" ++ hex ((d.row.arg2 + k) % 2 ^ 64))).card = size) := by
  have hs : helper_size subf.name = some size := by
    rcases hsz with ⟨h, rfl⟩ | ⟨h, rfl⟩ | ⟨h, rfl⟩ | ⟨h, rfl⟩ <;>
      (unfold helper_size; rw [h]; rfl)
  refine ⟨?_, ?_, ?_⟩
  · intro hld a ha
    simp only [get_uses_and_defs, hk, handleCall, hld, if_true, hs, hd, ha, insertMem_eq]
    have hu : insertValue ((Finset.range size).image
          (fun k => "MEM_" ++ hex ((d.row.arg2 + k) % 2 ^ 64)) ∪ ∅) a =
        (Finset.range size).image (fun k => "MEM_" ++ hex ((d.row.arg2 + k) % 2 ^ 64)) ∪
          (if a.isConstant then ∅ else {get_value_name a}) := by
      unfold insertValue
      ext x
      by_cases h1 : a.isConstant = true <;> simp [h1, or_comm]
    rw [hu]
    simp [insertValue, Instruction.toValue]
  · intro hst a v ha hv
    have hld := startswith_st_not_ld _ hst
    simp only [get_uses_and_defs, hk, handleCall, hld, hst, if_true, hs, hd, ha, hv,
      insertMem_eq]
    have hu : insertValue (insertValue ∅ a) v =
        (if a.isConstant then ∅ else {get_value_name a}) ∪
          (if v.isConstant then ∅ else {get_value_name v}) := by
      unfold insertValue
      ext x
      by_cases h1 : a.isConstant = true <;> by_cases h2 : v.isConstant = true <;>
        simp [h1, h2, or_comm]
    rw [hu]
    simp
  · intro hw
    have hmod : ∀ k ∈ Finset.range size, (d.row.arg2 + k) % 2 ^ 64 = d.row.arg2 + k := by
      intro k hk2
      have := Finset.mem_range.mp hk2
      exact Nat.mod_eq_of_lt (by omega)
    have himg : (Finset.range size).image (fun k => "MEM_" ++ hex ((d.row.arg2 + k) % 2 ^ 64)) =
        (Finset.range size).image (fun k => "MEM_" ++ hex (d.row.arg2 + k)) := by
      apply Finset.image_congr
      intro k hk2
      simp only [hmod k hk2]
    refine ⟨himg, ?_⟩
    rw [himg, Finset.card_image_of_injective, Finset.card_range]
    intro a b hab
    have := mem_name_injective hab
    omega

/-- Instances of `mem_helper_use_def`: `r = __ldl_mmu(a)` at guest address `0x1000` uses the
four bytes `MEM_1000 .. MEM_1003` and `a`, and defines `r`; `__stw_mmu(a, v)` at guest address
`0x2000` defines the two distinct bytes `MEM_2000`, `MEM_2001` and uses `a` and `v`. -/
theorem mem_helper_use_def_witness :
    (ldEntry.insn.kind =
      .call (some (declOf 768 "__ldl_mmu" [namedValue 48 "addr"])) [namedValue 56 "a"] false ∧
    ldEntry.dyn = some (.log 2 (mkRow 31 0 4096)) ∧
    (declOf 768 "__ldl_mmu" [namedValue 48 "addr"]).name.data.get? 4 = some 'l' ∧
    get_uses_and_defs sampleEnums ldEntry ∅ ∅ =
      some ({"MEM_1000", "MEM_1001", "MEM_1002", "MEM_1003", "a"}, {"r"})) ∧
    (stEntry.dyn = some (.log 3 (mkRow 32 0 8192)) ∧
    (declOf 776 "__stw_mmu" [namedValue 48 "addr", namedValue 50 "val"]).name.data.get? 4 =
      some 'w' ∧
    (mkRow 32 0 8192).arg2 + 2 ≤ 2 ^ 64 ∧
    get_uses_and_defs sampleEnums stEntry ∅ ∅ =
      some ({"a", "v"}, {"MEM_2000", "MEM_2001"}) ∧
    ({"MEM_2000", "MEM_2001"} : Finset String).card = 2) := by
  have h := (mem_helper_use_def sampleEnums ldEntry
    (declOf 768 "__ldl_mmu" [namedValue 48 "addr"]) [namedValue 56 "a"] false
    (.log 2 (mkRow 31 0 4096)) 4 rfl rfl (Or.inr (Or.inl ⟨rfl, rfl⟩))).1 rfl
    (namedValue 56 "a") rfl
  have hst := mem_helper_use_def sampleEnums stEntry
    (declOf 776 "__stw_mmu" [namedValue 48 "addr", namedValue 50 "val"])
    [namedValue 56 "a", namedValue 40 "v"] true
    (.log 3 (mkRow 32 0 8192)) 2 rfl rfl (Or.inr (Or.inr (Or.inl ⟨rfl, rfl⟩)))
  have h2 := hst.2.1 rfl (namedValue 56 "a") (namedValue 40 "v") rfl rfl
  have h3 := (hst.2.2 (by decide)).2
  refine ⟨⟨rfl, rfl, rfl, ?_⟩, rfl, rfl, by decide, ?_, ?_⟩
  · rw [h]
    decide
  · rw [h2]
    decide
  · rw [← h3]
    decide

/-- C9 (call to any other callee `g`): when the callee name starts with none of `__ld`,
`__st`, `llvm.memcpy`, `llvm.memset`, `helper_in`, `helper_out`, `log_dynval`, uses is exactly
`{"<g>.retval"}` (no actual argument is added) and defs is the name of the result when the
type of the call is not void, and empty when it is void. -/
theorem other_call_use_def (K : MemlogEnums) (t : trace_entry) (subf : FunctionDecl)
    (args : List Value) (isVoidTy : Bool)
    (hk : t.insn.kind = .call (some subf) args isVoidTy)
    (h1 : startswith subf.name "__ld" = false) (h2 : startswith subf.name "__st" = false)
    (h3 : startswith subf.name "llvm.memcpy" = false)
    (h4 : startswith subf.name "llvm.memset" = false)
    (h5 : startswith subf.name "helper_in" = false)
    (h6 : startswith subf.name "helper_out" = false)
    (h7 : startswith subf.name "log_dynval" = false) :
    get_uses_and_defs K t ∅ ∅ = some
      ({subf.name ++ ".retval"},
       if isVoidTy then ∅ else {get_value_name t.insn.toValue}) := by
  simp only [get_uses_and_defs, hk, handleCall, h1, h2, h3, h4, h5, h6, h7]
  cases isVoidTy <;> simp [insertValue, Instruction.toValue]

/-- Instance of `other_call_use_def` at `helperCallEntry`: `x = helper_foo(a, b)` uses only
`helper_foo.retval` and defines `x`. -/
theorem other_call_use_def_witness :
    helperCallEntry.insn.kind =
      .call (some (declOf 1024 "helper_foo" [namedValue 64 "arg0", namedValue 72 "arg1"]))
        [namedValue 56 "a", namedValue 80 "b"] false ∧
    get_uses_and_defs sampleEnums helperCallEntry ∅ ∅ =
      some ({"helper_foo.retval"}, {"x"}) := by
  have h := other_call_use_def sampleEnums helperCallEntry
    (declOf 1024 "helper_foo" [namedValue 64 "arg0", namedValue 72 "arg1"])
    [namedValue 56 "a", namedValue 80 "b"] false rfl rfl rfl rfl rfl rfl rfl rfl
  refine ⟨rfl, ?_⟩
  rw [h]
  rfl

/-! ## Slicer: one step -/

theorem marked_get_marked_set (m : MarkedMap) (k : Nat × Nat) (j : Nat) :
    j ∈ marked_get (marked_set m k j) k := by
  induction m with
  | nil => simp [marked_set, marked_get]
  | cons hd tl ih =>
    obtain ⟨k0, b⟩ := hd
    by_cases h : k0 = k
    · simp [marked_set, marked_get, h]
    · simp [marked_set, marked_get, h, ih]

theorem marked_get_marked_set_eq (m : MarkedMap) (k k1 : Nat × Nat) (j : Nat) :
    marked_get (marked_set m k j) k1 =
      if k1 = k then insert j (marked_get m k) else marked_get m k1 := by
  induction m with
  | nil =>
    by_cases h : k1 = k
    · simp [marked_set, marked_get, h]
    · have h2 : ¬ k = k1 := fun e => h e.symm
      simp [marked_set, marked_get, h, h2]
  | cons hd tl ih =>
    obtain ⟨k0, b⟩ := hd
    by_cases h0 : k0 = k
    · subst h0
      by_cases h : k1 = k0
      · subst h
        simp [marked_set, marked_get]
      · have h2 : ¬ k0 = k1 := fun e => h e.symm
        simp [marked_set, marked_get, h, h2]
    · by_cases h : k0 = k1
      · subst h
        simp [marked_set, marked_get, h0]
      · simp [marked_set, marked_get, h0, h, ih]

theorem mark_eq_some (m : MarkedMap) (t : trace_entry)
    (hi : (t.index % 2 ^ 32) % 65536 < MAX_BITSET) :
    mark m t = some (marked_set m (t.func.addr, (t.index % 2 ^ 32) / 65536)
      ((t.index % 2 ^ 32) % 65536)) := by
  show (if (t.index % 2 ^ 32) % 65536 < MAX_BITSET then _ else _) = _
  exact if_pos hi

theorem update_argmap_stack_isSome (K : MemlogEnums) (t : trace_entry)
    (uses defs : Finset String) (stack : List ArgMap)
    (h : get_uses_and_defs K t ∅ ∅ = some (uses, defs)) :
    ∃ st, update_argmap_stack stack t = some st := by
  unfold update_argmap_stack
  cases hk : t.insn.kind with
  | call callee args v =>
    cases callee with
    | none => simp [get_uses_and_defs, hk, handleCall] at h
    | some subf => by_cases hi : is_ignored subf.name = true <;> simp [hi]
  | _ => simp only []; split <;> exact ⟨_, rfl⟩

/-- C1 (one step of `slice_trace`): for an entry `t` whose extraction gives `defs` and whose
uses, after remapping, are `U`, in a state with working set `w`: if `defs ∩ w ≠ ∅` the
entry is marked and the working set becomes `(w \ defs) ∪ U`; otherwise, if the instruction
is a terminator other than a return and `include_branches` is on, the entry is marked and the
working set becomes `w ∪ U`; otherwise neither the marked map nor the working set changes.
Marking needs the instruction ordinal below `MAX_BITSET` (the `assert` of `mark`). -/
theorem slice_step_contract (K : MemlogEnums) (include_branches : Bool) (entry_func : Function)
    (s : SliceState) (t : trace_entry) (uses0 defs U : Finset String)
    (hx : get_uses_and_defs K t ∅ ∅ = some (uses0, defs))
    (hr : remap_uses entry_func s.argmap_stack t uses0 = some U) :
    (defs ∩ s.work ≠ ∅ → (t.index % 2 ^ 32) % 65536 < MAX_BITSET →
      ∃ s1, slice_step K include_branches entry_func s t = some s1 ∧
        mark s.marked t = some s1.marked ∧
        (t.index % 2 ^ 32) % 65536 ∈
          marked_get s1.marked (t.func.addr, (t.index % 2 ^ 32) / 65536) ∧
        s1.work = (s.work \ defs) ∪ U) ∧
    (defs ∩ s.work = ∅ → t.insn.isTerminator = true → t.insn.isReturn = false →
      include_branches = true → (t.index % 2 ^ 32) % 65536 < MAX_BITSET →
      ∃ s1, slice_step K include_branches entry_func s t = some s1 ∧
        mark s.marked t = some s1.marked ∧
        (t.index % 2 ^ 32) % 65536 ∈
          marked_get s1.marked (t.func.addr, (t.index % 2 ^ 32) / 65536) ∧
        s1.work = s.work ∪ U) ∧
    (defs ∩ s.work = ∅ →
      ¬ (t.insn.isTerminator = true ∧ t.insn.isReturn = false ∧ include_branches = true) →
      ∃ s1, slice_step K include_branches entry_func s t = some s1 ∧
        s1.marked = s.marked ∧ s1.work = s.work) := by
  obtain ⟨st, hst⟩ := update_argmap_stack_isSome K t uses0 defs s.argmap_stack hx
  refine ⟨?_, ?_, ?_⟩
  · intro ho hi
    have hne : (defs ∩ s.work).Nonempty := Finset.nonempty_iff_ne_empty.mpr ho
    refine ⟨⟨marked_set s.marked (t.func.addr, (t.index % 2 ^ 32) / 65536)
      ((t.index % 2 ^ 32) % 65536), (s.work \ defs) ∪ U, st⟩, ?_, ?_, ?_, rfl⟩
    · simp only [slice_step, hx, hr, update_work, hne, mark_eq_some _ _ hi, hst, if_true,
        Option.map_some']
    · exact mark_eq_some _ _ hi
    · exact marked_get_marked_set _ _ _
  · intro ho h1 h2 h3 hi
    have hne : ¬ (defs ∩ s.work).Nonempty := by
      rw [Finset.not_nonempty_iff_eq_empty]; exact ho
    refine ⟨⟨marked_set s.marked (t.func.addr, (t.index % 2 ^ 32) / 65536)
      ((t.index % 2 ^ 32) % 65536), s.work ∪ U, st⟩, ?_, ?_, ?_, rfl⟩
    · simp [slice_step, hx, hr, update_work, hne, mark_eq_some _ _ hi, hst, h1, h2, h3]
    · exact mark_eq_some _ _ hi
    · exact marked_get_marked_set _ _ _
  · intro ho hn
    have hne : ¬ (defs ∩ s.work).Nonempty := by
      rw [Finset.not_nonempty_iff_eq_empty]; exact ho
    refine ⟨⟨s.marked, s.work, st⟩, ?_, rfl, rfl⟩
    have hb : (t.insn.isTerminator && !t.insn.isReturn && include_branches) = false := by
      cases h1 : t.insn.isTerminator <;> cases h2 : t.insn.isReturn <;>
        cases h3 : include_branches <;> simp_all
    simp [slice_step, hx, hr, update_work, hne, hst, hb]

/-- Instance of `slice_step_contract`: with `REG_3` live, the store to `REG_3` is marked
(bit 1 of block 0 of the function at address 256) and `REG_3` is replaced by `v` and `p`. -/
theorem slice_step_contract_witness :
    get_uses_and_defs sampleEnums storeEntry ∅ ∅ = some ({"p", "v"}, {"REG_3"}) ∧
    remap_uses tbFunc [] storeEntry {"p", "v"} = some {"p", "v"} ∧
    ({"REG_3"} : Finset String) ∩ {"REG_3"} ≠ ∅ ∧
    (storeEntry.index % 2 ^ 32) % 65536 < MAX_BITSET ∧
    ∃ s1, slice_step sampleEnums false tbFunc
        { marked := [], work := {"REG_3"}, argmap_stack := [] } storeEntry = some s1 ∧
      1 ∈ marked_get s1.marked (256, 0) ∧ s1.work = {"p", "v"} := by
  have hx : get_uses_and_defs sampleEnums storeEntry ∅ ∅ = some ({"p", "v"}, {"REG_3"}) := rfl
  have hr : remap_uses tbFunc [] storeEntry {"p", "v"} = some {"p", "v"} := rfl
  have ho : ({"REG_3"} : Finset String) ∩ {"REG_3"} ≠ ∅ := by decide
  have hi : (storeEntry.index % 2 ^ 32) % 65536 < MAX_BITSET := by decide
  obtain ⟨s1, h1, _, h3, h4⟩ :=
    (slice_step_contract sampleEnums false tbFunc
      { marked := [], work := {"REG_3"}, argmap_stack := [] } storeEntry
      {"p", "v"} {"REG_3"} {"p", "v"} hx hr).1 ho hi
  refine ⟨hx, hr, ho, hi, s1, h1, h3, ?_⟩
  rw [h4]
  decide

/-! ## Slicer: the whole walk -/

theorem slice_step_inv (K : MemlogEnums) (ib : Bool) (f : Function) (s s1 : SliceState)
    (t : trace_entry) (h : slice_step K ib f s t = some s1) :
    ∃ uses0 defs U, get_uses_and_defs K t ∅ ∅ = some (uses0, defs) ∧
      remap_uses f s.argmap_stack t uses0 = some U ∧
      update_work ib s.marked s.work t U defs = some (s1.marked, s1.work) ∧
      update_argmap_stack s.argmap_stack t = some s1.argmap_stack := by
  unfold slice_step at h
  cases hx : get_uses_and_defs K t ∅ ∅ with
  | none => simp [hx] at h
  | some ud =>
    obtain ⟨uses0, defs⟩ := ud
    cases hr : remap_uses f s.argmap_stack t uses0 with
    | none => simp [hx, hr] at h
    | some U =>
      cases hu : update_work ib s.marked s.work t U defs with
      | none => simp [hx, hr, hu] at h
      | some mw =>
        obtain ⟨m, w⟩ := mw
        cases hs : update_argmap_stack s.argmap_stack t with
        | none => simp [hx, hr, hu, hs] at h
        | some st =>
          simp only [hx, hr, hu, hs, Option.some.injEq] at h
          subst h
          exact ⟨uses0, defs, U, rfl, hr, hu, rfl⟩

theorem update_work_cases (ib : Bool) (marked m : MarkedMap) (work w : Finset String)
    (t : trace_entry) (U defs : Finset String)
    (h : update_work ib marked work t U defs = some (m, w)) :
    ((defs ∩ work).Nonempty ∧ w = (work \ defs) ∪ U) ∨
    (¬ (defs ∩ work).Nonempty ∧ (t.insn.isTerminator && !t.insn.isReturn && ib) = true ∧
      w = work ∪ U) ∨
    (¬ (defs ∩ work).Nonempty ∧ (t.insn.isTerminator && !t.insn.isReturn && ib) = false ∧
      w = work ∧ m = marked) := by
  unfold update_work at h
  by_cases h1 : (defs ∩ work).Nonempty
  · rw [if_pos h1] at h
    cases hm : mark marked t with
    | none => simp [hm] at h
    | some m1 =>
      simp only [hm, Option.map_some', Option.some.injEq, Prod.mk.injEq] at h
      exact Or.inl ⟨h1, h.2.symm⟩
  · rw [if_neg h1] at h
    by_cases h2 : (t.insn.isTerminator && !t.insn.isReturn && ib) = true
    · rw [if_pos h2] at h
      cases hm : mark marked t with
      | none => simp [hm] at h
      | some m1 =>
        simp only [hm, Option.map_some', Option.some.injEq, Prod.mk.injEq] at h
        exact Or.inr (Or.inl ⟨h1, h2, h.2.symm⟩)
    · rw [if_neg h2] at h
      simp only [Option.some.injEq, Prod.mk.injEq] at h
      exact Or.inr (Or.inr ⟨h1, by simpa using h2, h.2.symm, h.1.symm⟩)

theorem slice_loop_cons (K : MemlogEnums) (ib : Bool) (f : Function) (s s1 : SliceState)
    (t : trace_entry) (rest : List trace_entry) (h : slice_step K ib f s t = some s1) :
    slice_loop K ib f s (t :: rest) = slice_loop K ib f s1 rest := by
  simp [slice_loop, h]

theorem slice_loop_cons_inv (K : MemlogEnums) (ib : Bool) (f : Function) (s s2 : SliceState)
    (t : trace_entry) (rest : List trace_entry)
    (h : slice_loop K ib f s (t :: rest) = some s2) :
    ∃ s1, slice_step K ib f s t = some s1 ∧ slice_loop K ib f s1 rest = some s2 := by
  cases hs : slice_step K ib f s t with
  | none => simp [slice_loop, hs] at h
  | some s1 => exact ⟨s1, rfl, by simpa [slice_loop, hs] using h⟩

theorem mark_inv (m m1 : MarkedMap) (t : trace_entry) (h : mark m t = some m1) :
    m1 = marked_set m (t.func.addr, (t.index % 2 ^ 32) / 65536)
      ((t.index % 2 ^ 32) % 65536) := by
  unfold mark at h
  by_cases hi : (t.index % 2 ^ 32) % 65536 < MAX_BITSET
  · simp only [hi, if_true, Option.some.injEq] at h
    exact h.symm
  · simp only [hi, if_false] at h
    exact absurd h (by simp)

theorem mark_mono (m m1 : MarkedMap) (t : trace_entry) (h : mark m t = some m1)
    (k : Nat × Nat) (j : Nat) (hj : j ∈ marked_get m k) : j ∈ marked_get m1 k := by
  rw [mark_inv m m1 t h, marked_get_marked_set_eq]
  by_cases hk : k = (t.func.addr, (t.index % 2 ^ 32) / 65536)
  · rw [if_pos hk, ← hk]
    exact Finset.mem_insert_of_mem hj
  · rw [if_neg hk]
    exact hj

theorem update_work_mark (ib : Bool) (marked m : MarkedMap) (work w : Finset String)
    (t : trace_entry) (U defs : Finset String)
    (h : update_work ib marked work t U defs = some (m, w)) :
    ((defs ∩ work).Nonempty ∨ (t.insn.isTerminator && !t.insn.isReturn && ib) = true →
      mark marked t = some m) ∧
    (mark marked t = some m ∨ m = marked) := by
  unfold update_work at h
  by_cases h1 : (defs ∩ work).Nonempty
  · rw [if_pos h1] at h
    cases hm : mark marked t with
    | none => simp [hm] at h
    | some m1 =>
      simp only [hm, Option.map_some', Option.some.injEq, Prod.mk.injEq] at h
      rw [h.1]
      exact ⟨fun _ => rfl, Or.inl rfl⟩
  · rw [if_neg h1] at h
    by_cases h2 : (t.insn.isTerminator && !t.insn.isReturn && ib) = true
    · rw [if_pos h2] at h
      cases hm : mark marked t with
      | none => simp [hm] at h
      | some m1 =>
        simp only [hm, Option.map_some', Option.some.injEq, Prod.mk.injEq] at h
        rw [h.1]
        exact ⟨fun _ => rfl, Or.inl rfl⟩
    · rw [if_neg h2] at h
      simp only [Option.some.injEq, Prod.mk.injEq] at h
      refine ⟨fun hc => ?_, Or.inr h.1.symm⟩
      rcases hc with hc | hc
      · exact absurd hc h1
      · exact absurd hc h2

theorem slice_step_marked_mono (K : MemlogEnums) (ib : Bool) (f : Function)
    (s s1 : SliceState) (t : trace_entry) (h : slice_step K ib f s t = some s1)
    (k : Nat × Nat) (j : Nat) (hj : j ∈ marked_get s.marked k) :
    j ∈ marked_get s1.marked k := by
  obtain ⟨uses0, defs, U, _, _, hu, _⟩ := slice_step_inv K ib f s s1 t h
  rcases (update_work_mark ib _ _ _ _ t U defs hu).2 with hm | hm
  · exact mark_mono _ _ t hm k j hj
  · rw [hm]
    exact hj

theorem slice_loop_marked_mono (K : MemlogEnums) (ib : Bool) (f : Function) :
    ∀ (visited : List trace_entry) (s s2 : SliceState),
      slice_loop K ib f s visited = some s2 →
      ∀ (k : Nat × Nat) (j : Nat), j ∈ marked_get s.marked k → j ∈ marked_get s2.marked k := by
  intro visited
  induction visited with
  | nil =>
    intro s s2 h k j hj
    simp only [slice_loop, Option.some.injEq] at h
    subst h
    exact hj
  | cons t rest ih =>
    intro s s2 h k j hj
    obtain ⟨s1, hs, hl⟩ := slice_loop_cons_inv K ib f s s2 t rest h
    exact ih s1 s2 hl k j (slice_step_marked_mono K ib f s s1 t hs k j hj)

theorem slice_loop_preserves (K : MemlogEnums) (ib : Bool) (f : Function) (x : String) :
    ∀ (visited : List trace_entry) (s s2 : SliceState),
      slice_loop K ib f s visited = some s2 → x ∈ s.work →
      x ∈ s2.work ∨ ∃ pre t post defs sa sb uses, visited = pre ++ t :: post ∧
        slice_loop K ib f s pre = some sa ∧
        get_uses_and_defs K t ∅ ∅ = some (uses, defs) ∧ (defs ∩ sa.work).Nonempty ∧
        slice_step K ib f sa t = some sb ∧ mark sa.marked t = some sb.marked ∧
        slice_loop K ib f sb post = some s2 ∧ x ∈ defs := by
  intro visited
  induction visited with
  | nil =>
    intro s s2 h hx
    simp only [slice_loop, Option.some.injEq] at h
    subst h
    exact Or.inl hx
  | cons t rest ih =>
    intro s s2 h hx
    obtain ⟨s1, hs, hl⟩ := slice_loop_cons_inv K ib f s s2 t rest h
    obtain ⟨uses0, defs, U, hud, _, hu, _⟩ := slice_step_inv K ib f s s1 t hs
    by_cases hx1 : x ∈ s1.work
    · rcases ih s1 s2 hl hx1 with
        h2 | ⟨pre, t1, post, d1, sa, sb, up, hv, hsa, hup, hm, hstep, hmark, hpost, hxd⟩
      · exact Or.inl h2
      · refine Or.inr ⟨t :: pre, t1, post, d1, sa, sb, up, by simp [hv], ?_, hup, hm, hstep,
          hmark, hpost, hxd⟩
        rw [slice_loop_cons K ib f s s1 t pre hs]
        exact hsa
    · have hxd : x ∈ defs ∧ (defs ∩ s.work).Nonempty := by
        rcases update_work_cases ib _ _ _ _ t U defs hu with
          ⟨hne, hw⟩ | ⟨_, _, hw⟩ | ⟨_, _, hw, _⟩
        · rw [hw] at hx1
          simp only [Finset.mem_union, Finset.mem_sdiff, not_or, not_and, not_not] at hx1
          exact ⟨hx1.1 hx, hne⟩
        · rw [hw] at hx1
          exact absurd (Finset.mem_union_left _ hx) hx1
        · rw [hw] at hx1
          exact absurd hx hx1
      have hmark : mark s.marked t = some s1.marked :=
        (update_work_mark ib _ _ _ _ t U defs hu).1 (Or.inl hxd.2)
      exact Or.inr ⟨[], t, rest, defs, s, s1, uses0, rfl, rfl, hud, hxd.2, hs, hmark, hl,
        hxd.1⟩

theorem slice_trace_inv (K : MemlogEnums) (ib : Bool) (t0 : trace_entry)
    (rest : List trace_entry) (marked marked1 : MarkedMap) (w0 w1 : Finset String)
    (h : slice_trace K ib (t0 :: rest) marked w0 = some (marked1, w1)) :
    ∃ s a args, slice_loop K ib t0.func { marked := marked, work := w0, argmap_stack := [] }
        (t0 :: rest).reverse = some s ∧
      t0.func.args = a :: args ∧ marked1 = s.marked ∧ w1 = s.work.erase (get_value_name a) := by
  have hw : slice_walk K ib (t0 :: rest) marked w0 =
      slice_loop K ib t0.func { marked := marked, work := w0, argmap_stack := [] }
        (t0 :: rest).reverse := rfl
  have h0 : slice_trace K ib (t0 :: rest) marked w0 =
      match slice_walk K ib (t0 :: rest) marked w0 with
      | none => none
      | some s =>
        match t0.func.args with
        | [] => none
        | a :: _ => some (s.marked, s.work.erase (get_value_name a)) := rfl
  rw [h0, hw] at h
  cases hl : slice_loop K ib t0.func { marked := marked, work := w0, argmap_stack := [] }
      (t0 :: rest).reverse with
  | none => rw [hl] at h; exact absurd h (by simp)
  | some s =>
    rw [hl] at h
    cases ha : t0.func.args with
    | nil => rw [ha] at h; exact absurd h (by simp)
    | cons a args =>
      rw [ha] at h
      simp only [Option.some.injEq, Prod.mk.injEq] at h
      exact ⟨s, a, args, rfl, rfl, h.1.symm, h.2.symm⟩

/-- C2 as stated fails: the translation block `retOnlyFunc` aligns to the single entry
`ret void`; slicing it with the criterion `env`, the name of the first formal argument of the
entry function, returns an empty working set and an empty marked map, and no entry defining
`env` is marked. -/
theorem criterion_preservation_counterexample :
    process_func [retOnlyFunc] fnOnlyLog 4 retOnlyFunc
      { cursor := 1, serialized := [], in_exception := false } =
      some { cursor := 1, serialized := [retOnlyEntry], in_exception := false } ∧
    slice_trace sampleEnums false [retOnlyEntry] [] {"env"} = some ([], ∅) ∧
    ¬ (∀ (K : MemlogEnums) (ib : Bool) (t0 : trace_entry) (rest : List trace_entry)
        (marked marked1 : MarkedMap) (w0 w1 : Finset String),
        slice_trace K ib (t0 :: rest) marked w0 = some (marked1, w1) →
        ∀ x ∈ w0, x ∈ w1 ∨ ∃ pre t post defs, (t0 :: rest).reverse = pre ++ t :: post ∧
          MarksEntry K ib t0.func { marked := marked, work := w0, argmap_stack := [] }
            pre t defs marked1 ∧ x ∈ defs) := by
  have hrun : slice_trace sampleEnums false [retOnlyEntry] [] {"env"} = some ([], ∅) := by
    decide
  refine ⟨by decide, hrun, ?_⟩
  intro h
  rcases h sampleEnums false retOnlyEntry [] [] [] {"env"} ∅ hrun "env" (by decide) with
    h1 | ⟨pre, t, post, defs, hv, ⟨s, s1, uses, _, hud, _, _, _, _⟩, hxd⟩
  · exact absurd h1 (by decide)
  · have hv2 : [retOnlyEntry] = pre ++ t :: post := hv
    have ht : t = retOnlyEntry := by
      cases pre with
      | nil => exact (List.cons.inj hv2).1.symm
      | cons p pre => exact absurd (List.cons.inj hv2).2 (by simp)
    subst ht
    have hd : get_uses_and_defs sampleEnums retOnlyEntry ∅ ∅ =
        some (∅, {"tcg-llvm-tb-2-400010.retval"}) := rfl
    rw [hd] at hud
    simp only [Option.some.injEq, Prod.mk.injEq] at hud
    rw [← hud.2] at hxd
    revert hxd
    decide

/-- C2 amended (criterion preservation): when `slice_trace` returns, every name of the
initial working set other than the name of the first formal argument of the entry function
is either still in the final working set or belongs to the defs of an entry that
`slice_trace` marked: the walk called `mark` on that entry and its bit is set in the marked
map that `slice_trace` returns. -/
theorem criterion_preservation (K : MemlogEnums) (ib : Bool) (t0 : trace_entry)
    (rest : List trace_entry) (marked marked1 : MarkedMap) (w0 w1 : Finset String)
    (h : slice_trace K ib (t0 :: rest) marked w0 = some (marked1, w1))
    (x : String) (hx : x ∈ w0)
    (hne : ∀ a args, t0.func.args = a :: args → x ≠ get_value_name a) :
    x ∈ w1 ∨ ∃ pre t post defs, (t0 :: rest).reverse = pre ++ t :: post ∧
      MarksEntry K ib t0.func { marked := marked, work := w0, argmap_stack := [] }
        pre t defs marked1 ∧ x ∈ defs ∧ IsMarked marked1 t := by
  obtain ⟨s, a, args, hl, ha, hm, hw⟩ := slice_trace_inv K ib t0 rest marked marked1 w0 w1 h
  rcases slice_loop_preserves K ib t0.func x _ _ s hl hx with
    h1 | ⟨pre, t, post, defs, sa, sb, uses, hv, hsa, hud, hov, hstep, hmark, hpost, hxd⟩
  · left
    rw [hw]
    exact Finset.mem_erase.mpr ⟨hne a args ha, h1⟩
  · have hbit : IsMarked sb.marked t := by
      unfold mark at hmark
      by_cases hi : (t.index % 2 ^ 32) % 65536 < MAX_BITSET
      · simp only [hi, if_true, Option.some.injEq] at hmark
        rw [← hmark]
        exact marked_get_marked_set _ _ _
      · simp only [hi, if_false] at hmark
        exact absurd hmark (by simp)
    have hfin : IsMarked marked1 t := by
      rw [hm]
      exact slice_loop_marked_mono K ib t0.func post sb s hpost _ _ hbit
    exact Or.inr ⟨pre, t, post, defs, hv,
      ⟨sa, sb, uses, hsa, hud, Or.inl hov, hstep, hmark, hfin⟩, hxd, hfin⟩

/-- Instance of `criterion_preservation`: with `REG_3` live, slicing the store to `REG_3`
drops `REG_3` from the working set, and `REG_3` is in the defs of that store, which the walk
marked: bit 1 of block 0 is set in the returned map. -/
theorem criterion_preservation_witness :
    slice_trace sampleEnums false [storeEntry] [] {"REG_3"} =
      some ([((256, 0), {1})], {"p", "v"}) ∧
    "REG_3" ∈ ({"REG_3"} : Finset String) ∧
    (∀ a args, storeEntry.func.args = a :: args → "REG_3" ≠ get_value_name a) ∧
    ∃ pre t post defs, [storeEntry].reverse = pre ++ t :: post ∧
      MarksEntry sampleEnums false storeEntry.func
        { marked := [], work := {"REG_3"}, argmap_stack := [] } pre t defs
        [((256, 0), {1})] ∧
      "REG_3" ∈ defs ∧ IsMarked [((256, 0), {1})] t := by
  have hrun : slice_trace sampleEnums false [storeEntry] [] {"REG_3"} =
      some ([((256, 0), {1})], {"p", "v"}) := by decide
  have hne : ∀ a args, storeEntry.func.args = a :: args → "REG_3" ≠ get_value_name a := by
    intro a args h
    have h2 : [envArg] = a :: args := h
    have h3 : a = envArg := (List.cons.inj h2).1.symm
    subst h3
    decide
  rcases criterion_preservation sampleEnums false storeEntry [] [] _ {"REG_3"} _ hrun "REG_3"
      (by decide) hne with h1 | h2
  · exact absurd h1 (by decide)
  · exact ⟨hrun, by decide, hne, h2⟩

theorem card_update_le (work defs U : Finset String)
    (h : U.card ≤ (defs ∩ work).card) : ((work \ defs) ∪ U).card ≤ work.card := by
  have h1 := Finset.card_union_le (work \ defs) U
  have h2 := Finset.card_sdiff_add_card_inter work defs
  rw [Finset.inter_comm] at h2
  omega

theorem slice_loop_card_le (K : MemlogEnums) (f : Function) :
    ∀ (visited : List trace_entry) (s s2 : SliceState),
      slice_loop K false f s visited = some s2 →
      (∀ pre t post sp uses0 defs U, visited = pre ++ t :: post →
        slice_loop K false f s pre = some sp →
        get_uses_and_defs K t ∅ ∅ = some (uses0, defs) →
        remap_uses f sp.argmap_stack t uses0 = some U →
        (defs ∩ sp.work).Nonempty → U.card ≤ (defs ∩ sp.work).card) →
      s2.work.card ≤ s.work.card := by
  intro visited
  induction visited with
  | nil =>
    intro s s2 h _
    simp only [slice_loop, Option.some.injEq] at h
    subst h
    exact le_refl _
  | cons t rest ih =>
    intro s s2 h hU
    obtain ⟨s1, hs, hl⟩ := slice_loop_cons_inv K false f s s2 t rest h
    obtain ⟨uses0, defs, U, hud, hr, hu, _⟩ := slice_step_inv K false f s s1 t hs
    have hstep : s1.work.card ≤ s.work.card := by
      rcases update_work_cases false _ _ _ _ t U defs hu with
        ⟨hne, hw⟩ | ⟨_, hb, _⟩ | ⟨_, _, hw, _⟩
      · rw [hw]
        exact card_update_le _ _ _ (hU [] t rest s uses0 defs U rfl rfl hud hr hne)
      · simp at hb
      · rw [hw]
    have hrest : s2.work.card ≤ s1.work.card := by
      apply ih s1 s2 hl
      intro pre t1 post sp u1 d1 U1 hv hsp
      apply hU (t :: pre) t1 post sp u1 d1 U1 (by simp [hv])
      rw [slice_loop_cons K false f s s1 t pre hs]
      exact hsp
    exact le_trans hrest hstep

/-- C3 (monotonic work shrinkage): with `include_branches` off, when `slice_trace` returns,
if every entry the walk marks (its defs overlap the working set `w` at that point) has at
most as many remapped uses as `|defs ∩ w|`, then the final working set has at most as many
elements as the initial one. -/
theorem work_shrinkage (K : MemlogEnums) (t0 : trace_entry) (rest : List trace_entry)
    (marked marked1 : MarkedMap) (w0 w1 : Finset String)
    (h : slice_trace K false (t0 :: rest) marked w0 = some (marked1, w1))
    (hU : ∀ pre t post s uses0 defs U, (t0 :: rest).reverse = pre ++ t :: post →
      slice_loop K false t0.func { marked := marked, work := w0, argmap_stack := [] } pre
        = some s →
      get_uses_and_defs K t ∅ ∅ = some (uses0, defs) →
      remap_uses t0.func s.argmap_stack t uses0 = some U →
      (defs ∩ s.work).Nonempty → U.card ≤ (defs ∩ s.work).card) :
    w1.card ≤ w0.card := by
  obtain ⟨s, a, args, hl, _, _, hw⟩ := slice_trace_inv K false t0 rest marked marked1 w0 w1 h
  have h1 := slice_loop_card_le K t0.func _ _ s hl hU
  rw [hw]
  exact le_trans (Finset.card_erase_le) h1

/-- Instance of `work_shrinkage`: with `x` live, slicing the cast `x = zext y` marks it and
replaces `x` by `y`, one name for one name. -/
theorem work_shrinkage_witness :
    slice_trace sampleEnums false [zextEntry] [] {"x"} = some ([((256, 0), {0})], {"y"}) ∧
    (∀ pre t post s uses0 defs U, [zextEntry].reverse = pre ++ t :: post →
      slice_loop sampleEnums false zextEntry.func
        { marked := [], work := {"x"}, argmap_stack := [] } pre = some s →
      get_uses_and_defs sampleEnums t ∅ ∅ = some (uses0, defs) →
      remap_uses zextEntry.func s.argmap_stack t uses0 = some U →
      (defs ∩ s.work).Nonempty → U.card ≤ (defs ∩ s.work).card) ∧
    ({"y"} : Finset String).card ≤ ({"x"} : Finset String).card := by
  have hrun : slice_trace sampleEnums false [zextEntry] [] {"x"} =
      some ([((256, 0), {0})], {"y"}) := by decide
  have hU : ∀ pre t post s uses0 defs U, [zextEntry].reverse = pre ++ t :: post →
      slice_loop sampleEnums false zextEntry.func
        { marked := [], work := {"x"}, argmap_stack := [] } pre = some s →
      get_uses_and_defs sampleEnums t ∅ ∅ = some (uses0, defs) →
      remap_uses zextEntry.func s.argmap_stack t uses0 = some U →
      (defs ∩ s.work).Nonempty → U.card ≤ (defs ∩ s.work).card := by
    intro pre t post s uses0 defs U hv hs hud hr _
    have hv2 : [zextEntry] = pre ++ t :: post := hv
    cases pre with
    | cons p pre => exact absurd (List.cons.inj hv2).2 (by simp)
    | nil =>
      have ht : t = zextEntry := (List.cons.inj hv2).1.symm
      subst ht
      simp only [slice_loop, Option.some.injEq] at hs
      subst hs
      have hd : get_uses_and_defs sampleEnums zextEntry ∅ ∅ = some ({"y"}, {"x"}) := rfl
      rw [hd] at hud
      simp only [Option.some.injEq, Prod.mk.injEq] at hud
      obtain ⟨hu1, hd1⟩ := hud
      subst hu1 hd1
      have hr2 : remap_uses zextEntry.func [] zextEntry {"y"} = some {"y"} := rfl
      have hr3 : remap_uses zextEntry.func [] zextEntry {"y"} = some U := hr
      rw [hr2] at hr3
      simp only [Option.some.injEq] at hr3
      subst hr3
      decide
  exact ⟨hrun, hU, work_shrinkage sampleEnums zextEntry [] [] _ {"x"} _ hrun hU⟩

/-- C4 at the failing input: aligning the translation block `fnF` gives `nestedCallTrace`,
and the reverse walk over it (criterion `REG_0`, `include_branches` off) finishes with one
binding left on the argument-binding stack, the one pushed at the call of `helper_g`: the
pops owed at the first instructions of `helper_g` and `mid_h` are skipped because those
instructions are calls. -/
theorem nested_call_stack_left_over :
    process_func nestedModule fnOnlyLog 16 fnF
      { cursor := 1, serialized := [], in_exception := false } =
      some { cursor := 1, serialized := nestedCallTrace, in_exception := false } ∧
    (slice_walk sampleEnums false nestedCallTrace [] {"REG_0"}).map
      (fun s => s.argmap_stack) = some [[("env_g", "env")]] := by
  constructor <;> decide

/-! ## Use/Def extractor: select and the calls without a model -/

/-- C11 (Select use/def): for a Select entry with its record, the selected operand is the
false value when `dyn.arg1 = 1` and the true value for every other `dyn.arg1`; uses is
exactly the names of the non-constant ones among the selected operand and the condition, and
defs is exactly the name of the result. -/
theorem select_use_def (K : MemlogEnums) (t : trace_entry) (cond tv fv : Value) (d : DynPtr)
    (hk : t.insn.kind = .select cond tv fv) (hd : t.dyn = some d) :
    (d.row.arg1 = 1 →
      get_uses_and_defs K t ∅ ∅ = some
        ((if fv.isConstant then ∅ else {get_value_name fv}) ∪
           (if cond.isConstant then ∅ else {get_value_name cond}),
         {get_value_name t.insn.toValue})) ∧
    (d.row.arg1 ≠ 1 →
      get_uses_and_defs K t ∅ ∅ = some
        ((if tv.isConstant then ∅ else {get_value_name tv}) ∪
           (if cond.isConstant then ∅ else {get_value_name cond}),
         {get_value_name t.insn.toValue})) := by
  have hu : ∀ a b : Value, insertValue (insertValue ∅ a) b =
      (if a.isConstant then ∅ else {get_value_name a}) ∪
        (if b.isConstant then ∅ else {get_value_name b}) := by
    intro a b
    unfold insertValue
    ext x
    by_cases h1 : a.isConstant = true <;> by_cases h2 : b.isConstant = true <;>
      simp [h1, h2, or_comm]
  have hdef : insertValue ∅ t.insn.toValue = {get_value_name t.insn.toValue} := by
    simp [insertValue, Instruction.toValue]
  constructor
  · intro h1
    simp only [get_uses_and_defs, hk, handleSelect, hd, h1, if_true, hu, hdef]
  · intro h1
    simp only [get_uses_and_defs, hk, handleSelect, hd, h1, if_false, hu, hdef]

/-- Instance of `select_use_def` at `selectEntry`: with `arg1 = 1` the select uses the false
value `fv` and the condition `c`, not the true value `tv`. -/
theorem select_use_def_witness :
    selectEntry.insn.kind =
      .select (namedValue 96 "c") (namedValue 104 "tv") (namedValue 112 "fv") ∧
    selectEntry.dyn = some (.log 4 (mkRow 34 1 0)) ∧
    get_uses_and_defs sampleEnums selectEntry ∅ ∅ = some ({"fv", "c"}, {"s"}) := by
  have h := (select_use_def sampleEnums selectEntry (namedValue 96 "c") (namedValue 104 "tv")
    (namedValue 112 "fv") (.log 4 (mkRow 34 1 0)) rfl rfl).1 rfl
  refine ⟨rfl, rfl, ?_⟩
  rw [h]
  decide

theorem startswith_of_append (n p : String) (h : startswith n p = true) :
    ∃ r, n.data = p.data ++ r := by
  unfold startswith at h
  rw [List.isPrefixOf_iff_prefix] at h
  obtain ⟨r, hr⟩ := h
  exact ⟨r, hr.symm⟩

theorem unmodelled_not_ld_st (n : String)
    (h : startswith n "llvm.memcpy" = true ∨ startswith n "llvm.memset" = true ∨
      startswith n "helper_in" = true ∨ startswith n "helper_out" = true ∨
      startswith n "log_dynval" = true) :
    startswith n "__ld" = false ∧ startswith n "__st" = false := by
  rcases h with h | h | h | h | h <;>
    (obtain ⟨r, hr⟩ := startswith_of_append n _ h
     unfold startswith
     rw [hr]
     exact ⟨rfl, rfl⟩)

theorem unmodelled_call_extract (K : MemlogEnums) (t : trace_entry) (subf : FunctionDecl)
    (args : List Value) (isVoidTy : Bool)
    (hk : t.insn.kind = .call (some subf) args isVoidTy)
    (h : startswith subf.name "llvm.memcpy" = true ∨ startswith subf.name "llvm.memset" = true ∨
      startswith subf.name "helper_in" = true ∨ startswith subf.name "helper_out" = true ∨
      startswith subf.name "log_dynval" = true) :
    get_uses_and_defs K t ∅ ∅ = some (∅, ∅) := by
  obtain ⟨h1, h2⟩ := unmodelled_not_ld_st subf.name h
  simp only [get_uses_and_defs, hk, handleCall, h1, h2, Bool.false_eq_true, if_false]
  rcases h with h | h | h | h | h <;> simp only [h] <;> split_ifs <;> rfl

theorem slice_step_idle (K : MemlogEnums) (include_branches : Bool) (entry_func : Function)
    (s : SliceState) (t : trace_entry) (uses0 defs U : Finset String)
    (hx : get_uses_and_defs K t ∅ ∅ = some (uses0, defs))
    (hr : remap_uses entry_func s.argmap_stack t uses0 = some U)
    (ho : ¬ (defs ∩ s.work).Nonempty)
    (hb : (t.insn.isTerminator && !t.insn.isReturn && include_branches) = false) :
    ∃ s1, slice_step K include_branches entry_func s t = some s1 ∧
      s1.marked = s.marked ∧ s1.work = s.work := by
  obtain ⟨st, hst⟩ := update_argmap_stack_isSome K t uses0 defs s.argmap_stack hx
  refine ⟨⟨s.marked, s.work, st⟩, ?_, rfl, rfl⟩
  simp [slice_step, hx, hr, update_work, ho, hst, hb]

/-- C12 (documented imprecision): for a call entry whose callee name starts with
`llvm.memcpy`, `llvm.memset`, `helper_in`, `helper_out` or `log_dynval`, extraction returns
empty uses and empty defs whatever the dynamic records are, and the step of `slice_trace`
on that entry succeeds, marks nothing and leaves the working set as it was, for every state,
entry function and setting of `include_branches`. -/
theorem unmodelled_call_step (K : MemlogEnums) (include_branches : Bool)
    (entry_func : Function) (s : SliceState) (t : trace_entry) (subf : FunctionDecl)
    (args : List Value) (isVoidTy : Bool)
    (hk : t.insn.kind = .call (some subf) args isVoidTy)
    (h : startswith subf.name "llvm.memcpy" = true ∨ startswith subf.name "llvm.memset" = true ∨
      startswith subf.name "helper_in" = true ∨ startswith subf.name "helper_out" = true ∨
      startswith subf.name "log_dynval" = true) :
    get_uses_and_defs K t ∅ ∅ = some (∅, ∅) ∧
    ∃ s1, slice_step K include_branches entry_func s t = some s1 ∧
      s1.marked = s.marked ∧ s1.work = s.work := by
  have hx := unmodelled_call_extract K t subf args isVoidTy hk h
  refine ⟨hx, ?_⟩
  have hr : remap_uses entry_func s.argmap_stack t ∅ = some ∅ := by
    unfold remap_uses
    simp
  have hterm : t.insn.isTerminator = false := by simp [Instruction.isTerminator, hk]
  exact slice_step_idle K include_branches entry_func s t ∅ ∅ ∅ hx hr (by simp)
    (by simp [hterm])

/-- Instance of `unmodelled_call_step` at `memcpyEntry`: with the destination byte
`MEM_1000` live and `include_branches` on, the step over the `llvm.memcpy` call marks nothing
and keeps the working set. -/
theorem unmodelled_call_step_witness :
    memcpyEntry.insn.kind =
      .call (some (declOf 1280 "llvm.memcpy.p0i8.p0i8.i64"
        [namedValue 120 "d", namedValue 128 "s", namedValue 136 "n"]))
        [namedValue 144 "dst", namedValue 152 "src", namedValue 160 "len"] true ∧
    startswith "llvm.memcpy.p0i8.p0i8.i64" "llvm.memcpy" = true ∧
    get_uses_and_defs sampleEnums memcpyEntry ∅ ∅ = some (∅, ∅) ∧
    ∃ s1, slice_step sampleEnums true tbFunc
        { marked := [], work := {"MEM_1000"}, argmap_stack := [] } memcpyEntry = some s1 ∧
      s1.marked = [] ∧ s1.work = {"MEM_1000"} := by
  obtain ⟨h1, h2⟩ := unmodelled_call_step sampleEnums true tbFunc
    { marked := [], work := {"MEM_1000"}, argmap_stack := [] } memcpyEntry
    (declOf 1280 "llvm.memcpy.p0i8.p0i8.i64"
      [namedValue 120 "d", namedValue 128 "s", namedValue 136 "n"])
    [namedValue 144 "dst", namedValue 152 "src", namedValue 160 "len"] true rfl (Or.inl rfl)
  exact ⟨rfl, rfl, h1, h2⟩

/-! ## Driver summary -/

theorem summary_fold (m : MarkedMap) (acc : Nat) :
    m.foldl (fun insns_marked kvp => insns_marked + bitset_size kvp.2) acc =
      acc + MAX_BITSET * m.length := by
  induction m generalizing acc with
  | nil => simp
  | cons kv rest ih =>
    rw [List.foldl_cons, ih, List.length_cons]
    simp only [bitset_size]
    ring

/-- C19 at the failing input: the block `r1 = add r0, 1; store r1, p0; ret void` with one
relevant `GREG` store record for slot 0 aligns to `addStoreTrace`; slicing it on `REG_0`
marks the add and the store, two set bits under one key (the working set is then `{p0, r0}`);
the summary counts are 1 block and 2048 instructions, not 2. For every marked map the second
count is `MAX_BITSET` times the number of keys. -/
theorem summary_counts_bitset_size :
    process_func [addStoreFunc] addStoreLog 8 addStoreFunc
      { cursor := 0, serialized := [], in_exception := false } =
      some { cursor := 1, serialized := addStoreTrace, in_exception := false } ∧
    slice_trace sampleEnums false addStoreTrace [] {"REG_0"} =
      some ([((28672, 0), {0, 1})], {"p0", "r0"}) ∧
    summary_counts [((28672, 0), {0, 1})] = (1, 2048) ∧
    (([((28672, 0), {0, 1})] : MarkedMap).map (fun kvp => kvp.2.card)).sum = 2 ∧
    ∀ m : MarkedMap, summary_counts m = (m.length, MAX_BITSET * m.length) := by
  refine ⟨by decide, by decide, by decide, by decide, ?_⟩
  intro m
  simp [summary_counts, summary_fold]

/-! ## Slicer: call-site binding -/

theorem argmap_find_set (m : ArgMap) (k v u : String) :
    argmap_find (argmap_set m k v) u = if k = u then some v else argmap_find m u := by
  induction m with
  | nil => simp [argmap_set, argmap_find]
  | cons kv rest ih =>
    obtain ⟨k0, v0⟩ := kv
    by_cases h0 : k0 = k
    · subst h0
      by_cases h1 : k0 = u <;> simp [argmap_set, argmap_find, h1]
    · by_cases h1 : k0 = u
      · subst h1
        have h2 : ¬ k = k0 := fun h => h0 h.symm
        simp [argmap_set, argmap_find, h0, h2]
      · simp [argmap_set, argmap_find, h0, h1, ih]

theorem bind_fold_find (ps : List (Value × Value)) :
    ∀ (m : ArgMap) (u : String),
      (ps.map (fun fa => get_value_name fa.1)).Nodup →
      argmap_find (ps.foldl
        (fun m fa => argmap_set m (get_value_name fa.1) (get_value_name fa.2)) m) u =
      match ps.find? (fun fa => get_value_name fa.1 == u) with
      | some fa => some (get_value_name fa.2)
      | none => argmap_find m u := by
  induction ps with
  | nil => intro m u _; simp
  | cons p rest ih =>
    intro m u hnd
    simp only [List.map_cons, List.nodup_cons] at hnd
    rw [List.foldl_cons, ih _ u hnd.2]
    by_cases hp : get_value_name p.1 = u
    · have hnone : rest.find? (fun fa => get_value_name fa.1 == u) = none := by
        rw [List.find?_eq_none]
        intro x hx hxu
        apply hnd.1
        rw [hp]
        simp only [beq_iff_eq] at hxu
        rw [← hxu]
        exact List.mem_map_of_mem _ hx
      simp [hnone, List.find?_cons, hp, argmap_find_set]
    · have hb : (get_value_name p.1 == u) = false := by simpa using hp
      simp only [List.find?_cons, hb]
      cases rest.find? (fun fa => get_value_name fa.1 == u) with
      | some fa => rfl
      | none => simp [argmap_find_set, hp]

theorem zip_fst_nodup (formals actuals : List Value)
    (h : (formals.map get_value_name).Nodup) :
    ((formals.zip actuals).map (fun fa => get_value_name fa.1)).Nodup := by
  induction formals generalizing actuals with
  | nil => simp
  | cons f rest ih =>
    cases actuals with
    | nil => simp
    | cons a as =>
      simp only [List.map_cons, List.nodup_cons] at h
      simp only [List.zip_cons_cons, List.map_cons, List.nodup_cons]
      refine ⟨?_, ih as h.2⟩
      intro hmem
      apply h.1
      obtain ⟨fa, hfa, hname⟩ := List.mem_map.mp hmem
      rw [← hname]
      exact List.mem_map_of_mem _ (List.of_mem_zip hfa).1

theorem zip_get (formals actuals : List Value) :
    ∀ (i : Nat) (f a : Value), formals.get? i = some f → actuals.get? i = some a →
      (f, a) ∈ formals.zip actuals := by
  induction formals generalizing actuals with
  | nil => intro i f a h; simp at h
  | cons f0 rest ih =>
    intro i f a hf ha
    cases actuals with
    | nil => simp at ha
    | cons a0 as =>
      cases i with
      | zero =>
        simp only [List.get?_cons_zero, Option.some.injEq] at hf ha
        subst hf ha
        simp
      | succ i =>
        simp only [List.get?_cons_succ] at hf ha
        simp only [List.zip_cons_cons, List.mem_cons]
        exact Or.inr (ih as i f a hf ha)

theorem mem_zip_get (formals actuals : List Value) :
    ∀ (f a : Value), (f, a) ∈ formals.zip actuals →
      ∃ i, formals.get? i = some f ∧ actuals.get? i = some a := by
  induction formals generalizing actuals with
  | nil => intro f a h; simp at h
  | cons f0 rest ih =>
    intro f a h
    cases actuals with
    | nil => simp at h
    | cons a0 as =>
      simp only [List.zip_cons_cons, List.mem_cons, Prod.mk.injEq] at h
      rcases h with ⟨h1, h2⟩ | h
      · exact ⟨0, by simp [h1], by simp [h2]⟩
      · obtain ⟨i, hi1, hi2⟩ := ih as f a h
        exact ⟨i + 1, by simpa using hi1, by simpa using hi2⟩

theorem bind_args_spec (formals actuals : List Value)
    (hnd : (formals.map get_value_name).Nodup) :
    (∀ i f a, formals.get? i = some f → actuals.get? i = some a →
      argmap_find (bind_args formals actuals) (get_value_name f) = some (get_value_name a)) ∧
    (∀ u w, argmap_find (bind_args formals actuals) u = some w →
      ∃ i f a, formals.get? i = some f ∧ actuals.get? i = some a ∧
        u = get_value_name f ∧ w = get_value_name a) := by
  have hz := zip_fst_nodup formals actuals hnd
  constructor
  · intro i f a hf ha
    have hmem := zip_get formals actuals i f a hf ha
    unfold bind_args
    rw [bind_fold_find _ _ _ hz]
    cases hfind : (formals.zip actuals).find? (fun fa => get_value_name fa.1 == get_value_name f) with
    | none =>
      rw [List.find?_eq_none] at hfind
      exact absurd (by simp) (hfind (f, a) hmem)
    | some fa =>
      have hfa := List.mem_of_find?_eq_some hfind
      have hname := List.find?_some hfind
      simp only [beq_iff_eq] at hname
      have : fa = (f, a) := by
        have hinj := List.inj_on_of_nodup_map hz hfa hmem hname
        exact hinj
      rw [this]
  · intro u w h
    unfold bind_args at h
    rw [bind_fold_find _ _ _ hz] at h
    cases hfind : (formals.zip actuals).find? (fun fa => get_value_name fa.1 == u) with
    | none => rw [hfind] at h; simp [argmap_find] at h
    | some fa =>
      rw [hfind] at h
      simp only [Option.some.injEq] at h
      have hfa := List.mem_of_find?_eq_some hfind
      have hname := List.find?_some hfind
      simp only [beq_iff_eq] at hname
      obtain ⟨i, hi1, hi2⟩ := mem_zip_get formals actuals fa.1 fa.2 hfa
      exact ⟨i, fa.1, fa.2, hi1, hi2, hname.symm, h.symm⟩

/-- C20 (call-site binding): when a step of the reverse walk processes a call entry whose
callee is not ignored (formal names pairwise distinct, as in any IR function), it pushes one
map onto the argument-binding stack; the map binds the name of the `i`-th formal to the name
of the `i`-th actual for every `i` below both list lengths, and binds nothing else. A call
to an ignored callee leaves the stack as it was. -/
theorem call_site_binding (K : MemlogEnums) (include_branches : Bool) (entry_func : Function)
    (s s1 : SliceState) (t : trace_entry) (subf : FunctionDecl) (args : List Value)
    (isVoidTy : Bool)
    (hk : t.insn.kind = .call (some subf) args isVoidTy)
    (hnd : (subf.args.map get_value_name).Nodup)
    (hs : slice_step K include_branches entry_func s t = some s1) :
    (is_ignored subf.name = false →
      ∃ m, s1.argmap_stack = m :: s.argmap_stack ∧
        (∀ i f a, subf.args.get? i = some f → args.get? i = some a →
          argmap_find m (get_value_name f) = some (get_value_name a)) ∧
        (∀ u w, argmap_find m u = some w →
          ∃ i f a, subf.args.get? i = some f ∧ args.get? i = some a ∧
            u = get_value_name f ∧ w = get_value_name a)) ∧
    (is_ignored subf.name = true → s1.argmap_stack = s.argmap_stack) := by
  obtain ⟨_, _, _, _, _, _, hst⟩ := slice_step_inv K include_branches entry_func s s1 t hs
  simp only [update_argmap_stack, hk] at hst
  constructor
  · intro hi
    simp only [hi, Bool.not_false, if_true, Option.some.injEq] at hst
    obtain ⟨h1, h2⟩ := bind_args_spec subf.args args hnd
    exact ⟨bind_args subf.args args, hst.symm, h1, h2⟩
  · intro hi
    simp only [hi, Bool.not_true, Bool.false_eq_true, if_false, Option.some.injEq] at hst
    exact hst.symm

/-- Instance of `call_site_binding` at `helperCallEntry`: the step over
`x = helper_foo(a, b)` pushes the map `arg0 -> a, arg1 -> b`. -/
theorem call_site_binding_witness :
    helperCallEntry.insn.kind =
      .call (some (declOf 1024 "helper_foo" [namedValue 64 "arg0", namedValue 72 "arg1"]))
        [namedValue 56 "a", namedValue 80 "b"] false ∧
    ((declOf 1024 "helper_foo" [namedValue 64 "arg0", namedValue 72 "arg1"]).args.map
      get_value_name).Nodup ∧
    slice_step sampleEnums false tbFunc { marked := [], work := {"x"}, argmap_stack := [] }
      helperCallEntry =
      some { marked := [((256, 0), {3})], work := {"helper_foo.retval"},
             argmap_stack := [[("arg0", "a"), ("arg1", "b")]] } ∧
    is_ignored "helper_foo" = false ∧
    ∃ m, [[("arg0", "a"), ("arg1", "b")]] = m :: ([] : List ArgMap) ∧
      argmap_find m "arg0" = some "a" ∧ argmap_find m "arg1" = some "b" := by
  have hnd : ((declOf 1024 "helper_foo" [namedValue 64 "arg0", namedValue 72 "arg1"]).args.map
      get_value_name).Nodup := by decide
  have hs : slice_step sampleEnums false tbFunc
      { marked := [], work := {"x"}, argmap_stack := [] } helperCallEntry =
      some { marked := [((256, 0), {3})], work := {"helper_foo.retval"},
             argmap_stack := [[("arg0", "a"), ("arg1", "b")]] } := by rfl
  obtain ⟨m, hm, hb, _⟩ := (call_site_binding sampleEnums false tbFunc _ _ helperCallEntry
    (declOf 1024 "helper_foo" [namedValue 64 "arg0", namedValue 72 "arg1"])
    [namedValue 56 "a", namedValue 80 "b"] false rfl hnd hs).1 rfl
  exact ⟨rfl, hnd, hs, rfl, m, hm,
    hb 0 (namedValue 64 "arg0") (namedValue 56 "a") rfl rfl,
    hb 1 (namedValue 72 "arg1") (namedValue 80 "b") rfl rfl⟩

/-! ## Aligner: one instruction -/

/-- C13 (volatile-store skip): when the aligner reaches a Store, not in an exception and
with no `EXCEPTION` record at the cursor: a volatile store appends no entry and leaves the
cursor where it was (alignment goes on with the next instruction in the same state); a
non-volatile store needs a `DV_STORE` record at the cursor (anything else aborts), appends
exactly one entry whose dyn is that record, and moves the cursor by one. -/
theorem store_alignment (M : List Function) (log : Nat → TUBTEntry) (fuel : Nat)
    (f : Function) (bb_index : Int) (insn_index : Nat) (i : Instruction)
    (rest : List Instruction) (next : Option Nat) (st : AlignState) (v p : Value)
    (isVolatile : Bool) (hk : i.kind = .store v p isVolatile)
    (hexc : st.in_exception = false)
    (hpeek : (log st.cursor).type ≠ TUBTFE_LLVM_EXCEPTION) :
    (isVolatile = true →
      process_insns M log (fuel + 1) f bb_index insn_index (i :: rest) next st =
        process_insns M log fuel f bb_index (insn_index + 1) rest next st) ∧
    (isVolatile = false → (log st.cursor).type = TUBTFE_LLVM_DV_STORE →
      process_insns M log (fuel + 1) f bb_index insn_index (i :: rest) next st =
        process_insns M log fuel f bb_index (insn_index + 1) rest next
          { cursor := st.cursor + 1,
            serialized := st.serialized ++
              [{ index := pack_index insn_index bb_index, func := f, insn := i,
                 dyn := some (.log st.cursor (log st.cursor)), dyn2 := none }],
            in_exception := st.in_exception }) ∧
    (isVolatile = false → (log st.cursor).type ≠ TUBTFE_LLVM_DV_STORE →
      process_insns M log (fuel + 1) f bb_index insn_index (i :: rest) next st = none) := by
  refine ⟨?_, ?_, ?_⟩
  · intro hv
    subst hv
    simp [process_insns, hk, hexc, hpeek]
  · intro hv ht
    subst hv
    have hne : TUBTFE_LLVM_DV_STORE ≠ TUBTFE_LLVM_EXCEPTION := by decide
    simp [process_insns, hk, hexc, ht, hne, push_entry]
  · intro hv ht
    subst hv
    simp [process_insns, hk, hexc, hpeek, ht]

/-! ## Aligner: runs as sequences of primitive transitions -/

theorem startswith_ld_not_memcpy (n : String) (h : startswith n "__ld" = true) :
    startswith n "llvm.memcpy" = false := by
  unfold startswith at *
  rw [List.isPrefixOf_iff_prefix] at h
  obtain ⟨r, hr⟩ := h
  rw [← hr]
  rfl

theorem startswith_st_not_memcpy (n : String) (h : startswith n "__st" = true) :
    startswith n "llvm.memcpy" = false := by
  unfold startswith at *
  rw [List.isPrefixOf_iff_prefix] at h
  obtain ⟨r, hr⟩ := h
  rw [← hr]
  rfl

theorem process_insns_steps (M : List Function) (log : Nat → TUBTEntry) :
    ∀ (fuel : Nat) (f : Function) (bb_index : Int) (insn_index : Nat)
      (insns : List Instruction) (next : Option Nat) (st st1 : AlignState),
      process_insns M log fuel f bb_index insn_index insns next st = some st1 →
      Relation.ReflTransGen (AlignStep log) st st1 := by
  intro fuel
  induction fuel with
  | zero =>
    intro f bb_index insn_index insns next st st1 h
    simp [process_insns] at h
  | succ fuel ih =>
    intro f bb_index insn_index insns next st st1 h
    cases insns with
    | nil =>
      cases next with
      | none =>
        simp only [process_insns, Option.some.injEq] at h
        subst h
        exact Relation.ReflTransGen.refl
      | some b =>
        simp only [process_insns] at h
        cases hb : f.blocks.find? (fun blk => blk.addr == b) with
        | none => simp [hb] at h
        | some blk =>
          simp only [hb] at h
          exact ih _ _ _ _ _ _ _ h
    | cons i rest =>
      by_cases hexc : st.in_exception = true
      · simp only [process_insns, hexc, if_true, Option.some.injEq] at h
        subst h
        exact Relation.ReflTransGen.refl
      · have hexc0 : st.in_exception = false := by simpa using hexc
        by_cases hpeek : (log st.cursor).type = TUBTFE_LLVM_EXCEPTION
        · simp only [process_insns, hexc0, hpeek, if_true, Bool.false_eq_true, if_false,
            Option.some.injEq] at h
          subst h
          exact Relation.ReflTransGen.single (AlignStep.exception st hexc0 hpeek)
        · have hrec : ∀ idx, i.isMemcpy = false → AlignStep log st
              (push_entry st idx f i (some (.log st.cursor (log st.cursor))) 1) :=
            fun idx hm => AlignStep.record st idx f i hexc0 hpeek hm
          have hplain : ∀ (s : AlignState) idx, i.isMemcpy = false →
              AlignStep log s (push_entry s idx f i none 0) :=
            fun s idx hm => AlignStep.plain s idx f i hm
          have hsynth : ∀ idx row, i.isMemcpy = false →
              AlignStep log st (push_entry st idx f i (some (.synth row)) 0) :=
            fun idx row hm => AlignStep.synth st idx f i row hexc0 hm
          simp only [process_insns, hexc0, hpeek, Bool.false_eq_true, if_false] at h
          split at h
          all_goals
            repeat' (split at h)
          all_goals
            first
            | exact absurd h (by simp)
            | exact Relation.ReflTransGen.head
                (hrec _ (by clear ih; simp_all [Instruction.isMemcpy, startswith_ld_not_memcpy,
                  startswith_st_not_memcpy]))
                (ih _ _ _ _ _ _ _ h)
            | exact Relation.ReflTransGen.head
                (hplain _ _ (by clear ih; simp_all [Instruction.isMemcpy]))
                (ih _ _ _ _ _ _ _ h)
            | exact Relation.ReflTransGen.head
                (hsynth _ _ (by clear ih; simp_all [Instruction.isMemcpy]))
                (ih _ _ _ _ _ _ _ h)
            | exact ih _ _ _ _ _ _ _ h
            | (rename_i hc
               exact Relation.ReflTransGen.head
                 (AlignStep.record2 st _ f i hexc0 hc.1 hc.2
                   (by clear ih; simp_all [Instruction.isMemcpy]))
                 (ih _ _ _ _ _ _ _ h))
            | (rename_i hcallee
               exact (ih _ _ _ _ _ _ _ hcallee).trans
                 (Relation.ReflTransGen.head
                   (hplain _ _ (by clear ih; simp_all [Instruction.isMemcpy]))
                   (ih _ _ _ _ _ _ _ h)))

theorem alignStep_inv (log : Nat → TUBTEntry) (c : Nat) (st st1 : AlignState)
    (hstep : AlignStep log st st1) (hinv : AlignInv log c st) : AlignInv log c st1 := by
  obtain ⟨h1, h2, h3, h4⟩ := hinv
  cases hstep with
  | exception hexc hty =>
    simp only [AlignState.frontier, hexc, Bool.false_eq_true, if_false] at h1 h3 h4
    refine ⟨?_, ?_, ?_, ?_⟩
    · simpa [AlignState.frontier] using h1
    · intro _
      simpa [AlignState.frontier] using hty
    · intro o ho1 ho2
      exact h3 o ho1 (by simpa [AlignState.frontier] using ho2)
    · intro e he o row hd
      have := h4 e he o row hd
      simpa [AlignState.frontier] using this
  | record index f i hexc hty _ =>
    simp only [AlignState.frontier, hexc, Bool.false_eq_true, if_false] at h1 h3 h4
    refine ⟨?_, ?_, ?_, ?_⟩
    · simp only [AlignState.frontier, push_entry, hexc, Bool.false_eq_true, if_false]
      omega
    · intro hx
      simp [push_entry, hexc] at hx
    · intro o ho1 ho2
      simp only [AlignState.frontier, push_entry, hexc, Bool.false_eq_true, if_false] at ho2
      by_cases ho : o < st.cursor
      · exact h3 o ho1 ho
      · have : o = st.cursor := by omega
        rw [this]
        exact hty
    · intro e he o row hd
      simp only [AlignState.frontier, push_entry, hexc, Bool.false_eq_true, if_false]
      simp only [push_entry, List.mem_append, List.mem_singleton] at he
      rcases he with he | he
      · have := h4 e he o row hd
        omega
      · subst he
        simp only [Option.some.injEq, DynPtr.log.injEq] at hd
        rcases hd with hd | hd
        · have := hd.1
          omega
        · exact absurd hd (by simp)
  | record2 index f i hexc hty1 hty2 _ =>
    simp only [AlignState.frontier, hexc, Bool.false_eq_true, if_false] at h1 h3 h4
    have hne1 : (log st.cursor).type ≠ TUBTFE_LLVM_EXCEPTION := by rw [hty1]; decide
    have hne2 : (log (st.cursor + 1)).type ≠ TUBTFE_LLVM_EXCEPTION := by rw [hty2]; decide
    refine ⟨?_, ?_, ?_, ?_⟩
    · simp only [AlignState.frontier, push_entry, hexc, Bool.false_eq_true, if_false]
      omega
    · intro hx
      simp [push_entry, hexc] at hx
    · intro o ho1 ho2
      simp only [AlignState.frontier, push_entry, hexc, Bool.false_eq_true, if_false] at ho2
      by_cases ho : o < st.cursor
      · exact h3 o ho1 ho
      · by_cases ho3 : o = st.cursor
        · rw [ho3]; exact hne1
        · have : o = st.cursor + 1 := by omega
          rw [this]; exact hne2
    · intro e he o row hd
      simp only [AlignState.frontier, push_entry, hexc, Bool.false_eq_true, if_false]
      simp only [push_entry, List.mem_append, List.mem_singleton] at he
      rcases he with he | he
      · have := h4 e he o row hd
        omega
      · subst he
        simp only [Option.some.injEq, DynPtr.log.injEq] at hd
        rcases hd with hd | hd
        · have := hd.1
          omega
        · exact absurd hd (by simp)
  | synth index f i row0 hexc _ =>
    simp only [AlignState.frontier, hexc, Bool.false_eq_true, if_false] at h1 h3 h4
    refine ⟨?_, ?_, ?_, ?_⟩
    · simpa [AlignState.frontier, push_entry, hexc] using h1
    · intro hx
      simp [push_entry, hexc] at hx
    · intro o ho1 ho2
      simp only [AlignState.frontier, push_entry, hexc, Bool.false_eq_true, if_false,
        Nat.add_zero] at ho2
      exact h3 o ho1 ho2
    · intro e he o row hd
      simp only [AlignState.frontier, push_entry, hexc, Bool.false_eq_true, if_false,
        Nat.add_zero]
      simp only [push_entry, List.mem_append, List.mem_singleton] at he
      rcases he with he | he
      · exact h4 e he o row hd
      · subst he
        simp at hd
  | plain index f i _ =>
    have hfr : (push_entry st index f i none 0).frontier = st.frontier := by
      simp [AlignState.frontier, push_entry]
    refine ⟨?_, ?_, ?_, ?_⟩
    · rw [hfr]; exact h1
    · intro hx
      rw [hfr]
      have hx2 : st.in_exception = true := by simpa [push_entry] using hx
      simpa [push_entry] using h2 hx2
    · intro o ho1 ho2
      rw [hfr] at ho2
      exact h3 o ho1 ho2
    · intro e he o row hd
      rw [hfr]
      simp only [push_entry, List.mem_append, List.mem_singleton] at he
      rcases he with he | he
      · exact h4 e he o row hd
      · subst he
        simp at hd

theorem alignSteps_inv (log : Nat → TUBTEntry) (c : Nat) (st st1 : AlignState)
    (hsteps : Relation.ReflTransGen (AlignStep log) st st1) (hinv : AlignInv log c st) :
    AlignInv log c st1 := by
  induction hsteps with
  | refl => exact hinv
  | tail _ hstep ih => exact alignStep_inv log c _ _ hstep ih

theorem alignInv_start (log : Nat → TUBTEntry) (c : Nat) :
    AlignInv log c { cursor := c, serialized := [], in_exception := false } := by
  refine ⟨by simp [AlignState.frontier], by simp, ?_, by simp⟩
  intro o ho1 ho2
  simp [AlignState.frontier] at ho2
  omega

theorem process_func_steps (M : List Function) (log : Nat → TUBTEntry) (fuel : Nat)
    (f : Function) (st st1 : AlignState) (h : process_func M log fuel f st = some st1) :
    Relation.ReflTransGen (AlignStep log) st st1 := by
  unfold process_func at h
  cases hb : f.blocks with
  | nil => simp [hb] at h
  | cons entry rest =>
    simp only [hb] at h
    exact process_insns_steps M log _ _ _ _ _ _ _ _ h

/-- C17 (exception truncation): let an alignment of a translation block from cursor `c`
return, and let `k` be the offset of the first `EXCEPTION` record at or after `c`. If the
alignment met the exception (at any depth of callee descent) the returned cursor is `k + 1`,
otherwise it is at most `k`; in both cases no entry of the aligned sequence has a dyn or
dyn2 that is a log record at offset `k` or later. The exception is met by the first
instruction visited with the cursor on the record, and once `in_exception` is set every
enclosing function returns at its next instruction, or at the end of its block, with the
state as it is. -/
theorem exception_truncation (M : List Function) (log : Nat → TUBTEntry)
    (fuel : Nat) (f : Function) (c k : Nat) (st1 : AlignState)
    (hrun : process_func M log fuel f { cursor := c, serialized := [], in_exception := false }
      = some st1)
    (hck : c ≤ k) (hk : (log k).type = TUBTFE_LLVM_EXCEPTION)
    (hfirst : ∀ o, c ≤ o → o < k → (log o).type ≠ TUBTFE_LLVM_EXCEPTION) :
    ((st1.in_exception = true → st1.cursor = k + 1) ∧
      (st1.in_exception = false → st1.cursor ≤ k) ∧
      (∀ e ∈ st1.serialized, ∀ o row,
        (e.dyn = some (.log o row) ∨ e.dyn2 = some (.log o row)) → o < k)) ∧
    (∀ (fuel : Nat) (f : Function) (bb_index : Int) (insn_index : Nat) (i : Instruction)
      (rest : List Instruction) (next : Option Nat) (st : AlignState),
      st.in_exception = false → (log st.cursor).type = TUBTFE_LLVM_EXCEPTION →
      process_insns M log (fuel + 1) f bb_index insn_index (i :: rest) next st =
        some { cursor := st.cursor + 1, serialized := st.serialized, in_exception := true }) ∧
    (∀ (fuel : Nat) (f : Function) (bb_index : Int) (insn_index : Nat) (i : Instruction)
      (rest : List Instruction) (next : Option Nat) (st : AlignState),
      st.in_exception = true →
      process_insns M log (fuel + 1) f bb_index insn_index (i :: rest) next st = some st) ∧
    (∀ (fuel : Nat) (f : Function) (bb_index : Int) (insn_index : Nat) (st : AlignState),
      process_insns M log (fuel + 1) f bb_index insn_index [] none st = some st) := by
  refine ⟨?_, ?_, ?_, ?_⟩
  · have hinv := alignSteps_inv log c _ st1 (process_func_steps M log fuel f _ st1 hrun)
      (alignInv_start log c)
    obtain ⟨h1, h2, h3, h4⟩ := hinv
    by_cases hexc : st1.in_exception = true
    · obtain ⟨hc, hty⟩ := h2 hexc
      have hfk : st1.frontier = k := by
        by_contra hne
        rcases Nat.lt_or_gt_of_ne hne with hlt | hgt
        · exact hfirst _ h1 hlt hty
        · exact h3 k hck hgt hk
      refine ⟨fun _ => by omega, fun h => by rw [hexc] at h; exact absurd h (by simp), ?_⟩
      intro e he o row hd
      have := (h4 e he o row hd).2
      omega
    · have hexc0 : st1.in_exception = false := by simpa using hexc
      have hfr : st1.frontier = st1.cursor := by simp [AlignState.frontier, hexc0]
      have hle : st1.cursor ≤ k := by
        by_contra hgt
        exact h3 k hck (by omega) hk
      refine ⟨fun h => absurd h hexc, fun _ => hle, ?_⟩
      intro e he o row hd
      have := (h4 e he o row hd).2
      omega
  · intro fuel f bb_index insn_index i rest next st hexc hty
    simp [process_insns, hexc, hty]
  · intro fuel f bb_index insn_index i rest next st hexc
    simp [process_insns, hexc]
  · intro fuel f bb_index insn_index st
    simp [process_insns]

/-- Instance of `exception_truncation`: `FN | DV_LOAD | EXCEPTION | FN`, block
`call exc_g; ret`, callee `exc_g` with two loads. The exception is met inside the callee at
offset 2; the top-level alignment returns cursor 3; the sequence holds the first load (record
1) and the call site. -/
theorem exception_truncation_witness :
    process_func [fnExcF, fnExcG] excLog 8 fnExcF
      { cursor := 1, serialized := [], in_exception := false } =
      some { cursor := 3,
             serialized :=
               [{ index := 0, func := fnExcG,
                  insn := { addr := 32792, name := some "l1", parent := 32784,
                            kind := .load (namedValue 32776 "env_g") },
                  dyn := some (.log 1 (mkRow TUBTFE_LLVM_DV_LOAD 5 3)), dyn2 := none },
                entryAt fnExcF 0 (callAt 36888 36880 fnExcG.toFunctionDecl envArg)],
             in_exception := true } ∧
    1 ≤ 2 ∧ (excLog 2).type = TUBTFE_LLVM_EXCEPTION ∧
    (∀ o, 1 ≤ o → o < 2 → (excLog o).type ≠ TUBTFE_LLVM_EXCEPTION) ∧
    (3 : Nat) = 2 + 1 := by
  have hrun : process_func [fnExcF, fnExcG] excLog 8 fnExcF
      { cursor := 1, serialized := [], in_exception := false } =
      some { cursor := 3,
             serialized :=
               [{ index := 0, func := fnExcG,
                  insn := { addr := 32792, name := some "l1", parent := 32784,
                            kind := .load (namedValue 32776 "env_g") },
                  dyn := some (.log 1 (mkRow TUBTFE_LLVM_DV_LOAD 5 3)), dyn2 := none },
                entryAt fnExcF 0 (callAt 36888 36880 fnExcG.toFunctionDecl envArg)],
             in_exception := true } := by decide
  have hfirst : ∀ o, 1 ≤ o → o < 2 → (excLog o).type ≠ TUBTFE_LLVM_EXCEPTION := by
    intro o h1 h2
    have : o = 1 := by omega
    subst this
    decide
  have h := (exception_truncation [fnExcF, fnExcG] excLog 8 fnExcF 1 2 _ hrun
    (by decide) (by decide) hfirst).1.1 rfl
  exact ⟨hrun, by decide, by decide, hfirst, h⟩

/-- Instance of `store_alignment`: in `store volatile r1, p0; ret void` the store leaves
the state alone and the whole run appends the return only; in `store r1, p0; ret void` on a
log that starts with a `DV_STORE` record the store is appended with that record and the
cursor moves to 1. -/
theorem store_alignment_witness :
    (volStoreR1.kind = .store (namedValue 28696 "r1") (namedValue 28816 "p0") true ∧
      (addStoreLog 0).type ≠ TUBTFE_LLVM_EXCEPTION ∧
      process_insns [] addStoreLog 3 addStoreFunc 0 1 [volStoreR1, retVoidAt 28712 28688] none
        { cursor := 0, serialized := [], in_exception := false } =
      some { cursor := 0, serialized := [entryAt addStoreFunc 2 (retVoidAt 28712 28688)],
             in_exception := false }) ∧
    (storeR1.kind = .store (namedValue 28696 "r1") (namedValue 28816 "p0") false ∧
      (addStoreLog 0).type = TUBTFE_LLVM_DV_STORE ∧
      process_insns [] addStoreLog 3 addStoreFunc 0 1 [storeR1, retVoidAt 28712 28688] none
        { cursor := 0, serialized := [], in_exception := false } =
      some { cursor := 1,
             serialized :=
               [{ index := 1, func := addStoreFunc, insn := storeR1,
                  dyn := some (.log 0 (mkRow TUBTFE_LLVM_DV_STORE 5 0)), dyn2 := none },
                entryAt addStoreFunc 2 (retVoidAt 28712 28688)],
             in_exception := false }) := by
  have h1 := (store_alignment [] addStoreLog 2 addStoreFunc 0 1 volStoreR1
    [retVoidAt 28712 28688] none { cursor := 0, serialized := [], in_exception := false }
    (namedValue 28696 "r1") (namedValue 28816 "p0") true rfl rfl (by decide)).1 rfl
  have h2 := (store_alignment [] addStoreLog 2 addStoreFunc 0 1 storeR1
    [retVoidAt 28712 28688] none { cursor := 0, serialized := [], in_exception := false }
    (namedValue 28696 "r1") (namedValue 28816 "p0") false rfl rfl (by decide)).2.1 rfl
    (by decide)
  refine ⟨⟨rfl, by decide, ?_⟩, ⟨rfl, by decide, ?_⟩⟩
  · rw [h1]; decide
  · rw [h2]; decide

/-- C14 at the failing input: aligning `copyFunc` on `copyLog` from cursor 0 moves the cursor
by two and appends one entry for the call of `llvm.memcpy` whose dyn is the `DV_LOAD` record
at offset 0, but the dyn2 of that entry is absent: the entry is copied into the sequence
before the `DV_STORE` record is assigned to the local `t.dyn2`. -/
theorem memcpy_dyn2_absent :
    process_func [copyFunc] copyLog 4 copyFunc
      { cursor := 0, serialized := [], in_exception := false } =
    some { cursor := 2,
           serialized :=
             [{ index := 0, func := copyFunc, insn := memcpyCall,
                dyn := some (.log 0 (mkRow TUBTFE_LLVM_DV_LOAD 0 8192)), dyn2 := none },
              entryAt copyFunc 1 (retVoidAt 40992 40976)],
           in_exception := false } := by
  decide

/-! ## Aligner: calls -/

/-- C15 as stated fails: aligning `declCallFunc`, whose first instruction calls the
declaration `helper_foo`, appends the return only, not an entry for the call. -/
theorem ignored_call_entry_counterexample :
    process_func [declCallFunc] fnOnlyLog 4 declCallFunc
      { cursor := 0, serialized := [], in_exception := false } =
      some { cursor := 0, serialized := [entryAt declCallFunc 1 (retVoidAt 45088 45072)],
             in_exception := false } ∧
    ¬ (∀ (M : List Function) (log : Nat → TUBTEntry) (fuel : Nat) (f : Function)
        (bb_index : Int) (insn_index : Nat) (i : Instruction) (rest : List Instruction)
        (next : Option Nat) (st : AlignState) (subf : FunctionDecl) (args : List Value)
        (isVoidTy : Bool),
        i.kind = .call (some subf) args isVoidTy → st.in_exception = false →
        (log st.cursor).type ≠ TUBTFE_LLVM_EXCEPTION →
        startswith subf.name "__ld" = false → startswith subf.name "__st" = false →
        startswith subf.name "llvm.memcpy" = false →
        startswith subf.name "llvm.memset" = false →
        startswith subf.name "helper_in" = false →
        startswith subf.name "helper_out" = false →
        (subf.name == "log_dynval" || subf.isDeclaration || subf.isIntrinsic) = true →
        process_insns M log (fuel + 1) f bb_index insn_index (i :: rest) next st =
          process_insns M log fuel f bb_index (insn_index + 1) rest next
            (push_entry st (pack_index insn_index bb_index) f i none 0)) := by
  refine ⟨by decide, ?_⟩
  intro h
  have h1 := h [declCallFunc] fnOnlyLog 2 declCallFunc 0 0 declCall [retVoidAt 45088 45072] none
    { cursor := 0, serialized := [], in_exception := false }
    (declOf 1024 "helper_foo" [namedValue 64 "arg0", namedValue 72 "arg1"])
    [namedValue 56 "a", namedValue 80 "b"] false rfl rfl (by decide) (by decide) (by decide)
    (by decide) (by decide) (by decide) (by decide) (by decide)
  revert h1
  decide

/-- C15, amended: when the aligner reaches a call of `log_dynval`, or of a function that is
only a declaration or an intrinsic and matches none of the six prefixes, not in an exception
and with no `EXCEPTION` record at the cursor, it consumes no record and appends no entry:
alignment goes on with the next instruction in the same state. -/
theorem ignored_call_alignment (M : List Function) (log : Nat → TUBTEntry) (fuel : Nat)
    (f : Function) (bb_index : Int) (insn_index : Nat) (i : Instruction)
    (rest : List Instruction) (next : Option Nat) (st : AlignState) (subf : FunctionDecl)
    (args : List Value) (isVoidTy : Bool)
    (hk : i.kind = .call (some subf) args isVoidTy) (hexc : st.in_exception = false)
    (hpeek : (log st.cursor).type ≠ TUBTFE_LLVM_EXCEPTION)
    (hld : startswith subf.name "__ld" = false) (hst : startswith subf.name "__st" = false)
    (hcpy : startswith subf.name "llvm.memcpy" = false)
    (hset : startswith subf.name "llvm.memset" = false)
    (hin : startswith subf.name "helper_in" = false)
    (hout : startswith subf.name "helper_out" = false)
    (hign : (subf.name == "log_dynval" || subf.isDeclaration || subf.isIntrinsic) = true) :
    process_insns M log (fuel + 1) f bb_index insn_index (i :: rest) next st =
      process_insns M log fuel f bb_index (insn_index + 1) rest next st := by
  simp only [process_insns, hexc, hpeek, hk, hld, hst, hcpy, hset, hin, hout, hign,
    Bool.false_eq_true, if_false, if_true]

/-- Instance of `ignored_call_alignment` at the call of `helper_foo` in `declCallFunc`: the
run over `call helper_foo; ret void` appends the return only and leaves the cursor at 0. -/
theorem ignored_call_alignment_witness :
    declCall.kind = .call (some (declOf 1024 "helper_foo"
      [namedValue 64 "arg0", namedValue 72 "arg1"])) [namedValue 56 "a", namedValue 80 "b"]
      false ∧
    (fnOnlyLog 0).type ≠ TUBTFE_LLVM_EXCEPTION ∧
    process_insns [declCallFunc] fnOnlyLog 3 declCallFunc 0 0
      [declCall, retVoidAt 45088 45072] none
      { cursor := 0, serialized := [], in_exception := false } =
    some { cursor := 0, serialized := [entryAt declCallFunc 1 (retVoidAt 45088 45072)],
           in_exception := false } := by
  have h := ignored_call_alignment [declCallFunc] fnOnlyLog 2 declCallFunc 0 0 declCall
    [retVoidAt 45088 45072] none { cursor := 0, serialized := [], in_exception := false }
    (declOf 1024 "helper_foo" [namedValue 64 "arg0", namedValue 72 "arg1"])
    [namedValue 56 "a", namedValue 80 "b"] false rfl rfl (by decide) (by decide) (by decide)
    (by decide) (by decide) (by decide) (by decide) (by decide)
  refine ⟨rfl, by decide, ?_⟩
  rw [h]
  decide

theorem alignStep_append (log : Nat → TUBTEntry) (st st1 : AlignState)
    (hstep : AlignStep log st st1) : ∃ l, st1.serialized = st.serialized ++ l := by
  cases hstep with
  | exception _ _ => exact ⟨[], by simp⟩
  | record index f i _ _ _ => exact ⟨_, rfl⟩
  | record2 index f i _ _ _ _ => exact ⟨_, rfl⟩
  | synth index f i row _ _ => exact ⟨_, rfl⟩
  | plain index f i _ => exact ⟨_, rfl⟩

theorem alignSteps_append (log : Nat → TUBTEntry) (st st1 : AlignState)
    (hsteps : Relation.ReflTransGen (AlignStep log) st st1) :
    ∃ l, st1.serialized = st.serialized ++ l := by
  induction hsteps with
  | refl => exact ⟨[], by simp⟩
  | tail _ hstep ih =>
    obtain ⟨l1, h1⟩ := ih
    obtain ⟨l2, h2⟩ := alignStep_append log _ _ hstep
    exact ⟨l1 ++ l2, by rw [h2, h1, List.append_assoc]⟩

/-- C16 (post-order call placement): when the aligner, in function `f`, reaches a call of a
callee that matches none of the six prefixes, is not `log_dynval`, is neither a declaration
nor an intrinsic, and whose body `g` is in the module (not in an exception, no `EXCEPTION`
record at the cursor), it first aligns `g` from the current state, which only appends
entries to the sequence, then appends one entry for the call site with function `f` and no
dyn, and goes on from the cursor the alignment of `g` returned. -/
theorem call_post_order (M : List Function) (log : Nat → TUBTEntry) (fuel : Nat)
    (f g : Function) (bb_index : Int) (insn_index : Nat) (i : Instruction)
    (rest : List Instruction) (next : Option Nat) (st : AlignState) (subf : FunctionDecl)
    (args : List Value) (isVoidTy : Bool)
    (hk : i.kind = .call (some subf) args isVoidTy) (hexc : st.in_exception = false)
    (hpeek : (log st.cursor).type ≠ TUBTFE_LLVM_EXCEPTION)
    (hld : startswith subf.name "__ld" = false) (hst : startswith subf.name "__st" = false)
    (hcpy : startswith subf.name "llvm.memcpy" = false)
    (hset : startswith subf.name "llvm.memset" = false)
    (hin : startswith subf.name "helper_in" = false)
    (hout : startswith subf.name "helper_out" = false)
    (hign : (subf.name == "log_dynval" || subf.isDeclaration || subf.isIntrinsic) = false)
    (hfind : M.find? (fun g => g.addr == subf.addr) = some g) :
    process_insns M log (fuel + 1) f bb_index insn_index (i :: rest) next st =
      (match process_func M log fuel g st with
       | none => none
       | some st1 =>
         process_insns M log fuel f bb_index (insn_index + 1) rest next
           { cursor := st1.cursor,
             serialized := st1.serialized ++
               [{ index := pack_index insn_index bb_index, func := f, insn := i,
                  dyn := none, dyn2 := none }],
             in_exception := st1.in_exception }) ∧
    ∀ st1, process_func M log fuel g st = some st1 →
      ∃ callee_entries, st1.serialized = st.serialized ++ callee_entries := by
  constructor
  · simp only [process_insns, hexc, hpeek, hk, hld, hst, hcpy, hset, hin, hout, hign, hfind,
      Bool.false_eq_true, if_false, process_func, push_entry, Nat.add_zero]
    cases g.blocks with
    | nil => rfl
    | cons entry blocks => rfl
  · intro st1 h
    exact alignSteps_append log st st1 (process_func_steps M log fuel g st st1 h)

/-- Instance of `call_post_order` at the call of `leaf_k` in `mid_h`: the run over
`call leaf_k(env_h); ret void` appends the return of `leaf_k`, then the call site in `mid_h`,
then the return of `mid_h`, and consumes no record. -/
theorem call_post_order_witness :
    (callAt 12312 12304 fnK.toFunctionDecl (namedValue 12296 "env_h")).kind =
      .call (some fnK.toFunctionDecl) [namedValue 12296 "env_h"] true ∧
    (fnOnlyLog 0).type ≠ TUBTFE_LLVM_EXCEPTION ∧
    nestedModule.find? (fun g => g.addr == fnK.toFunctionDecl.addr) = some fnK ∧
    process_func nestedModule fnOnlyLog 3 fnK
      { cursor := 0, serialized := [], in_exception := false } =
      some { cursor := 0, serialized := [entryAt fnK 0 (retVoidAt 8216 8208)],
             in_exception := false } ∧
    process_insns nestedModule fnOnlyLog 4 fnH 0 0
      [callAt 12312 12304 fnK.toFunctionDecl (namedValue 12296 "env_h"),
       retVoidAt 12320 12304] none
      { cursor := 0, serialized := [], in_exception := false } =
    some { cursor := 0,
           serialized :=
             [entryAt fnK 0 (retVoidAt 8216 8208),
              entryAt fnH 0 (callAt 12312 12304 fnK.toFunctionDecl (namedValue 12296 "env_h")),
              entryAt fnH 1 (retVoidAt 12320 12304)],
           in_exception := false } := by
  have hg : process_func nestedModule fnOnlyLog 3 fnK
      { cursor := 0, serialized := [], in_exception := false } =
      some { cursor := 0, serialized := [entryAt fnK 0 (retVoidAt 8216 8208)],
             in_exception := false } := by decide
  have h := (call_post_order nestedModule fnOnlyLog 3 fnH fnK 0 0
    (callAt 12312 12304 fnK.toFunctionDecl (namedValue 12296 "env_h"))
    [retVoidAt 12320 12304] none { cursor := 0, serialized := [], in_exception := false }
    fnK.toFunctionDecl [namedValue 12296 "env_h"] true rfl rfl (by decide) (by decide)
    (by decide) (by decide) (by decide) (by decide) (by decide) (by decide) (by decide)).1
  refine ⟨rfl, by decide, by decide, hg, ?_⟩
  rw [h, hg]
  decide

/-! ## Aligner: PHI -/

theorem findIndexFrom_first {α : Type} (p : α → Bool) (before : List α) (x : α)
    (after : List α) (hx : p x = true) (hb : ∀ y ∈ before, p y = false) :
    ∀ i, findIndexFrom p (before ++ x :: after) i = some (i + before.length) := by
  induction before with
  | nil => intro i; simp [findIndexFrom, hx]
  | cons y ys ih =>
    intro i
    have hy : p y = false := hb y (List.mem_cons_self _ _)
    have hys : ∀ z ∈ ys, p z = false := fun z hz => hb z (List.mem_cons_of_mem _ hz)
    have hstep : findIndexFrom p ((y :: ys) ++ x :: after) i =
        findIndexFrom p (ys ++ x :: after) (i + 1) := by
      simp [findIndexFrom, hy]
    rw [hstep, ih hys (i + 1), List.length_cons, Option.some.injEq]
    omega

theorem phi_block_index_first (before after : List (Value × Nat)) (v : Value) (b : Nat)
    (hb : ∀ p ∈ before, p.2 ≠ b) :
    phi_block_index (before ++ (v, b) :: after) b = before.length := by
  unfold phi_block_index
  rw [findIndexFrom_first (fun vb => vb.2 == b) before (v, b) after (by simp)
    (fun y hy => by simpa using hb y hy) 0]
  simp

theorem phi_arg1_last_non_phi (incoming : List (Value × Nat)) (pre phis : List trace_entry)
    (e0 : trace_entry) (h0 : e0.insn.isPHI = false) (hp : ∀ p ∈ phis, p.insn.isPHI = true) :
    phi_arg1 incoming (pre ++ e0 :: phis) = phi_block_index incoming e0.insn.parent := by
  unfold phi_arg1
  have hnone : phis.reverse.find? (fun e => !e.insn.isPHI) = none := by
    rw [List.find?_eq_none]
    intro x hx
    simp [hp x (List.mem_reverse.mp hx)]
  simp [List.reverse_append, List.find?_append, hnone, h0]

theorem phi_arg1_no_entry (incoming : List (Value × Nat)) (s : List trace_entry)
    (hp : ∀ e ∈ s, e.insn.isPHI = true) : phi_arg1 incoming s = 2 ^ 64 - 1 := by
  unfold phi_arg1
  have hnone : s.reverse.find? (fun e => !e.insn.isPHI) = none := by
    rw [List.find?_eq_none]
    intro x hx
    simp [hp x (List.mem_reverse.mp hx)]
  rw [hnone]

/-- C18 (PHI follows the dynamically taken edge): when the aligner reaches a PHI (not in an
exception, no `EXCEPTION` record at the cursor): if the sequence is `pre ++ e0 :: phis` with
`e0` not a PHI and `phis` all PHIs, and the first incoming edge of the PHI from the parent
block of `e0` is at position `before.length` with value `v`, then exactly one entry is
appended, whose allocated record has `arg1 = before.length`, no record is consumed, and the
use/def extractor on that entry gives uses = the name of `v` (nothing if `v` is a constant)
and defs = the name of the PHI; if every entry of the sequence is a PHI (or there is none),
alignment aborts. -/
theorem phi_alignment (K : MemlogEnums) (M : List Function) (log : Nat → TUBTEntry)
    (fuel : Nat) (f : Function) (bb_index : Int) (insn_index : Nat) (i : Instruction)
    (rest : List Instruction) (next : Option Nat) (st : AlignState)
    (incoming : List (Value × Nat)) (hk : i.kind = .phi incoming)
    (hexc : st.in_exception = false)
    (hpeek : (log st.cursor).type ≠ TUBTFE_LLVM_EXCEPTION) :
    (∀ (pre phis : List trace_entry) (e0 : trace_entry) (before after : List (Value × Nat))
      (v : Value), st.serialized = pre ++ e0 :: phis → e0.insn.isPHI = false →
      (∀ p ∈ phis, p.insn.isPHI = true) →
      incoming = before ++ (v, e0.insn.parent) :: after →
      (∀ p ∈ before, p.2 ≠ e0.insn.parent) → before.length < 2 ^ 32 →
      process_insns M log (fuel + 1) f bb_index insn_index (i :: rest) next st =
        process_insns M log fuel f bb_index (insn_index + 1) rest next
          { cursor := st.cursor,
            serialized := st.serialized ++
              [{ index := pack_index insn_index bb_index, func := f, insn := i,
                 dyn := some (.synth (phiRow before.length)), dyn2 := none }],
            in_exception := st.in_exception } ∧
      get_uses_and_defs K
        { index := pack_index insn_index bb_index, func := f, insn := i,
          dyn := some (.synth (phiRow before.length)), dyn2 := none } ∅ ∅ =
        some (if v.isConstant then ∅ else {get_value_name v}, {get_value_name i.toValue})) ∧
    ((∀ e ∈ st.serialized, e.insn.isPHI = true) →
      process_insns M log (fuel + 1) f bb_index insn_index (i :: rest) next st = none) := by
  constructor
  · intro pre phis e0 before after v hs h0 hp hin hb hlen
    have harg : phi_arg1 incoming st.serialized = before.length := by
      rw [hs, phi_arg1_last_non_phi incoming pre phis e0 h0 hp, hin,
        phi_block_index_first before after v _ hb]
    have hne : before.length ≠ 2 ^ 64 - 1 := by
      have : (2 : Nat) ^ 32 < 2 ^ 64 - 1 := by norm_num
      omega
    constructor
    · simp only [process_insns, hexc, hpeek, hk, harg, Bool.false_eq_true, if_false]
      rw [if_pos hne]
      simp only [push_entry, phiRow, hexc, Nat.add_zero]
    · have hget : (before ++ (v, e0.insn.parent) :: after).get? (before.length % 2 ^ 32) =
          some (v, e0.insn.parent) := by
        rw [Nat.mod_eq_of_lt hlen, List.get?_eq_getElem?,
          List.getElem?_append_right (le_refl _)]
        simp
      simp only [get_uses_and_defs, hk, handlePHI, DynPtr.row, phiRow, hin, hget,
        insertValue_empty]
      simp [Instruction.toValue]
  · intro hp
    have harg := phi_arg1_no_entry incoming st.serialized hp
    simp only [process_insns, hexc, hpeek, hk, harg, Bool.false_eq_true, if_false]
    simp

/-- Instance of `phi_alignment` at the first PHI of block `join` of `phiFunc`, reached through
the branch of block `entry`: the allocated record has `arg1 = 1` (the edge from `entry` is the
second incoming edge of `m`), the uses are `{b}` and the defs `{m}`; the whole run appends the
branch, the two PHIs (the second with `arg1 = 0`) and the return. -/
theorem phi_alignment_witness :
    phiM.kind = .phi [(namedValue 49300 "a", 49184), (namedValue 49308 "b", 49168)] ∧
    (phiLog 1).type ≠ TUBTFE_LLVM_EXCEPTION ∧
    brJoinEntry.insn.isPHI = false ∧
    get_uses_and_defs sampleEnums
      { index := pack_index 0 2, func := phiFunc, insn := phiM,
        dyn := some (.synth (phiRow 1)), dyn2 := none } ∅ ∅ = some ({"b"}, {"m"}) ∧
    process_func [phiFunc] phiLog 8 phiFunc
      { cursor := 0, serialized := [], in_exception := false } =
    some { cursor := 1,
           serialized :=
             [brJoinEntry,
              { index := pack_index 0 2, func := phiFunc, insn := phiM,
                dyn := some (.synth (phiRow 1)), dyn2 := none },
              { index := pack_index 1 2, func := phiFunc, insn := phiN,
                dyn := some (.synth (phiRow 0)), dyn2 := none },
              { index := pack_index 2 2, func := phiFunc, insn := retVoidAt 49224 49200,
                dyn := none, dyn2 := none }],
           in_exception := false } := by
  have h := ((phi_alignment sampleEnums [phiFunc] phiLog 3 phiFunc 2 0 phiM
    [phiN, retVoidAt 49224 49200] none
    { cursor := 1, serialized := [brJoinEntry], in_exception := false }
    [(namedValue 49300 "a", 49184), (namedValue 49308 "b", 49168)] rfl rfl (by decide)).1
    [] [] brJoinEntry [(namedValue 49300 "a", 49184)] [] (namedValue 49308 "b") rfl rfl
    (by simp) rfl (by decide) (by decide)).2
  exact ⟨rfl, by decide, rfl, h, by decide⟩

/-! ## Addr-entry decoding -/

/-- C24 as stated fails: for `x = 2^48` the decoded offset is 0, not `x div 65536 = 2^32`;
for `x = 2^47` it is `-2^31`. -/
theorem addrentry_offset_counterexample :
    (extract_addrentry (2 ^ 48)).2.2 = 0 ∧ (extract_addrentry (2 ^ 47)).2.2 = -2 ^ 31 ∧
    ¬ (∀ x : Nat, x < 2 ^ 64 →
        extract_addrentry x =
          (((x % 256 : Nat) : Int), (((x / 256) % 256 : Nat) : Int),
            ((x / 65536 : Nat) : Int))) := by
  refine ⟨by decide, by decide, ?_⟩
  intro h
  have h1 := h (2 ^ 48) (by norm_num)
  have h2 : (extract_addrentry (2 ^ 48)).2.2 = ((2 ^ 48 / 65536 : Nat) : Int) := by rw [h1]
  revert h2
  decide

/-- C24, amended: for every 64-bit `x`, `extract_addrentry` yields kind `x mod 256`, flag
`(x div 256) mod 256`, and as offset the `int` that holds the low 32 bits of `x div 65536`:
the number in `[-2^31, 2^31)` congruent to `x div 65536` modulo `2^32`; this is `x div 65536`
itself exactly when `x < 2^47`. -/
theorem addrentry_decoding (x : Nat) (hx : x < 2 ^ 64) :
    (extract_addrentry x).1 = ((x % 256 : Nat) : Int) ∧
    (extract_addrentry x).2.1 = (((x / 256) % 256 : Nat) : Int) ∧
    -2 ^ 31 ≤ (extract_addrentry x).2.2 ∧ (extract_addrentry x).2.2 < 2 ^ 31 ∧
    ((extract_addrentry x).2.2 - ((x / 65536 : Nat) : Int)) % 2 ^ 32 = 0 ∧
    ((extract_addrentry x).2.2 = ((x / 65536 : Nat) : Int) ↔ x < 2 ^ 47) := by
  have hm : x % 2 ^ 64 = x := Nat.mod_eq_of_lt hx
  simp only [extract_addrentry, hm]
  refine ⟨trivial, trivial, ?_, ?_, ?_, ?_⟩
  · split <;> omega
  · split <;> omega
  · split <;> omega
  · split <;> omega

/-- Instance of `addrentry_decoding` at `x = 0x30105` (kind 5, flag 1, offset 3). -/
theorem addrentry_decoding_witness :
    (196869 : Nat) < 2 ^ 64 ∧ extract_addrentry 196869 = (5, 1, 3) ∧
    (extract_addrentry 196869).2.2 = ((196869 / 65536 : Nat) : Int) :=
  ⟨by norm_num, by decide,
    (addrentry_decoding 196869 (by norm_num)).2.2.2.2.2.mpr (by norm_num)⟩

/-! ## Slicer: empty working set -/

theorem update_work_empty (marked : MarkedMap) (t : trace_entry) (U defs : Finset String) :
    update_work false marked ∅ t U defs = some (marked, ∅) := by
  simp [update_work]

theorem slice_step_empty (K : MemlogEnums) (ib : Bool) (f : Function) (s s1 : SliceState)
    (t : trace_entry) (h : slice_step K ib f s t = some s1) (m : MarkedMap) :
    slice_step K false f { marked := m, work := ∅, argmap_stack := s.argmap_stack } t =
      some { marked := m, work := ∅, argmap_stack := s1.argmap_stack } := by
  obtain ⟨uses0, defs, U, hud, hr, _, hst⟩ := slice_step_inv K ib f s s1 t h
  simp [slice_step, hud, hr, update_work_empty, hst]

theorem slice_loop_empty (K : MemlogEnums) (ib : Bool) (f : Function) (m : MarkedMap) :
    ∀ (visited : List trace_entry) (s s2 : SliceState),
      slice_loop K ib f s visited = some s2 →
      slice_loop K false f { marked := m, work := ∅, argmap_stack := s.argmap_stack } visited =
        some { marked := m, work := ∅, argmap_stack := s2.argmap_stack } := by
  intro visited
  induction visited with
  | nil =>
    intro s s2 h
    simp only [slice_loop, Option.some.injEq] at h
    subst h
    rfl
  | cons t rest ih =>
    intro s s2 h
    obtain ⟨s1, hs, hl⟩ := slice_loop_cons_inv K ib f s s2 t rest h
    rw [slice_loop_cons K false f _ _ t rest (slice_step_empty K ib f s s1 t hs m)]
    exact ih s1 s2 hl

/-- C26 (stopping on an empty working set loses nothing): for every non-empty aligned
sequence on which `slice_trace` returns for some working set, marked map and setting of
`include_branches`, `slice_trace` with `include_branches` off and an empty working set
returns as well, with the marked map unchanged (no entry marked) and an empty working set. -/
theorem empty_work_marks_nothing (K : MemlogEnums) (ib : Bool) (t0 : trace_entry)
    (rest : List trace_entry) (marked0 marked1 : MarkedMap) (w0 w1 : Finset String)
    (h : slice_trace K ib (t0 :: rest) marked0 w0 = some (marked1, w1)) (m : MarkedMap) :
    slice_trace K false (t0 :: rest) m ∅ = some (m, ∅) := by
  obtain ⟨s, a, args, hl, ha, _, _⟩ := slice_trace_inv K ib t0 rest marked0 marked1 w0 w1 h
  have he := slice_loop_empty K ib t0.func m _ _ s hl
  have hw : slice_walk K false (t0 :: rest) m ∅ =
      slice_loop K false t0.func { marked := m, work := ∅, argmap_stack := [] }
        (t0 :: rest).reverse := rfl
  have h0 : slice_trace K false (t0 :: rest) m ∅ =
      match slice_walk K false (t0 :: rest) m ∅ with
      | none => none
      | some s =>
        match t0.func.args with
        | [] => none
        | a :: _ => some (s.marked, s.work.erase (get_value_name a)) := rfl
  rw [h0, hw, he, ha]
  simp

/-- Instance of `empty_work_marks_nothing` on the aligned sequence of `addStoreFunc`: with
the criterion `REG_0` the store and the add are marked; with an empty working set nothing is
marked and the working set stays empty. -/
theorem empty_work_marks_nothing_witness :
    slice_trace sampleEnums false addStoreTrace [] {"REG_0"} =
      some ([((28672, 0), {0, 1})], {"p0", "r0"}) ∧
    slice_trace sampleEnums false addStoreTrace [] ∅ = some ([], ∅) := by
  have hrun : slice_trace sampleEnums false addStoreTrace [] {"REG_0"} =
      some ([((28672, 0), {0, 1})], {"p0", "r0"}) := by decide
  exact ⟨hrun, empty_work_marks_nothing sampleEnums false _ _ [] _ {"REG_0"} _ hrun []⟩

/-! ## Slicer: inter-procedural remap -/

theorem slice_step_eq (K : MemlogEnums) (ib : Bool) (f : Function) (s : SliceState)
    (t : trace_entry) (uses0 defs U w : Finset String) (m : MarkedMap) (st : List ArgMap)
    (hget : get_uses_and_defs K t ∅ ∅ = some (uses0, defs))
    (hremap : remap_uses f s.argmap_stack t uses0 = some U)
    (hupd : update_work ib s.marked s.work t U defs = some (m, w))
    (hstk : update_argmap_stack s.argmap_stack t = some st) :
    slice_step K ib f s t = some { marked := m, work := w, argmap_stack := st } := by
  simp [slice_step, hget, hremap, hupd, hstk]

theorem sort_pair_ab : Finset.sort (· ≤ ·) ({"a", "b"} : Finset String) = ["a", "b"] := by
  have h1 : ∀ b ∈ ({"b"} : Finset String), "a" ≤ b := by
    intro b hb
    rw [Finset.mem_singleton] at hb
    subst hb
    rw [String.le_iff_toList_le]
    decide
  rw [Finset.sort_insert (· ≤ ·) h1 (by decide), Finset.sort_singleton]

theorem remap_sumAdd :
    remap_uses sumCaller [[("a", "b"), ("b", "c")]] (entryAt sumFunc 0 sumAdd) {"a", "b"} =
      some {"c"} := by
  have hne : (entryAt sumFunc 0 sumAdd).func.addr ≠ sumCaller.addr := by decide
  have hu : ({"a", "b"} : Finset String) ≠ ∅ := by decide
  unfold remap_uses
  rw [if_pos hne, if_neg hu]
  simp only [sort_pair_ab, List.foldl]
  decide

theorem remap_sumRet :
    remap_uses sumCaller [[("a", "b"), ("b", "c")]] (entryAt sumFunc 1 sumRet) {"x"} =
      some {"x"} := by
  have hne : (entryAt sumFunc 1 sumRet).func.addr ≠ sumCaller.addr := by decide
  have hu : ({"x"} : Finset String) ≠ ∅ := by decide
  unfold remap_uses
  rw [if_pos hne, if_neg hu]
  simp only [Finset.sort_singleton, List.foldl]
  decide

theorem sumTrace_walk :
    slice_loop sampleEnums false sumCaller { marked := [], work := {"r"}, argmap_stack := [] }
      sumTrace.reverse =
    some { marked := [((57344, 0), {1}), ((53248, 0), {0, 1})], work := {"c"},
           argmap_stack := [] } := by
  have hrev : sumTrace.reverse =
      [entryAt sumCaller 2 (retVoidAt 57384 57360), entryAt sumCaller 1 sumCall,
       entryAt sumFunc 1 sumRet, entryAt sumFunc 0 sumAdd, entryAt sumCaller 0 callerAdd] := rfl
  have h1 : slice_step sampleEnums false sumCaller
      { marked := [], work := {"r"}, argmap_stack := [] }
      (entryAt sumCaller 2 (retVoidAt 57384 57360)) =
      some { marked := [], work := {"r"}, argmap_stack := [] } :=
    slice_step_eq _ _ _ _ _ ∅ {"tcg-llvm-tb-9-400070.retval"} ∅ _ _ _
      (by decide) (by decide) (by decide) (by decide)
  have h2 : slice_step sampleEnums false sumCaller
      { marked := [], work := {"r"}, argmap_stack := [] } (entryAt sumCaller 1 sumCall) =
      some { marked := [((57344, 0), {1})], work := {"sum2.retval"},
             argmap_stack := [[("a", "b"), ("b", "c")]] } :=
    slice_step_eq _ _ _ _ _ {"sum2.retval"} {"r"} {"sum2.retval"} _ _ _
      (by decide) (by decide) (by decide) (by decide)
  have h3 : slice_step sampleEnums false sumCaller
      { marked := [((57344, 0), {1})], work := {"sum2.retval"},
        argmap_stack := [[("a", "b"), ("b", "c")]] } (entryAt sumFunc 1 sumRet) =
      some { marked := [((57344, 0), {1}), ((53248, 0), {1})], work := {"x"},
             argmap_stack := [[("a", "b"), ("b", "c")]] } :=
    slice_step_eq _ _ _ _ _ {"x"} {"sum2.retval"} {"x"} _ _ _
      (by decide) remap_sumRet (by decide) (by decide)
  have h4 : slice_step sampleEnums false sumCaller
      { marked := [((57344, 0), {1}), ((53248, 0), {1})], work := {"x"},
        argmap_stack := [[("a", "b"), ("b", "c")]] } (entryAt sumFunc 0 sumAdd) =
      some { marked := [((57344, 0), {1}), ((53248, 0), {0, 1})], work := {"c"},
             argmap_stack := [] } :=
    slice_step_eq _ _ _ _ _ {"a", "b"} {"x"} {"c"} _ _ _
      (by rw [Finset.pair_comm]; decide) remap_sumAdd (by decide) (by decide)
  have h5 : slice_step sampleEnums false sumCaller
      { marked := [((57344, 0), {1}), ((53248, 0), {0, 1})], work := {"c"},
        argmap_stack := [] } (entryAt sumCaller 0 callerAdd) =
      some { marked := [((57344, 0), {1}), ((53248, 0), {0, 1})], work := {"c"},
             argmap_stack := [] } :=
    slice_step_eq _ _ _ _ _ ∅ {"t1"} ∅ _ _ _ (by decide) (by decide) (by decide) (by decide)
  rw [hrev, slice_loop_cons _ _ _ _ _ _ _ h1, slice_loop_cons _ _ _ _ _ _ _ h2,
    slice_loop_cons _ _ _ _ _ _ _ h3, slice_loop_cons _ _ _ _ _ _ _ h4,
    slice_loop_cons _ _ _ _ _ _ _ h5]
  rfl

/-- C21 at the failing input: in the aligned sequence of `sumCaller` the entry `x = add a, b`
of the helper `sum2` has uses `{a, b}`; the top map at that point, built at the call site
`r = sum2(b, c)`, is `{a ↦ b, b ↦ c}`; the image of the uses under the map is `{b, c}`, but
the remapping loop, which erases and inserts on the set it runs over, replaces `a` by `b` and
then this `b` by `c`, and yields `{c}`. Slicing the sequence on the criterion `r` returns the
working set `{c}`: the dependency on the caller's `b` is lost. -/
theorem remap_chain_drops_use :
    process_func [sumCaller, sumFunc] fnOnlyLog 8 sumCaller
      { cursor := 0, serialized := [], in_exception := false } =
      some { cursor := 0, serialized := sumTrace, in_exception := false } ∧
    bind_args sumFunc.args [namedValue 57400 "b", namedValue 57408 "c"] =
      [("a", "b"), ("b", "c")] ∧
    get_uses_and_defs sampleEnums (entryAt sumFunc 0 sumAdd) ∅ ∅ = some ({"a", "b"}, {"x"}) ∧
    remap_image [("a", "b"), ("b", "c")] {"a", "b"} = {"b", "c"} ∧
    remap_uses sumCaller [[("a", "b"), ("b", "c")]] (entryAt sumFunc 0 sumAdd) {"a", "b"} =
      some {"c"} ∧
    slice_trace sampleEnums false sumTrace [] {"r"} =
      some ([((57344, 0), {1}), ((53248, 0), {0, 1})], {"c"}) := by
  refine ⟨by decide, by decide, by rw [Finset.pair_comm]; decide, by decide, remap_sumAdd, ?_⟩
  have hw : slice_walk sampleEnums false sumTrace [] {"r"} =
      slice_loop sampleEnums false sumCaller
        { marked := [], work := {"r"}, argmap_stack := [] } sumTrace.reverse := rfl
  have h0 : slice_trace sampleEnums false sumTrace [] {"r"} =
      match slice_walk sampleEnums false sumTrace [] {"r"} with
      | none => none
      | some s => some (s.marked, s.work.erase "env") := rfl
  rw [h0, hw, sumTrace_walk]
  decide

/-! ## Slicer: the entry function -/

/-- C25 at the failing input: the translation block `fnExcF` starts with a call of the
defined function `exc_g`, so its aligned sequence starts with the entries of `exc_g`: the
function of the first entry is `exc_g`, not the translation block. `slice_trace` takes its
entry function from that entry; at the call site, an entry of the translation block with a
use, it remaps through the top of the still empty argument-binding stack and aborts. -/
theorem entry_func_is_callee :
    process_func [fnExcF, fnExcG] twoLoadLog 8 fnExcF
      { cursor := 1, serialized := [], in_exception := false } =
      some { cursor := 3, serialized := calleeFirstTrace, in_exception := false } ∧
    calleeFirstTrace.head?.map (fun e => e.func.name) = some "exc_g" ∧
    slice_trace sampleEnums false calleeFirstTrace [] {"REG_3"} = none := by
  refine ⟨by decide, by decide, by decide⟩

/-! ## Aligner: consumption of records -/

theorem log_offsets_push (s : List trace_entry) (e : trace_entry) :
    log_offsets (s ++ [e]) = log_offsets s ++
      (match e.dyn with
       | some (.log o _) => [o]
       | _ => []) := by
  unfold log_offsets
  rw [List.filterMap_append]
  congr 1
  cases hd : e.dyn with
  | none => simp [List.filterMap, hd]
  | some d =>
    cases d with
    | log o row => simp [List.filterMap, hd]
    | synth row => simp [List.filterMap, hd]

theorem memcpy_entries_push (s : List trace_entry) (e : trace_entry) :
    memcpy_entries (s ++ [e]) = memcpy_entries s + (if e.insn.isMemcpy then 1 else 0) := by
  unfold memcpy_entries
  rw [List.filter_append, List.length_append]
  congr 1
  cases h : e.insn.isMemcpy <;> simp [List.filter, h]

theorem consume_push_log (log : Nat → TUBTEntry) (c k : Nat) (st : AlignState) (index : Nat)
    (f : Function) (i : Instruction) (hexc : st.in_exception = false)
    (hk : k = 1 ∧ i.isMemcpy = false ∨ k = 2 ∧ i.isMemcpy = true)
    (hinv : ConsumeInv log c st) :
    ConsumeInv log c (push_entry st index f i (some (.log st.cursor (log st.cursor))) k) := by
  obtain ⟨h1, h2, h3, h4⟩ := hinv
  simp only [AlignState.frontier, hexc, Bool.false_eq_true, if_false] at h1 h3
  have hoff : log_offsets (st.serialized ++
      [{ index := index, func := f, insn := i,
         dyn := some (.log st.cursor (log st.cursor)), dyn2 := none }]) =
      log_offsets st.serialized ++ [st.cursor] := log_offsets_push _ _
  have hmem := memcpy_entries_push st.serialized
    { index := index, func := f, insn := i,
      dyn := some (.log st.cursor (log st.cursor)), dyn2 := none }
  refine ⟨?_, ?_, ?_, ?_⟩
  · simp only [push_entry, hoff, hmem, hexc, Bool.false_eq_true, if_false,
      List.length_append, List.length_singleton]
    rcases hk with ⟨hk1, hm⟩ | ⟨hk1, hm⟩
    · simp only [hm, Bool.false_eq_true, if_false]
      omega
    · simp only [hm, if_true]
      omega
  · simp only [push_entry, hoff]
    rw [List.pairwise_append]
    refine ⟨h2, List.pairwise_singleton _ _, ?_⟩
    intro a ha b hb
    rw [List.mem_singleton] at hb
    rw [hb]
    exact (h3 a ha).2
  · intro o ho
    simp only [push_entry, hoff, List.mem_append, List.mem_singleton] at ho
    simp only [AlignState.frontier, push_entry, hexc, Bool.false_eq_true, if_false]
    rcases ho with ho | ho
    · have := h3 o ho
      omega
    · rcases hk with ⟨hk1, _⟩ | ⟨hk1, _⟩ <;> omega
  · intro e he o row hd
    simp only [push_entry, List.mem_append, List.mem_singleton] at he
    rcases he with he | he
    · exact h4 e he o row hd
    · subst he
      simp only [Option.some.injEq, DynPtr.log.injEq] at hd
      rw [← hd.2, hd.1]

theorem consume_push_other (log : Nat → TUBTEntry) (c : Nat) (st : AlignState) (index : Nat)
    (f : Function) (i : Instruction) (d : Option DynPtr)
    (hd : ∀ o row, d ≠ some (.log o row)) (hm : i.isMemcpy = false)
    (hinv : ConsumeInv log c st) : ConsumeInv log c (push_entry st index f i d 0) := by
  obtain ⟨h1, h2, h3, h4⟩ := hinv
  have hoff : log_offsets (st.serialized ++
      [{ index := index, func := f, insn := i, dyn := d, dyn2 := none }]) =
      log_offsets st.serialized := by
    rw [log_offsets_push]
    cases d with
    | none => simp
    | some p =>
      cases p with
      | log o row => exact absurd rfl (hd o row)
      | synth row => simp
  have hmem := memcpy_entries_push st.serialized
    { index := index, func := f, insn := i, dyn := d, dyn2 := none }
  simp only [hm, Bool.false_eq_true, if_false, Nat.add_zero] at hmem
  have hfr : (push_entry st index f i d 0).frontier = st.frontier := by
    simp [AlignState.frontier, push_entry]
  refine ⟨?_, ?_, ?_, ?_⟩
  · simp only [push_entry, hoff, hmem, Nat.add_zero]
    exact h1
  · simp only [push_entry, hoff]
    exact h2
  · rw [hfr]
    simp only [push_entry, hoff]
    exact h3
  · intro e he o row hde
    simp only [push_entry, List.mem_append, List.mem_singleton] at he
    rcases he with he | he
    · exact h4 e he o row hde
    · subst he
      exact absurd hde (hd o row)

theorem consumeStep_inv (log : Nat → TUBTEntry) (c : Nat) (st st1 : AlignState)
    (hstep : AlignStep log st st1) (hinv : ConsumeInv log c st) : ConsumeInv log c st1 := by
  cases hstep with
  | exception hexc hty =>
    obtain ⟨h1, h2, h3, h4⟩ := hinv
    simp only [AlignState.frontier, hexc, Bool.false_eq_true, if_false] at h1 h3
    refine ⟨?_, h2, ?_, h4⟩
    · simp only [if_true]
      omega
    · intro o ho
      have := h3 o ho
      simpa [AlignState.frontier] using this
  | record index f i hexc hty hm =>
    exact consume_push_log log c 1 st index f i hexc (Or.inl ⟨rfl, hm⟩) hinv
  | record2 index f i hexc hty1 hty2 hm =>
    exact consume_push_log log c 2 st index f i hexc (Or.inr ⟨rfl, hm⟩) hinv
  | synth index f i row hexc hm =>
    exact consume_push_other log c st index f i _ (by simp) hm hinv
  | plain index f i hm =>
    exact consume_push_other log c st index f i _ (by simp) hm hinv

theorem consumeSteps_inv (log : Nat → TUBTEntry) (c : Nat) (st st1 : AlignState)
    (hsteps : Relation.ReflTransGen (AlignStep log) st st1) (hinv : ConsumeInv log c st) :
    ConsumeInv log c st1 := by
  induction hsteps with
  | refl => exact hinv
  | tail _ hstep ih => exact consumeStep_inv log c _ _ hstep ih

theorem consumeInv_start (log : Nat → TUBTEntry) (c : Nat) :
    ConsumeInv log c { cursor := c, serialized := [], in_exception := false } := by
  refine ⟨by simp [log_offsets, memcpy_entries], by simp [log_offsets], ?_, ?_⟩
  · intro o ho
    simp [log_offsets] at ho
  · intro e he
    simp at he

/-- C22 (each log record is consumed exactly once): for every run of `process_func` from
cursor `c` with an empty sequence that returns, the log offsets of the records attached as
dyn to the entries increase strictly along the sequence and lie in `[c, c')` for the returned
cursor `c'`; each attached record is the record the log holds at its offset; and `c'` is `c`
plus the number of these entries, plus one for every `llvm.memcpy` entry, plus one if the
run ended at an `EXCEPTION` record. -/
theorem record_consumption (M : List Function) (log : Nat → TUBTEntry) (fuel : Nat)
    (f : Function) (c : Nat) (st1 : AlignState)
    (hrun : process_func M log fuel f { cursor := c, serialized := [], in_exception := false }
      = some st1) :
    (log_offsets st1.serialized).Pairwise (· < ·) ∧
    (∀ o ∈ log_offsets st1.serialized, c ≤ o ∧ o < st1.cursor) ∧
    (∀ e ∈ st1.serialized, ∀ o row, e.dyn = some (.log o row) → row = log o) ∧
    st1.cursor = c + (log_offsets st1.serialized).length + memcpy_entries st1.serialized +
      (if st1.in_exception then 1 else 0) := by
  obtain ⟨h1, h2, h3, h4⟩ := consumeSteps_inv log c _ st1
    (process_func_steps M log fuel f _ st1 hrun) (consumeInv_start log c)
  refine ⟨h2, ?_, h4, h1⟩
  intro o ho
  have := h3 o ho
  unfold AlignState.frontier at this
  split at this <;> omega

/-- Instance of `record_consumption` on the block copy of `copyFunc`: the run from cursor 0
returns cursor 2 with one attached record (offset 0) and one `llvm.memcpy` entry. -/
theorem record_consumption_witness :
    process_func [copyFunc] copyLog 4 copyFunc
      { cursor := 0, serialized := [], in_exception := false } =
      some { cursor := 2,
             serialized :=
               [{ index := 0, func := copyFunc, insn := memcpyCall,
                  dyn := some (.log 0 (mkRow TUBTFE_LLVM_DV_LOAD 0 8192)), dyn2 := none },
                entryAt copyFunc 1 (retVoidAt 40992 40976)],
             in_exception := false } ∧
    log_offsets
      [{ index := 0, func := copyFunc, insn := memcpyCall,
         dyn := some (.log 0 (mkRow TUBTFE_LLVM_DV_LOAD 0 8192)), dyn2 := none },
       entryAt copyFunc 1 (retVoidAt 40992 40976)] = [0] ∧
    memcpy_entries
      [{ index := 0, func := copyFunc, insn := memcpyCall,
         dyn := some (.log 0 (mkRow TUBTFE_LLVM_DV_LOAD 0 8192)), dyn2 := none },
       entryAt copyFunc 1 (retVoidAt 40992 40976)] = 1 ∧
    (2 : Nat) = 0 + [0].length + 1 + 0 := by
  have hrun : process_func [copyFunc] copyLog 4 copyFunc
      { cursor := 0, serialized := [], in_exception := false } =
      some { cursor := 2,
             serialized :=
               [{ index := 0, func := copyFunc, insn := memcpyCall,
                  dyn := some (.log 0 (mkRow TUBTFE_LLVM_DV_LOAD 0 8192)), dyn2 := none },
                entryAt copyFunc 1 (retVoidAt 40992 40976)],
             in_exception := false } := by decide
  have h := (record_consumption [copyFunc] copyLog 4 copyFunc 0 _ hrun).2.2.2
  exact ⟨hrun, by decide, by decide, h⟩

/-! ## Index packing and marking -/

end Dynslice
